import Mathlib

/-!
# Scene-graph core: actor tree traversals and the shader uniform container

Shallow embedding of `ActorTreeAbstract.cpp`, `ActorTree.hpp` and `Uniform.hpp`.

* Drawables (`Actor*`) are referenced by identity; their state lives in a `World`
  (a store indexed by identity) because `computeBounds()` mutates the drawable in place.
* The collaborators whose code is outside the embedded files (`Actor`, `AABB`, `Camera`,
  `Frustum`) are parameters: `ActorApi`, `AABBOps`, `Camera`.
* Every traversal is a pair of mutually recursive functions: the member function itself and
  the loop over the child slots.
-/

namespace vl

/-! ## Data model -/

/-- An `Actor*`: the identity of a drawable. -/
abbrev ActorId := Nat

/-- A `Transform*`: the identity of a transform node. -/
abbrev TransformId := Nat

/-- A call made to an external collaborator, recorded in call order. -/
inductive Call where
  | computeBounds (actor : ActorId)
  | computeWorldMatrixRecursive (transform : TransformId)
  deriving DecidableEq, Repr

/-- The interface of `vl::Actor` used by the tree, over an abstract drawable state `A`:
`isEnabled()`, `enableMask()`, `computeBounds()` (which updates the drawable),
`boundingBox()` and `boundingSphere()`. -/
structure ActorApi (A B S : Type) where
  isEnabled : A → Bool
  enableMask : A → Nat
  computeBounds : A → A
  boundingBox : A → B
  boundingSphere : A → S

/-- The interface of `vl::AABB` used by `computeAABB`: the default-constructed (null) box
`AABB aabb;` and the union `aabb += other`. -/
structure AABBOps (B : Type) where
  null : B
  add : B → B → B

/-- The interface of `vl::Camera` used by the tree: `camera->frustum().cull(aabb)` and
`camera->frustum().cull(sphere)`. -/
structure Camera (B S : Type) where
  cullBox : B → Bool
  cullSphere : S → Bool

/-- The mutable state outside the tree: the state of every drawable and the log of the
collaborator calls made so far. -/
structure World (A : Type) where
  actor : ActorId → A
  log : List Call

/-- Effect of `actor->computeBounds()` on the world. -/
def World.computeBounds {A B S : Type} (api : ActorApi A B S) (w : World A) (a : ActorId) :
    World A :=
  { actor := Function.update w.actor a (api.computeBounds (w.actor a))
    log := w.log ++ [Call.computeBounds a] }

/-- A node of the tree (`ActorTreeAbstract` with the children storage of `ActorTree`):
`mActors`, `mChildren` (a slot may hold a null reference), `mEnabled`, `mAABB`. -/
inductive ActorTree (B : Type) where
  | node (mActors : List ActorId) (mChildren : List (Option (ActorTree B)))
      (mEnabled : Bool) (mAABB : B)

/-- The `actors()` accessor. -/
def ActorTree.actors {B : Type} : ActorTree B → List ActorId
  | .node a _ _ _ => a

/-- The `children()` accessor. -/
def ActorTree.children {B : Type} : ActorTree B → List (Option (ActorTree B))
  | .node _ c _ _ => c

/-- The `isEnabled()` accessor. -/
def ActorTree.isEnabled {B : Type} : ActorTree B → Bool
  | .node _ _ e _ => e

/-- The `aabb()` accessor. -/
def ActorTree.aabb {B : Type} : ActorTree B → B
  | .node _ _ _ b => b

/-- A node is designated by the child indices leading to it from the node a call is made on;
`[]` is that node itself (`this`). -/
abbrev Path := List Nat

/-! ## `computeAABB` -/

/-- The first loop of `computeAABB`: for each own actor, `computeBounds()` and then
`aabb += boundingBox()`. -/
def computeAABBActors {A B S : Type} (api : ActorApi A B S) (ops : AABBOps B) :
    List ActorId → B → World A → B × World A
  | [], aabb, w => (aabb, w)
  | a :: rest, aabb, w =>
    computeAABBActors api ops rest
      (ops.add aabb (api.boundingBox ((w.computeBounds api a).actor a)))
      (w.computeBounds api a)

mutual
/-- The member function `ActorTreeAbstract::computeAABB()`: returns the updated subtree and world. -/
def computeAABB {A B S : Type} (api : ActorApi A B S) (ops : AABBOps B) :
    ActorTree B → World A → ActorTree B × World A
  | .node actors children enabled _, w =>
    (.node actors
        (computeAABBChildren api ops children (computeAABBActors api ops actors ops.null w).1
          (computeAABBActors api ops actors ops.null w).2).1
        enabled
        (computeAABBChildren api ops children (computeAABBActors api ops actors ops.null w).1
          (computeAABBActors api ops actors ops.null w).2).2.1,
      (computeAABBChildren api ops children (computeAABBActors api ops actors ops.null w).1
          (computeAABBActors api ops actors ops.null w).2).2.2)
/-- The second loop of `computeAABB`: for each non-null child, `computeAABB()` on it and then
`aabb += child->aabb()`. Returns the updated slots, the accumulated box and the world. -/
def computeAABBChildren {A B S : Type} (api : ActorApi A B S) (ops : AABBOps B) :
    List (Option (ActorTree B)) → B → World A → List (Option (ActorTree B)) × B × World A
  | [], aabb, w => ([], aabb, w)
  | none :: rest, aabb, w =>
    (none :: (computeAABBChildren api ops rest aabb w).1,
      (computeAABBChildren api ops rest aabb w).2)
  | some c :: rest, aabb, w =>
    (some (computeAABB api ops c w).1 ::
        (computeAABBChildren api ops rest (ops.add aabb (computeAABB api ops c w).1.aabb)
          (computeAABB api ops c w).2).1,
      (computeAABBChildren api ops rest (ops.add aabb (computeAABB api ops c w).1.aabb)
          (computeAABB api ops c w).2).2)
end

/-! ## `extractActors` -/

mutual
/-- The member function `ActorTreeAbstract::extractActors(list)`: returns the list after the call. -/
def extractActors {B : Type} : ActorTree B → List ActorId → List ActorId
  | .node actors children _ _, list =>
    extractActorsChildren children (actors.foldl (fun l a => l ++ [a]) list)
/-- The loop of `extractActors` over the child slots. -/
def extractActorsChildren {B : Type} : List (Option (ActorTree B)) → List ActorId → List ActorId
  | [], list => list
  | none :: rest, list => extractActorsChildren rest list
  | some c :: rest, list => extractActorsChildren rest (extractActors c list)
end

/-! ## `extractVisibleActors` -/

/-- The test `enable_mask & actor->enableMask()` on unsigned masks, read as a condition. -/
def maskIntersects (enable_mask actorMask : Nat) : Bool :=
  (enable_mask &&& actorMask) != 0

/-- The test `camera && camera->frustum().cull(aabb())` of a possibly null camera. -/
def cameraCullsBox {B S : Type} (camera : Option (Camera B S)) (aabb : B) : Bool :=
  match camera with
  | some c => c.cullBox aabb
  | none => false

/-- The test `camera && camera->frustum().cull(boundingSphere())` of a possibly null camera. -/
def cameraCullsSphere {B S : Type} (camera : Option (Camera B S)) (sphere : S) : Bool :=
  match camera with
  | some c => c.cullSphere sphere
  | none => false

/-- The loop of `extractVisibleActors` over the node's own actors. -/
def extractVisibleOwn {A B S : Type} (api : ActorApi A B S) (camera : Option (Camera B S))
    (enable_mask : Nat) : List ActorId → List ActorId → World A → List ActorId × World A
  | [], list, w => (list, w)
  | a :: rest, list, w =>
    if api.isEnabled (w.actor a) && maskIntersects enable_mask (api.enableMask (w.actor a)) then
      if cameraCullsSphere camera (api.boundingSphere ((w.computeBounds api a).actor a)) then
        extractVisibleOwn api camera enable_mask rest list (w.computeBounds api a)
      else
        extractVisibleOwn api camera enable_mask rest (list ++ [a]) (w.computeBounds api a)
    else
      extractVisibleOwn api camera enable_mask rest list w

mutual
/-- The member function `ActorTreeAbstract::extractVisibleActors(list, camera, enable_mask)`.
`defaultMask` is the default argument of `enable_mask` in the declaration, which the
recursive call relies on. Returns the list and the world after the call. -/
def extractVisibleActors {A B S : Type} (api : ActorApi A B S) (defaultMask : Nat) :
    ActorTree B → List ActorId → Option (Camera B S) → Nat → World A → List ActorId × World A
  | .node actors children enabled aabb, list, camera, enable_mask, w =>
    if !enabled || cameraCullsBox camera aabb then
      (list, w)
    else
      extractVisibleChildren api defaultMask children
        (extractVisibleOwn api camera enable_mask actors list w).1 camera
        (extractVisibleOwn api camera enable_mask actors list w).2
/-- The loop of `extractVisibleActors` over the child slots: `child(i)->extractVisibleActors(list,
camera)`, without the caller's mask. -/
def extractVisibleChildren {A B S : Type} (api : ActorApi A B S) (defaultMask : Nat) :
    List (Option (ActorTree B)) → List ActorId → Option (Camera B S) → World A →
      List ActorId × World A
  | [], list, _, w => (list, w)
  | none :: rest, list, camera, w => extractVisibleChildren api defaultMask rest list camera w
  | some c :: rest, list, camera, w =>
    extractVisibleChildren api defaultMask rest
      (extractVisibleActors api defaultMask c list camera defaultMask w).1 camera
      (extractVisibleActors api defaultMask c list camera defaultMask w).2
end

/-! ## `eraseActor` -/

/-- Modelled from the spec: `Collection::find` is missing from the sources; it is the linear
search by reference identity returning the index of the first match, or the not-found
sentinel (`none`). -/
def Collection.find : List ActorId → ActorId → Option Nat
  | [], _ => none
  | x :: rest, actor => if x = actor then some 0 else (Collection.find rest actor).map (· + 1)

/-- Modelled from the spec: `Collection::eraseAt(pos)` is missing from the sources; it removes
the entry at index `pos`. -/
def Collection.eraseAt (l : List ActorId) (pos : Nat) : List ActorId :=
  l.eraseIdx pos

mutual
/-- The member function `ActorTreeAbstract::eraseActor(actor)`: returns the node the actor was
removed from (`none` is `NULL`) and the updated subtree. -/
def eraseActor {B : Type} (actor : ActorId) : ActorTree B → Option Path × ActorTree B
  | .node actors children enabled aabb =>
    match Collection.find actors actor with
    | some pos => (some [], .node (Collection.eraseAt actors pos) children enabled aabb)
    | none =>
      ((eraseActorChildren actor children 0).1,
        .node actors (eraseActorChildren actor children 0).2 enabled aabb)
/-- The loop `for(int i=0; !node && i<childrenCount(); ++i)` of `eraseActor`, from index `i` on. -/
def eraseActorChildren {B : Type} (actor : ActorId) :
    List (Option (ActorTree B)) → Nat → Option Path × List (Option (ActorTree B))
  | [], _ => (none, [])
  | none :: rest, i =>
    ((eraseActorChildren actor rest (i + 1)).1, none :: (eraseActorChildren actor rest (i + 1)).2)
  | some c :: rest, i =>
    match (eraseActor actor c).1 with
    | some p => (some (i :: p), some (eraseActor actor c).2 :: rest)
    | none =>
      ((eraseActorChildren actor rest (i + 1)).1,
        some (eraseActor actor c).2 :: (eraseActorChildren actor rest (i + 1)).2)
end

/-! ## Specification-level notions -/

mutual
/-- The pre-order enumeration of a subtree, in the spec's words: the node's own actors in stored
order, then each child's enumeration in index order. -/
def preorder {B : Type} : ActorTree B → List ActorId
  | .node actors children _ _ => actors ++ preorderChildren children
/-- The pre-order enumeration of a sequence of child slots. -/
def preorderChildren {B : Type} : List (Option (ActorTree B)) → List ActorId
  | [] => []
  | none :: rest => preorderChildren rest
  | some c :: rest => preorder c ++ preorderChildren rest
end

/-- The union of a sequence of boxes, starting from the null box. -/
def AABBOps.unionAll {B : Type} (ops : AABBOps B) (boxes : List B) : B :=
  boxes.foldl ops.add ops.null

mutual
/-- The nodes of a subtree, the root first. -/
def subtrees {B : Type} : ActorTree B → List (ActorTree B)
  | .node actors children enabled aabb =>
    .node actors children enabled aabb :: subtreesChildren children
/-- The nodes below a sequence of child slots. -/
def subtreesChildren {B : Type} : List (Option (ActorTree B)) → List (ActorTree B)
  | [] => []
  | none :: rest => subtreesChildren rest
  | some c :: rest => subtrees c ++ subtreesChildren rest
end

/-- The cached-bounds invariant of one node in a world: its `aabb` is the union of the bounding
boxes of its own actors and of the `aabb` of each of its (non-null) children. -/
def cachedBoundsOk {A B S : Type} (api : ActorApi A B S) (ops : AABBOps B) (w : World A)
    (n : ActorTree B) : Prop :=
  n.aabb = ops.unionAll (n.actors.map (fun d => api.boundingBox (w.actor d))
    ++ (n.children.filterMap id).map ActorTree.aabb)

/-! ## A small concrete instance

One-dimensional boxes `[0, n]` represented by `n`: the null box is `0` and the union is `max`.
A drawable has an extent from which `computeBounds` refreshes its cached box and sphere; the
sphere reaches one unit beyond the box, the way a sphere around a box reaches beyond its
faces. -/

/-- State of a drawable in the concrete instance. -/
structure ExActor where
  enabled : Bool
  mask : Nat
  extent : Nat
  box : Nat
  sphere : Nat
  deriving DecidableEq, Repr

/-- The drawable interface of the concrete instance. -/
def exApi : ActorApi ExActor Nat Nat where
  isEnabled := fun a => a.enabled
  enableMask := fun a => a.mask
  computeBounds := fun a => { a with box := a.extent, sphere := a.extent + 1 }
  boundingBox := fun a => a.box
  boundingSphere := fun a => a.sphere

/-- The box interface of the concrete instance. -/
def exOps : AABBOps Nat where
  null := 0
  add := max

/-- A world in which drawable `d` is enabled, has all mask bits set, extent `d + 1` and bounds
not yet computed. -/
def exWorld : World ExActor where
  actor := fun d => { enabled := true, mask := 0xFFFFFFFF, extent := d + 1, box := 0, sphere := 0 }
  log := []

/-- The scenario tree: root `R` with an enabled child `A` holding drawable `1` and a disabled
child `B` holding drawable `2`. -/
def exTree : ActorTree Nat :=
  .node [] [some (.node [1] [] true 0), some (.node [2] [] false 0)] true 0

mutual
/-- The tree with every node's enabled flag set to `true`: two trees differ only in the enabled
flags of their nodes exactly when their images under `eraseEnabled` are equal. -/
def eraseEnabled {B : Type} : ActorTree B → ActorTree B
  | .node actors children _ aabb => .node actors (eraseEnabledChildren children) true aabb
/-- The child slots with every enabled flag below them set to `true`. -/
def eraseEnabledChildren {B : Type} : List (Option (ActorTree B)) → List (Option (ActorTree B))
  | [] => []
  | none :: rest => none :: eraseEnabledChildren rest
  | some c :: rest => some (eraseEnabled c) :: eraseEnabledChildren rest
end

mutual
/-- The tree with the subtree of every disabled node below the root removed from its parent's
child sequence. -/
def removeDisabled {B : Type} : ActorTree B → ActorTree B
  | .node actors children enabled aabb => .node actors (removeDisabledChildren children) enabled aabb
/-- The child slots without the disabled children, each remaining child pruned in turn. -/
def removeDisabledChildren {B : Type} : List (Option (ActorTree B)) → List (Option (ActorTree B))
  | [] => []
  | none :: rest => none :: removeDisabledChildren rest
  | some c :: rest =>
    if c.isEnabled then some (removeDisabled c) :: removeDisabledChildren rest
    else removeDisabledChildren rest
end

mutual
/-- Whether drawable `d` is listed in some node of the subtree such that the node and all its
ancestors within the subtree satisfy `ok`. -/
def listedThrough {B : Type} (ok : ActorTree B → Bool) (d : ActorId) : ActorTree B → Bool
  | .node actors children enabled aabb =>
    ok (.node actors children enabled aabb)
      && (decide (d ∈ actors) || listedThroughChildren ok d children)
/-- Whether drawable `d` is listed, through nodes satisfying `ok`, below one of the child slots. -/
def listedThroughChildren {B : Type} (ok : ActorTree B → Bool) (d : ActorId) :
    List (Option (ActorTree B)) → Bool
  | [] => false
  | none :: rest => listedThroughChildren ok d rest
  | some c :: rest => listedThrough ok d c || listedThroughChildren ok d rest
end

/-- A camera of the concrete instance whose frustum is the half-line from `5` on: a box `[0, n]`
or a sphere reaching `n` is culled when `n < 5`. -/
def exCamera : Camera Nat Nat where
  cullBox := fun b => decide (b < 5)
  cullSphere := fun s => decide (s < 5)

/-- The relation between two worlds that differ only by bounds recomputations: every drawable
has the same enabled flag and enable mask, and the same state after a further `computeBounds`. -/
def boundsOnly {A B S : Type} (api : ActorApi A B S) (w w' : World A) : Prop :=
  ∀ d, api.isEnabled (w'.actor d) = api.isEnabled (w.actor d)
    ∧ api.enableMask (w'.actor d) = api.enableMask (w.actor d)
    ∧ api.computeBounds (w'.actor d) = api.computeBounds (w.actor d)

/-- The assumptions on the external `Actor::computeBounds`: it is idempotent and leaves the
enabled flag and the enable mask alone. -/
def ActorApi.boundsWellBehaved {A B S : Type} (api : ActorApi A B S) : Prop :=
  (∀ a, api.computeBounds (api.computeBounds a) = api.computeBounds a)
    ∧ (∀ a, api.isEnabled (api.computeBounds a) = api.isEnabled a)
    ∧ (∀ a, api.enableMask (api.computeBounds a) = api.enableMask a)

/-- The per-drawable test of `extractVisibleActors`, read in a given world: the drawable is
enabled, its enable mask intersects the mask, and its bounding sphere after `computeBounds` is
not culled by the camera. -/
def passesTests {A B S : Type} (api : ActorApi A B S) (camera : Option (Camera B S))
    (enable_mask : Nat) (w : World A) (d : ActorId) : Prop :=
  api.isEnabled (w.actor d) = true
    ∧ maskIntersects enable_mask (api.enableMask (w.actor d)) = true
    ∧ cameraCullsSphere camera (api.boundingSphere (api.computeBounds (w.actor d))) = false

mutual
/-- The nodes of a subtree in pre-order (self, then the children in index order, depth-first),
each given by its path and its own actor list. -/
def nodeTable {B : Type} : ActorTree B → List (Path × List ActorId)
  | .node actors children _ _ => ([], actors) :: nodeTableChildren children 0
/-- The nodes below the child slots, the first slot having index `i`. -/
def nodeTableChildren {B : Type} : List (Option (ActorTree B)) → Nat → List (Path × List ActorId)
  | [], _ => []
  | none :: rest, i => nodeTableChildren rest (i + 1)
  | some c :: rest, i =>
    (nodeTable c).map (fun x => (i :: x.1, x.2)) ++ nodeTableChildren rest (i + 1)
end

/-- The first node in pre-order whose own actor list contains the drawable. -/
def firstOwner {B : Type} (d : ActorId) (t : ActorTree B) : Option Path :=
  ((nodeTable t).find? (fun x => decide (d ∈ x.2))).map Prod.fst

/-- The node designated by a path, when there is one. -/
def nodeAt {B : Type} : ActorTree B → Path → Option (ActorTree B)
  | t, [] => some t
  | t, i :: p =>
    match t.children.get? i with
    | some (some c) => nodeAt c p
    | _ => none

mutual
/-- The tree without its actor entries: the child sequences (null slots included), the enabled
flags and the cached boxes of all nodes. -/
def skeleton {B : Type} : ActorTree B → ActorTree B
  | .node _ children enabled aabb => .node [] (skeletonChildren children) enabled aabb
/-- The child slots without the actor entries below them. -/
def skeletonChildren {B : Type} : List (Option (ActorTree B)) → List (Option (ActorTree B))
  | [] => []
  | none :: rest => none :: skeletonChildren rest
  | some c :: rest => some (skeleton c) :: skeletonChildren rest
end

/-- The relation between the node tables before and after an erase that returns `ret`: the
first entry whose actor list contains `d` lost the first occurrence of `d`, `ret` is the path
of that entry, and every other entry is the same. -/
def ErasedAt (d : ActorId) (table table' : List (Path × List ActorId)) (ret : Option Path) :
    Prop :=
  ∃ pre p l post, table = pre ++ (p, l) :: post ∧ (∀ x ∈ pre, d ∉ x.2) ∧ d ∈ l
    ∧ ret = some p ∧ table' = pre ++ (p, l.erase d) :: post

/-- A tree in which drawable `5` is listed twice in the first child and once in the third slot;
the second slot is null. -/
def exEraseTree : ActorTree Nat :=
  .node [4] [some (.node [5, 6, 5] [] true 0), none, some (.node [5] [] false 0)] true 0

/-! ## `Uniform`

The storage `mData` is a `std::vector<int>`; a stored unit is modelled by its 32-bit pattern (a
natural number below `2^32`). The setters and getters move raw bytes with `memcpy`, so a value
of any scalar type is modelled by its bit pattern as well: 32 bits for `int`, `unsigned int`
and `float`, 64 bits for `double`, which occupies two storage units. `int` arithmetic on the
element count is signed 32-bit arithmetic, whose overflow is undefined; an execution that
reaches undefined behaviour, throws, or fails a `VL_CHECK` yields a `Fault`. -/

/-- The ways an operation of `Uniform` can fail to complete normally. -/
inductive Fault where
  /-- A signed `int` multiplication whose result does not fit in 32 bits. -/
  | signedOverflow
  /-- The `std::vector::resize` to a negative `int` converted to `size_t` throws. -/
  | lengthError
  /-- The `memcpy` reads beyond the end of the caller's source array. -/
  | sourceTooShort
  /-- A `VL_CHECK` assertion does not hold. -/
  | checkFailed
  /-- The `memcpy` of a getter writes beyond the end of the destination object. -/
  | destinationOverrun
  /-- The `VL_TRAP()` of an unexpected `switch` branch is reached. -/
  | trap
  deriving DecidableEq, Repr

deriving instance DecidableEq for Except

/-- The type tags `EUniformType` used by `Uniform`. -/
inductive EUniformType where
  | UT_NONE
  | UT_INT | UT_INT_VEC2 | UT_INT_VEC3 | UT_INT_VEC4
  | UT_UNSIGNED_INT | UT_UNSIGNED_INT_VEC2 | UT_UNSIGNED_INT_VEC3 | UT_UNSIGNED_INT_VEC4
  | UT_FLOAT | UT_FLOAT_VEC2 | UT_FLOAT_VEC3 | UT_FLOAT_VEC4
  | UT_FLOAT_MAT2 | UT_FLOAT_MAT3 | UT_FLOAT_MAT4
  | UT_FLOAT_MAT2x3 | UT_FLOAT_MAT3x2 | UT_FLOAT_MAT2x4 | UT_FLOAT_MAT4x2
  | UT_FLOAT_MAT3x4 | UT_FLOAT_MAT4x3
  | UT_DOUBLE | UT_DOUBLE_VEC2 | UT_DOUBLE_VEC3 | UT_DOUBLE_VEC4
  | UT_DOUBLE_MAT2 | UT_DOUBLE_MAT3 | UT_DOUBLE_MAT4
  | UT_DOUBLE_MAT2x3 | UT_DOUBLE_MAT3x2 | UT_DOUBLE_MAT2x4 | UT_DOUBLE_MAT4x2
  | UT_DOUBLE_MAT3x4 | UT_DOUBLE_MAT4x3
  deriving DecidableEq, Repr

/-- The class `Uniform`: `mType`, `mData`, `mName`. -/
structure Uniform where
  mType : EUniformType
  mData : List Nat
  mName : String
  deriving DecidableEq, Repr

/-- The constructor `Uniform()`. -/
def Uniform.new : Uniform :=
  { mType := .UT_NONE, mData := [], mName := "" }

/-- The constructor `Uniform(const char* name)`. -/
def Uniform.named (name : String) : Uniform :=
  { mType := .UT_NONE, mData := [], mName := name }

/-- The scalar type of the array a setter reads or a pointer getter writes. -/
inductive Scalar where
  | int | uint | float | double
  deriving DecidableEq, Repr

/-- Number of bits of a value of the scalar type. -/
def Scalar.bits : Scalar → Nat
  | .double => 64
  | _ => 32

/-- Number of storage units (`int`) a value of the scalar type occupies. -/
def Scalar.words : Scalar → Nat
  | .double => 2
  | _ => 1

/-- The storage units that the bytes of one value occupy, low half first for a `double`. -/
def toWords : Scalar → Nat → List Nat
  | .double, v => [v % 2 ^ 32, v / 2 ^ 32]
  | _, v => [v]

/-- The values that a run of storage units holds when read as an array of the scalar type. -/
def fromWords : Scalar → List Nat → List Nat
  | .double, lo :: hi :: rest => (lo + 2 ^ 32 * hi) :: fromWords .double rest
  | .double, _ => []
  | .int, ws => ws
  | .uint, ws => ws
  | .float, ws => ws

/-- A signed 32-bit multiplication `a*b`. -/
def imul (a b : Int) : Except Fault Int :=
  if -2 ^ 31 ≤ a * b ∧ a * b < 2 ^ 31 then .ok (a * b) else .error .signedOverflow

/-- The expression `count*d1*...*dn` evaluated left to right in `int`. -/
def imulChain (count : Int) : List Int → Except Fault Int
  | [] => .ok count
  | d :: rest =>
    match imul count d with
    | .ok x => imulChain x rest
    | .error e => .error e

/-- The call `mData.resize(n)` with an `int` argument: the first `n` units are kept and new
units are zero. -/
def resize (data : List Nat) (n : Int) : Except Fault (List Nat) :=
  if n < 0 then .error .lengthError
  else .ok (data.take n.toNat ++ List.replicate (n.toNat - data.length) 0)

/-- The member function `initData(count)`. -/
def initData (count : Int) (u : Uniform) : Except Fault Uniform :=
  match resize u.mData count with
  | .ok data => .ok { u with mData := data }
  | .error e => .error e

/-- The member function `initDouble(count)`. -/
def initDouble (count : Int) (u : Uniform) : Except Fault Uniform :=
  match imul count 2 with
  | .ok n =>
    match resize u.mData n with
    | .ok data => .ok { u with mData := data }
    | .error e => .error e
  | .error e => .error e

/-- The call `memcpy(&mData[0], value, sizeof(mData[0]) * mData.size())`: every storage unit is
overwritten from the source bytes; with an empty storage no byte is copied. -/
def memcpyFrom (source : List Nat) (u : Uniform) : Except Fault Uniform :=
  if source.length < u.mData.length then .error .sourceTooShort
  else .ok { u with mData := source.take u.mData.length }

/-- The common body of the array setters: `init(count*dims); memcpy(...); mType = type;` where
`init` is `initDouble` for the `double` setters and `initData` for the others, and `value` is
the source array given by the bit patterns of its elements. -/
def setUniformArray (k : Scalar) (dims : List Int) (type : EUniformType) (count : Int)
    (value : List Nat) (u : Uniform) : Except Fault Uniform :=
  match imulChain count dims with
  | .error e => .error e
  | .ok n =>
    match (if k = .double then initDouble n u else initData n u) with
    | .error e => .error e
    | .ok u1 =>
      match memcpyFrom (value.flatMap (toWords k)) u1 with
      | .error e => .error e
      | .ok u2 => .ok { u2 with mType := type }

/-- The type-specific array setters of `Uniform`, by name. -/
inductive Setter where
  | setUniform1i | setUniform2i | setUniform3i | setUniform4i
  | setUniform1ui | setUniform2ui | setUniform3ui | setUniform4ui
  | setUniform1f | setUniform2f | setUniform3f | setUniform4f
  | setUniform1d | setUniform2d | setUniform3d | setUniform4d
  | setUniformMatrix2f | setUniformMatrix3f | setUniformMatrix4f
  | setUniformMatrix2x3f | setUniformMatrix3x2f | setUniformMatrix2x4f
  | setUniformMatrix4x2f | setUniformMatrix3x4f | setUniformMatrix4x3f
  | setUniformMatrix2d | setUniformMatrix3d | setUniformMatrix4d
  | setUniformMatrix2x3d | setUniformMatrix3x2d | setUniformMatrix2x4d
  | setUniformMatrix4x2d | setUniformMatrix3x4d | setUniformMatrix4x3d
  deriving DecidableEq, Repr

/-- For each setter: the scalar type of its source array, the factors `d1, ..., dn` of its size
expression `count*d1*...*dn`, and the type tag it sets. -/
def Setter.spec : Setter → Scalar × List Int × EUniformType
  | .setUniform1i => (.int, [1], .UT_INT)
  | .setUniform2i => (.int, [2], .UT_INT_VEC2)
  | .setUniform3i => (.int, [3], .UT_INT_VEC3)
  | .setUniform4i => (.int, [4], .UT_INT_VEC4)
  | .setUniform1ui => (.uint, [1], .UT_UNSIGNED_INT)
  | .setUniform2ui => (.uint, [2], .UT_UNSIGNED_INT_VEC2)
  | .setUniform3ui => (.uint, [3], .UT_UNSIGNED_INT_VEC3)
  | .setUniform4ui => (.uint, [4], .UT_UNSIGNED_INT_VEC4)
  | .setUniform1f => (.float, [1], .UT_FLOAT)
  | .setUniform2f => (.float, [2], .UT_FLOAT_VEC2)
  | .setUniform3f => (.float, [3], .UT_FLOAT_VEC3)
  | .setUniform4f => (.float, [4], .UT_FLOAT_VEC4)
  | .setUniform1d => (.double, [1], .UT_DOUBLE)
  | .setUniform2d => (.double, [2], .UT_DOUBLE_VEC2)
  | .setUniform3d => (.double, [3], .UT_DOUBLE_VEC3)
  | .setUniform4d => (.double, [4], .UT_DOUBLE_VEC4)
  | .setUniformMatrix2f => (.float, [2, 2], .UT_FLOAT_MAT2)
  | .setUniformMatrix3f => (.float, [3, 3], .UT_FLOAT_MAT3)
  | .setUniformMatrix4f => (.float, [4, 4], .UT_FLOAT_MAT4)
  | .setUniformMatrix2x3f => (.float, [2, 3], .UT_FLOAT_MAT2x3)
  | .setUniformMatrix3x2f => (.float, [3, 2], .UT_FLOAT_MAT3x2)
  | .setUniformMatrix2x4f => (.float, [2, 4], .UT_FLOAT_MAT2x4)
  | .setUniformMatrix4x2f => (.float, [4, 2], .UT_FLOAT_MAT4x2)
  | .setUniformMatrix3x4f => (.float, [3, 4], .UT_FLOAT_MAT3x4)
  | .setUniformMatrix4x3f => (.float, [4, 3], .UT_FLOAT_MAT4x3)
  | .setUniformMatrix2d => (.double, [2, 2], .UT_DOUBLE_MAT2)
  | .setUniformMatrix3d => (.double, [3, 3], .UT_DOUBLE_MAT3)
  | .setUniformMatrix4d => (.double, [4, 4], .UT_DOUBLE_MAT4)
  | .setUniformMatrix2x3d => (.double, [2, 3], .UT_DOUBLE_MAT2x3)
  | .setUniformMatrix3x2d => (.double, [3, 2], .UT_DOUBLE_MAT3x2)
  | .setUniformMatrix2x4d => (.double, [2, 4], .UT_DOUBLE_MAT2x4)
  | .setUniformMatrix4x2d => (.double, [4, 2], .UT_DOUBLE_MAT4x2)
  | .setUniformMatrix3x4d => (.double, [3, 4], .UT_DOUBLE_MAT3x4)
  | .setUniformMatrix4x3d => (.double, [4, 3], .UT_DOUBLE_MAT4x3)

/-- The scalar type of the setter's source array. -/
def Setter.kind (s : Setter) : Scalar := s.spec.1

/-- The factors of the setter's size expression. -/
def Setter.dims (s : Setter) : List Int := s.spec.2.1

/-- The type tag the setter sets. -/
def Setter.type (s : Setter) : EUniformType := s.spec.2.2

/-- Number of components (scalar values) per element of the setter's shape. -/
def Setter.components (s : Setter) : Int := s.dims.prod

/-- The call `setter(count, value)` on a uniform. -/
def Setter.apply (s : Setter) (count : Int) (value : List Nat) (u : Uniform) :
    Except Fault Uniform :=
  setUniformArray s.kind s.dims s.type count value u

/-- The checked expression `VL_CHECK(expr)`. -/
def VL_CHECK (expr : Bool) : Except Fault Unit :=
  if expr then .ok () else .error .checkFailed

/-- The pointer getters `getUniform(double*)`, `getUniform(float*)`, `getUniform(int*)` and
`getUniform(unsigned int*)`: after the two checks, all storage units are copied to the
caller's array, whose resulting elements are returned. -/
def getUniform (k : Scalar) (u : Uniform) : Except Fault (List Nat) :=
  match VL_CHECK (u.mType != .UT_NONE) with
  | .error e => .error e
  | .ok _ =>
    match VL_CHECK (u.mData.length != 0) with
    | .error e => .error e
    | .ok _ => .ok (fromWords k u.mData)

/-! ### Single-value setters and getters of `Uniform` -/

/-- The setters `setUniform(int value)` and `setUniformI(value)`: `setUniform1i(1, &value)`. -/
def setUniformI (value : Nat) (u : Uniform) : Except Fault Uniform :=
  Setter.apply .setUniform1i 1 [value] u

/-- The setters `setUniform(unsigned int value)` and `setUniformU(value)`:
`setUniform1ui(1, &value)`. -/
def setUniformU (value : Nat) (u : Uniform) : Except Fault Uniform :=
  Setter.apply .setUniform1ui 1 [value] u

/-- The setters `setUniform(float value)` and `setUniformF(value)`: `setUniform1f(1, &value)`. -/
def setUniformF (value : Nat) (u : Uniform) : Except Fault Uniform :=
  Setter.apply .setUniform1f 1 [value] u

/-- The setters `setUniform(double value)` and `setUniformD(value)`: `setUniform1d(1, &value)`. -/
def setUniformD (value : Nat) (u : Uniform) : Except Fault Uniform :=
  Setter.apply .setUniform1d 1 [value] u

/-- The widths of the vector types `ivec2` ... `dvec4`. -/
inductive Width where
  | w2 | w3 | w4
  deriving DecidableEq, Repr

/-- Number of components of a vector of the given width. -/
def Width.n : Width → Nat
  | .w2 => 2
  | .w3 => 3
  | .w4 => 4

/-- The array setter that the single-value setter `setUniform(const vec& value)` of a vector
type calls with count `1`: `setUniform2i` for `ivec2`, ..., `setUniform4d` for `dvec4`. -/
def vecSetter : Scalar → Width → Setter
  | .int, .w2 => .setUniform2i
  | .int, .w3 => .setUniform3i
  | .int, .w4 => .setUniform4i
  | .uint, .w2 => .setUniform2ui
  | .uint, .w3 => .setUniform3ui
  | .uint, .w4 => .setUniform4ui
  | .float, .w2 => .setUniform2f
  | .float, .w3 => .setUniform3f
  | .float, .w4 => .setUniform4f
  | .double, .w2 => .setUniform2d
  | .double, .w3 => .setUniform3d
  | .double, .w4 => .setUniform4d

/-- The single-value vector setters `setUniform(const ivec2& value)` ... `setUniform(const dvec4&
value)`: the array setter of the shape with count `1` and `value.ptr()`, the components of the
vector. -/
def setUniformVec (k : Scalar) (width : Width) (value : List Nat) (u : Uniform) :
    Except Fault Uniform :=
  (vecSetter k width).apply 1 value u

/-- The pointer getters writing into a destination object of known size: after the two checks,
`memcpy(value, &mData[0], sizeof(mData[0]) * mData.size())` overwrites the first
`mData.size()` storage units of the destination, whose content before the call is `dest`; the
resulting elements of the destination are returned. Writing more units than the destination
holds is an overrun. -/
def getUniformInto (k : Scalar) (dest : List Nat) (u : Uniform) : Except Fault (List Nat) :=
  match VL_CHECK (u.mType != .UT_NONE) with
  | .error e => .error e
  | .ok _ =>
    match VL_CHECK (u.mData.length != 0) with
    | .error e => .error e
    | .ok _ =>
      if dest.length < u.mData.length then .error .destinationOverrun
      else .ok (fromWords k (u.mData ++ dest.drop u.mData.length))

/-- The common body of `getUniformF()`, `getUniformD()`, `getUniformI()` and `getUniformU()`:
`VL_CHECK(type() != UT_NONE); VL_CHECK(mData.size() == 1); T val; getUniform(&val); return val;`
where `indeterminate` is the bit pattern that the uninitialised local `val` happens to hold. -/
def getUniformScalar (k : Scalar) (indeterminate : Nat) (u : Uniform) : Except Fault Nat :=
  match VL_CHECK (u.mType != .UT_NONE) with
  | .error e => .error e
  | .ok _ =>
    match VL_CHECK (u.mData.length == 1) with
    | .error e => .error e
    | .ok _ =>
      match getUniformInto k (toWords k indeterminate) u with
      | .error e => .error e
      | .ok val => .ok (val.headD 0)

/-- The getter `getUniformF()`. -/
def getUniformF (indeterminate : Nat) (u : Uniform) : Except Fault Nat :=
  getUniformScalar .float indeterminate u

/-- The getter `getUniformD()`. -/
def getUniformD (indeterminate : Nat) (u : Uniform) : Except Fault Nat :=
  getUniformScalar .double indeterminate u

/-- The getter `getUniformI()`. -/
def getUniformI (indeterminate : Nat) (u : Uniform) : Except Fault Nat :=
  getUniformScalar .int indeterminate u

/-- The getter `getUniformU()`. -/
def getUniformU (indeterminate : Nat) (u : Uniform) : Except Fault Nat :=
  getUniformScalar .uint indeterminate u

/-- The vector getters `getUniform2I()` ... `getUniform4D()`: `vec v; getUniform(v.ptr());
return v;` where `v0` holds the components of the default-constructed vector `v`. -/
def getUniformVec (k : Scalar) (v0 : List Nat) (u : Uniform) : Except Fault (List Nat) :=
  getUniformInto k (v0.flatMap (toWords k)) u

/-- The member function `setName(name)`. -/
def Uniform.setName (name : String) (u : Uniform) : Uniform :=
  { u with mName := name }

/-! ### `count()` -/

/-- The member function `singleCount()`: `(int)mData.size()`. -/
def singleCount (u : Uniform) : Int :=
  u.mData.length

/-- The member function `doubleCount()`: `VL_CHECK((mData.size() & 0x1) == 0); return
(int)(mData.size() >> 1);`. -/
def doubleCount (u : Uniform) : Except Fault Int :=
  match VL_CHECK ((u.mData.length &&& 1) == 0) with
  | .error e => .error e
  | .ok _ => .ok ((u.mData.length >>> 1 : Nat) : Int)

/-- The expression `doubleCount() / d`. -/
def doubleCountDiv (u : Uniform) (d : Int) : Except Fault Int :=
  match doubleCount u with
  | .error e => .error e
  | .ok n => .ok (n / d)

/-- The member function `count()`; the operands of its divisions are never negative. The
`default` branch (`VL_TRAP()` before `return -1`) is taken for `UT_NONE`. -/
def count (u : Uniform) : Except Fault Int :=
  if u.mData.isEmpty then .ok 0
  else
    match u.mType with
    | .UT_INT => .ok (singleCount u)
    | .UT_INT_VEC2 => .ok (singleCount u / 2)
    | .UT_INT_VEC3 => .ok (singleCount u / 3)
    | .UT_INT_VEC4 => .ok (singleCount u / 4)
    | .UT_UNSIGNED_INT => .ok (singleCount u)
    | .UT_UNSIGNED_INT_VEC2 => .ok (singleCount u / 2)
    | .UT_UNSIGNED_INT_VEC3 => .ok (singleCount u / 3)
    | .UT_UNSIGNED_INT_VEC4 => .ok (singleCount u / 4)
    | .UT_FLOAT => .ok (singleCount u)
    | .UT_FLOAT_VEC2 => .ok (singleCount u / 2)
    | .UT_FLOAT_VEC3 => .ok (singleCount u / 3)
    | .UT_FLOAT_VEC4 => .ok (singleCount u / 4)
    | .UT_FLOAT_MAT2 => .ok (singleCount u / (2 * 2))
    | .UT_FLOAT_MAT3 => .ok (singleCount u / (3 * 3))
    | .UT_FLOAT_MAT4 => .ok (singleCount u / (4 * 4))
    | .UT_FLOAT_MAT2x3 => .ok (singleCount u / (2 * 3))
    | .UT_FLOAT_MAT3x2 => .ok (singleCount u / (3 * 2))
    | .UT_FLOAT_MAT2x4 => .ok (singleCount u / (2 * 4))
    | .UT_FLOAT_MAT4x2 => .ok (singleCount u / (4 * 2))
    | .UT_FLOAT_MAT3x4 => .ok (singleCount u / (3 * 4))
    | .UT_FLOAT_MAT4x3 => .ok (singleCount u / (4 * 3))
    | .UT_DOUBLE => doubleCount u
    | .UT_DOUBLE_VEC2 => doubleCountDiv u 2
    | .UT_DOUBLE_VEC3 => doubleCountDiv u 3
    | .UT_DOUBLE_VEC4 => doubleCountDiv u 4
    | .UT_DOUBLE_MAT2 => doubleCountDiv u (2 * 2)
    | .UT_DOUBLE_MAT3 => doubleCountDiv u (3 * 3)
    | .UT_DOUBLE_MAT4 => doubleCountDiv u (4 * 4)
    | .UT_DOUBLE_MAT2x3 => doubleCountDiv u (2 * 3)
    | .UT_DOUBLE_MAT3x2 => doubleCountDiv u (3 * 2)
    | .UT_DOUBLE_MAT2x4 => doubleCountDiv u (2 * 4)
    | .UT_DOUBLE_MAT4x2 => doubleCountDiv u (4 * 2)
    | .UT_DOUBLE_MAT3x4 => doubleCountDiv u (3 * 4)
    | .UT_DOUBLE_MAT4x3 => doubleCountDiv u (4 * 3)
    | .UT_NONE => .error .trap

/-- Closed form of `mData.resize(n)` followed by the `memcpy` from the source units and the
assignment of the type tag: the first `n` source units replace the storage. -/
def storeUnits (type : EUniformType) (source : List Nat) (n : Int) (name : String) :
    Except Fault Uniform :=
  if n < 0 then .error .lengthError
  else if source.length < n.toNat then .error .sourceTooShort
  else .ok { mType := type, mData := source.take n.toNat, mName := name }

/-- The Uniform states reachable from a constructor by setter calls (every other setter of the
class calls one of the type-specific array setters) and `setName` calls. -/
inductive Reachable : Uniform → Prop where
  | new : Reachable Uniform.new
  | named (name : String) : Reachable (Uniform.named name)
  | setter (s : Setter) (n : Int) (value : List Nat) (u u' : Uniform) :
      Reachable u → s.apply n value u = .ok u' → Reachable u'
  | setName (name : String) (u : Uniform) : Reachable u → Reachable (u.setName name)

/-- Number of components per element implied by a type tag: the divisor that `count()` applies
for the tag (`1` where it does not divide). -/
def EUniformType.components : EUniformType → Nat
  | .UT_NONE => 1
  | .UT_INT => 1 | .UT_INT_VEC2 => 2 | .UT_INT_VEC3 => 3 | .UT_INT_VEC4 => 4
  | .UT_UNSIGNED_INT => 1 | .UT_UNSIGNED_INT_VEC2 => 2 | .UT_UNSIGNED_INT_VEC3 => 3
  | .UT_UNSIGNED_INT_VEC4 => 4
  | .UT_FLOAT => 1 | .UT_FLOAT_VEC2 => 2 | .UT_FLOAT_VEC3 => 3 | .UT_FLOAT_VEC4 => 4
  | .UT_FLOAT_MAT2 => 2 * 2 | .UT_FLOAT_MAT3 => 3 * 3 | .UT_FLOAT_MAT4 => 4 * 4
  | .UT_FLOAT_MAT2x3 => 2 * 3 | .UT_FLOAT_MAT3x2 => 3 * 2 | .UT_FLOAT_MAT2x4 => 2 * 4
  | .UT_FLOAT_MAT4x2 => 4 * 2 | .UT_FLOAT_MAT3x4 => 3 * 4 | .UT_FLOAT_MAT4x3 => 4 * 3
  | .UT_DOUBLE => 1 | .UT_DOUBLE_VEC2 => 2 | .UT_DOUBLE_VEC3 => 3 | .UT_DOUBLE_VEC4 => 4
  | .UT_DOUBLE_MAT2 => 2 * 2 | .UT_DOUBLE_MAT3 => 3 * 3 | .UT_DOUBLE_MAT4 => 4 * 4
  | .UT_DOUBLE_MAT2x3 => 2 * 3 | .UT_DOUBLE_MAT3x2 => 3 * 2 | .UT_DOUBLE_MAT2x4 => 2 * 4
  | .UT_DOUBLE_MAT4x2 => 4 * 2 | .UT_DOUBLE_MAT3x4 => 3 * 4 | .UT_DOUBLE_MAT4x3 => 4 * 3

/-- Number of storage units per component implied by a type tag: two for the tags that
`count()` handles through `doubleCount()`, one for the others. -/
def EUniformType.unitsPerComponent : EUniformType → Nat
  | .UT_DOUBLE | .UT_DOUBLE_VEC2 | .UT_DOUBLE_VEC3 | .UT_DOUBLE_VEC4
  | .UT_DOUBLE_MAT2 | .UT_DOUBLE_MAT3 | .UT_DOUBLE_MAT4
  | .UT_DOUBLE_MAT2x3 | .UT_DOUBLE_MAT3x2 | .UT_DOUBLE_MAT2x4 | .UT_DOUBLE_MAT4x2
  | .UT_DOUBLE_MAT3x4 | .UT_DOUBLE_MAT4x3 => 2
  | _ => 1

/-- A reachable state used as an example: one 2x3 `double` matrix named `m`, twelve storage
units. -/
def exUniform : Uniform :=
  ⟨.UT_DOUBLE_MAT2x3, [1, 0, 2, 0, 3, 0, 4, 0, 5, 0, 6, 0], "m"⟩

/-! ## `addActor` and `prepareActors` -/

/-- The member function `ActorTreeAbstract::addActor(Actor* actor)`: returns the actor and the
updated node. -/
def addActor {B : Type} (actor : ActorId) : ActorTree B → ActorId × ActorTree B
  | .node actors children enabled aabb => (actor, .node (actors ++ [actor]) children enabled aabb)

mutual
/-- The call `addActor(actor)` made on the node that a path designates in a tree; `none` when the
path designates no node. -/
def addActorAt {B : Type} (actor : ActorId) : ActorTree B → Path → Option (ActorTree B)
  | .node actors children enabled aabb, [] =>
    some (addActor actor (.node actors children enabled aabb)).2
  | .node actors children enabled aabb, i :: p =>
    match addActorAtChildren actor children i p with
    | some children' => some (.node actors children' enabled aabb)
    | none => none
/-- The call `addActor(actor)` made below the child slot of index `i`. -/
def addActorAtChildren {B : Type} (actor : ActorId) :
    List (Option (ActorTree B)) → Nat → Path → Option (List (Option (ActorTree B)))
  | [], _, _ => none
  | none :: _, 0, _ => none
  | some c :: rest, 0, p =>
    match addActorAt actor c p with
    | some c' => some (some c' :: rest)
    | none => none
  | slot :: rest, i + 1, p =>
    match addActorAtChildren actor rest i p with
    | some rest' => some (slot :: rest')
    | none => none
end

/-- A sequence of `addActor` calls, each on the node designated by a path, applied in order;
`none` when a path designates no node. -/
def addActors {B : Type} : List (Path × ActorId) → ActorTree B → Option (ActorTree B)
  | [], t => some t
  | (p, actor) :: rest, t =>
    match addActorAt actor t p with
    | some t' => addActors rest t'
    | none => none

/-- The interface of `vl::Actor` and `vl::Transform` used by `prepareActors`:
`actor->transform()` (null when the drawable has no transform) and `transform->parent()`
(null at a root). -/
structure TransformApi (A : Type) where
  transform : A → Option TransformId
  parent : TransformId → Option TransformId

/-- Effect of `transform->computeWorldMatrixRecursive()` on the world: the matrices of the
transform hierarchy are outside the modelled state, the call is recorded. -/
def World.computeWorldMatrixRecursive {A : Type} (w : World A) (t : TransformId) : World A :=
  { w with log := w.log ++ [Call.computeWorldMatrixRecursive t] }

/-- The inner loop `for(Transform* root = ...; root; root = root->parent()) if (!root->parent())
root_transforms.insert(root);` started at a non-null transform: it walks up the parent chain
and inserts the transform that has no parent. The walk is bounded by `fuel` steps; `none` when
the chain is longer. -/
def findRoot (parent : TransformId → Option TransformId) : Nat → TransformId → Option TransformId
  | 0, _ => none
  | fuel + 1, t =>
    match parent t with
    | none => some t
    | some p => findRoot parent fuel p

/-- The call `root_transforms.insert(x)` on a `std::set<Transform*>`, kept as the strictly
increasing list in which the set is iterated. -/
def setInsert (x : TransformId) : List TransformId → List TransformId
  | [] => [x]
  | y :: rest =>
    if x < y then x :: y :: rest
    else if x = y then y :: rest
    else y :: setInsert x rest

/-- The first loop of `prepareActors`: the roots reached from the transforms of the actors are
inserted into the set. -/
def collectRoots {A : Type} (tapi : TransformApi A) (fuel : Nat) (w : World A) :
    List ActorId → List TransformId → Option (List TransformId)
  | [], roots => some roots
  | a :: rest, roots =>
    match tapi.transform (w.actor a) with
    | none => collectRoots tapi fuel w rest roots
    | some t =>
      match findRoot tapi.parent fuel t with
      | none => none
      | some r => collectRoots tapi fuel w rest (setInsert r roots)

/-- The function `ActorTreeAbstract::prepareActors(actors)`: the roots are collected, then
`computeWorldMatrixRecursive()` is called on each root in the iteration order of the set, then
`computeBounds()` on each actor of the list. -/
def prepareActors {A B S : Type} (api : ActorApi A B S) (tapi : TransformApi A) (fuel : Nat)
    (actors : List ActorId) (w : World A) : Option (World A) :=
  match collectRoots tapi fuel w actors [] with
  | none => none
  | some roots =>
    some (actors.foldl (World.computeBounds api)
      (roots.foldl World.computeWorldMatrixRecursive w))

/-- The transform `r` is the root of the transform `t`: the parent chain of `t` reaches `r`, and
`r` has no parent. -/
def IsRootOf (parent : TransformId → Option TransformId) (t r : TransformId) : Prop :=
  Relation.ReflTransGen (fun x y => parent x = some y) t r ∧ parent r = none

/-- The transforms that `prepareActors` has to update for a list of actors: the roots of the
transforms of the actors that have one. -/
def NeededRoot {A : Type} (tapi : TransformApi A) (w : World A) (actors : List ActorId)
    (r : TransformId) : Prop :=
  ∃ a ∈ actors, ∃ t, tapi.transform (w.actor a) = some t ∧ IsRootOf tapi.parent t r

/-- A transform hierarchy for the concrete instance: `11` and `12` hang below the root `10`,
`21` below the root `20`; an actor of extent `1` has no transform, the others are attached to
`12`, `21`, `11` and `20` in turn. -/
def exTransforms : TransformApi ExActor where
  transform := fun a =>
    match a.extent with
    | 1 => none
    | 2 => some 12
    | 3 => some 21
    | 4 => some 11
    | _ => some 20
  parent := fun t =>
    match t with
    | 11 => some 10
    | 12 => some 11
    | 21 => some 20
    | _ => none

/-- The first test of the own-actor loop of `extractVisibleActors`, read in a given world: the
actor is enabled and `enable_mask & actor->enableMask()` is non-zero. Actors passing it get
`computeBounds()` called. -/
def ownTested {A B S : Type} (api : ActorApi A B S) (enable_mask : Nat) (w : World A)
    (a : ActorId) : Bool :=
  api.isEnabled (w.actor a) && maskIntersects enable_mask (api.enableMask (w.actor a))

/-- The whole selection of the own-actor loop of `extractVisibleActors`, read in a given world:
the actor passes the first test and the camera, if any, does not cull its bounding sphere
after `computeBounds()`. -/
def ownSelected {A B S : Type} (api : ActorApi A B S) (camera : Option (Camera B S))
    (enable_mask : Nat) (w : World A) (a : ActorId) : Bool :=
  ownTested api enable_mask w a
    && !cameraCullsSphere camera (api.boundingSphere (api.computeBounds (w.actor a)))

/-- The relation between two worlds in which every drawable has the same enabled flag and the
same enable mask. -/
def flagsOnly {A B S : Type} (api : ActorApi A B S) (w w' : World A) : Prop :=
  ∀ d, api.isEnabled (w'.actor d) = api.isEnabled (w.actor d)
    ∧ api.enableMask (w'.actor d) = api.enableMask (w.actor d)

mutual
/-- Whether every node of the subtree is enabled. -/
def allEnabled {B : Type} : ActorTree B → Bool
  | .node _ children enabled _ => enabled && allEnabledChildren children
/-- Whether every node below the child slots is enabled. -/
def allEnabledChildren {B : Type} : List (Option (ActorTree B)) → Bool
  | [] => true
  | none :: rest => allEnabledChildren rest
  | some c :: rest => allEnabled c && allEnabledChildren rest
end

mutual
/-- The tree with the null child slots removed from every children sequence. -/
def removeNulls {B : Type} : ActorTree B → ActorTree B
  | .node actors children enabled aabb => .node actors (removeNullsChildren children) enabled aabb
/-- The child slots without the null ones, nulls removed below them as well. -/
def removeNullsChildren {B : Type} : List (Option (ActorTree B)) → List (Option (ActorTree B))
  | [] => []
  | none :: rest => removeNullsChildren rest
  | some c :: rest => some (removeNulls c) :: removeNullsChildren rest
end

mutual
/-- The path, in the tree with the null slots removed, of the node that a path designates in the
tree: every index is lowered by the number of null slots before it. A path that designates no
node is cut where it leaves the tree. -/
def compressPath {B : Type} : ActorTree B → Path → Path
  | _, [] => []
  | .node _ children _ _, i :: p => compressPathChildren children i p 0
/-- The translation of the path `i :: p` relative to a sequence of child slots, `k` being the
number of non-null slots already passed. -/
def compressPathChildren {B : Type} : List (Option (ActorTree B)) → Nat → Path → Nat → Path
  | [], _, _, _ => []
  | none :: _, 0, _, _ => []
  | none :: rest, i + 1, p, k => compressPathChildren rest i p k
  | some c :: _, 0, p, k => k :: compressPath c p
  | some _ :: rest, i + 1, p, k => compressPathChildren rest i p (k + 1)
end

/-- The translation of a path returned by the loop of `eraseActor` started at index `i` over a
sequence of child slots, `k` being the index of its first slot once the nulls are removed. -/
def compressFrom {B : Type} (cs : List (Option (ActorTree B))) (i k : Nat) : Path → Path
  | [] => []
  | h :: p => compressPathChildren cs (h - i) p k

/-! # Verification -/

/-! ## Helper lemmas: `computeAABB` -/

theorem computeAABBActors_world {A B S : Type} (api : ActorApi A B S) (ops : AABBOps B) :
    ∀ (l : List ActorId) (acc : B) (w : World A),
      (computeAABBActors api ops l acc w).2 = l.foldl (World.computeBounds api) w
  | [], _, _ => rfl
  | a :: rest, acc, w => by
    simp only [computeAABBActors, List.foldl_cons]
    exact computeAABBActors_world api ops rest _ _

mutual
theorem computeAABB_world {A B S : Type} (api : ActorApi A B S) (ops : AABBOps B) :
    ∀ (t : ActorTree B) (w : World A),
      (computeAABB api ops t w).2 = (preorder t).foldl (World.computeBounds api) w
  | .node actors children enabled b, w => by
    simp only [computeAABB, preorder, List.foldl_append]
    rw [computeAABBChildren_world api ops children, computeAABBActors_world]
theorem computeAABBChildren_world {A B S : Type} (api : ActorApi A B S) (ops : AABBOps B) :
    ∀ (cs : List (Option (ActorTree B))) (acc : B) (w : World A),
      (computeAABBChildren api ops cs acc w).2.2
        = (preorderChildren cs).foldl (World.computeBounds api) w
  | [], _, _ => rfl
  | none :: rest, acc, w => by
    simp only [computeAABBChildren, preorderChildren]
    exact computeAABBChildren_world api ops rest acc w
  | some c :: rest, acc, w => by
    simp only [computeAABBChildren, preorderChildren, List.foldl_append]
    rw [computeAABBChildren_world api ops rest, computeAABB_world api ops c]
end

theorem foldl_computeBounds_log {A B S : Type} (api : ActorApi A B S) :
    ∀ (l : List ActorId) (w : World A),
      (l.foldl (World.computeBounds api) w).log = w.log ++ l.map Call.computeBounds
  | [], w => by simp
  | a :: rest, w => by
    simp only [List.foldl_cons, List.map_cons]
    rw [foldl_computeBounds_log api rest]
    simp [World.computeBounds]

theorem foldl_computeBounds_actor {A B S : Type} (api : ActorApi A B S)
    (hcb : ∀ a, api.computeBounds (api.computeBounds a) = api.computeBounds a) :
    ∀ (l : List ActorId) (w : World A) (d : ActorId),
      (l.foldl (World.computeBounds api) w).actor d
        = if d ∈ l then api.computeBounds (w.actor d) else w.actor d
  | [], w, d => by simp
  | a :: rest, w, d => by
    simp only [List.foldl_cons]
    rw [foldl_computeBounds_actor api hcb rest]
    by_cases hda : d = a
    · subst hda
      by_cases hr : d ∈ rest <;> simp [hr, World.computeBounds, hcb]
    · by_cases hr : d ∈ rest <;> simp [hr, hda, World.computeBounds]

theorem foldl_computeBounds_fresh {A B S : Type} (api : ActorApi A B S)
    (hcb : ∀ a, api.computeBounds (api.computeBounds a) = api.computeBounds a)
    (l : List ActorId) (w : World A) (d : ActorId) :
    api.computeBounds ((l.foldl (World.computeBounds api) w).actor d)
      = api.computeBounds (w.actor d) := by
  rw [foldl_computeBounds_actor api hcb]
  split <;> simp [hcb]

theorem add_foldl_add {B : Type} (ops : AABBOps B)
    (hassoc : ∀ a b c, ops.add (ops.add a b) c = ops.add a (ops.add b c)) :
    ∀ (l : List B) (a b : B), ops.add a (l.foldl ops.add b) = l.foldl ops.add (ops.add a b)
  | [], _, _ => rfl
  | x :: rest, a, b => by
    simp only [List.foldl_cons]
    rw [add_foldl_add ops hassoc rest, hassoc]

theorem add_unionAll {B : Type} (ops : AABBOps B)
    (hassoc : ∀ a b c, ops.add (ops.add a b) c = ops.add a (ops.add b c))
    (hnull : ∀ a, ops.add a ops.null = a) (l : List B) (a : B) :
    ops.add a (ops.unionAll l) = l.foldl ops.add a := by
  unfold AABBOps.unionAll
  rw [add_foldl_add ops hassoc, hnull]

theorem computeAABBActors_box {A B S : Type} (api : ActorApi A B S) (ops : AABBOps B)
    (hcb : ∀ a, api.computeBounds (api.computeBounds a) = api.computeBounds a) :
    ∀ (l : List ActorId) (acc : B) (w : World A),
      (computeAABBActors api ops l acc w).1
        = (l.map (fun d => api.boundingBox (api.computeBounds (w.actor d)))).foldl ops.add acc
  | [], _, _ => rfl
  | a :: rest, acc, w => by
    simp only [computeAABBActors, List.map_cons, List.foldl_cons]
    rw [computeAABBActors_box api ops hcb rest]
    have h1 : (w.computeBounds api a).actor a = api.computeBounds (w.actor a) := by
      simp [World.computeBounds]
    have h2 : ∀ d, api.computeBounds ((w.computeBounds api a).actor d)
        = api.computeBounds (w.actor d) := fun d =>
      foldl_computeBounds_fresh api hcb [a] w d
    simp only [h1, h2]

mutual
theorem computeAABB_box {A B S : Type} (api : ActorApi A B S) (ops : AABBOps B)
    (hassoc : ∀ a b c, ops.add (ops.add a b) c = ops.add a (ops.add b c))
    (hnull : ∀ a, ops.add a ops.null = a)
    (hcb : ∀ a, api.computeBounds (api.computeBounds a) = api.computeBounds a) :
    ∀ (t : ActorTree B) (w : World A),
      (computeAABB api ops t w).1.aabb
        = ops.unionAll ((preorder t).map
            (fun d => api.boundingBox (api.computeBounds (w.actor d))))
  | .node actors children enabled b, w => by
    simp only [computeAABB, ActorTree.aabb, preorder, AABBOps.unionAll, List.map_append,
      List.foldl_append]
    rw [computeAABBChildren_box api ops hassoc hnull hcb children, computeAABBActors_box api ops hcb,
      computeAABBActors_world]
    simp only [foldl_computeBounds_fresh api hcb]
theorem computeAABBChildren_box {A B S : Type} (api : ActorApi A B S) (ops : AABBOps B)
    (hassoc : ∀ a b c, ops.add (ops.add a b) c = ops.add a (ops.add b c))
    (hnull : ∀ a, ops.add a ops.null = a)
    (hcb : ∀ a, api.computeBounds (api.computeBounds a) = api.computeBounds a) :
    ∀ (cs : List (Option (ActorTree B))) (acc : B) (w : World A),
      (computeAABBChildren api ops cs acc w).2.1
        = ((preorderChildren cs).map
            (fun d => api.boundingBox (api.computeBounds (w.actor d)))).foldl ops.add acc
  | [], _, _ => rfl
  | none :: rest, acc, w => by
    simp only [computeAABBChildren, preorderChildren]
    exact computeAABBChildren_box api ops hassoc hnull hcb rest acc w
  | some c :: rest, acc, w => by
    simp only [computeAABBChildren, preorderChildren, List.map_append, List.foldl_append]
    rw [computeAABBChildren_box api ops hassoc hnull hcb rest,
      computeAABB_box api ops hassoc hnull hcb c, computeAABB_world,
      add_unionAll ops hassoc hnull]
    simp only [foldl_computeBounds_fresh api hcb]
end

/-! ## C1: the root box is the union of all drawables' boxes -/

/-- C1: after `computeAABB()` on the root of any tree, the root's `aabb` is the union of the
bounding boxes (as they stand after the call) of every drawable listed in any node of the tree,
and it is the null box when the tree lists no drawable. The box union is assumed associative
with the null box as right identity, and `computeBounds` idempotent. -/
theorem computeAABB_root_union {A B S : Type} (api : ActorApi A B S) (ops : AABBOps B)
    (hassoc : ∀ a b c, ops.add (ops.add a b) c = ops.add a (ops.add b c))
    (hnull : ∀ a, ops.add a ops.null = a)
    (hcb : ∀ a, api.computeBounds (api.computeBounds a) = api.computeBounds a)
    (t : ActorTree B) (w : World A) :
    (computeAABB api ops t w).1.aabb
        = ops.unionAll ((preorder t).map
            (fun d => api.boundingBox ((computeAABB api ops t w).2.actor d)))
      ∧ (preorder t = [] → (computeAABB api ops t w).1.aabb = ops.null) := by
  have key := computeAABB_box api ops hassoc hnull hcb t w
  refine ⟨?_, fun h => ?_⟩
  · rw [key]
    congr 1
    apply List.map_congr_left
    intro d hd
    rw [computeAABB_world, foldl_computeBounds_actor api hcb, if_pos hd]
  · rw [key, h]
    rfl

/-- Witness for C1 on the scenario tree: the root box is `max 2 3 = 3`. -/
theorem computeAABB_root_union_witness :
    (computeAABB exApi exOps exTree exWorld).1.aabb = 3
      ∧ ((computeAABB exApi exOps exTree exWorld).1.aabb
          = exOps.unionAll ((preorder exTree).map
              (fun d => exApi.boundingBox ((computeAABB exApi exOps exTree exWorld).2.actor d)))
        ∧ (preorder exTree = [] → (computeAABB exApi exOps exTree exWorld).1.aabb = exOps.null)) :=
  ⟨by decide,
    computeAABB_root_union exApi exOps (fun a b c => Nat.max_assoc a b c) (fun a => Nat.max_zero a)
      (fun _ => rfl) exTree exWorld⟩

mutual
theorem preorder_computeAABB {A B S : Type} (api : ActorApi A B S) (ops : AABBOps B) :
    ∀ (t : ActorTree B) (w : World A), preorder (computeAABB api ops t w).1 = preorder t
  | .node actors children enabled b, w => by
    simp only [computeAABB, preorder]
    rw [preorderChildren_computeAABB api ops children]
theorem preorderChildren_computeAABB {A B S : Type} (api : ActorApi A B S) (ops : AABBOps B) :
    ∀ (cs : List (Option (ActorTree B))) (acc : B) (w : World A),
      preorderChildren (computeAABBChildren api ops cs acc w).1 = preorderChildren cs
  | [], _, _ => rfl
  | none :: rest, acc, w => by
    simp only [computeAABBChildren, preorderChildren]
    exact preorderChildren_computeAABB api ops rest acc w
  | some c :: rest, acc, w => by
    simp only [computeAABBChildren, preorderChildren]
    rw [preorderChildren_computeAABB api ops rest, preorder_computeAABB api ops c]
end

mutual
theorem actors_subset_preorder {B : Type} :
    ∀ (t n : ActorTree B), n ∈ subtrees t → ∀ d ∈ n.actors, d ∈ preorder t
  | .node actors children enabled b, n, hn, d, hd => by
    simp only [subtrees, List.mem_cons] at hn
    simp only [preorder, List.mem_append]
    rcases hn with rfl | hn
    · exact Or.inl hd
    · exact Or.inr (actors_subset_preorderChildren children n hn d hd)
theorem actors_subset_preorderChildren {B : Type} :
    ∀ (cs : List (Option (ActorTree B))) (n : ActorTree B), n ∈ subtreesChildren cs →
      ∀ d ∈ n.actors, d ∈ preorderChildren cs
  | [], n, hn, _, _ => by simp [subtreesChildren] at hn
  | none :: rest, n, hn, d, hd => by
    simp only [subtreesChildren] at hn
    simp only [preorderChildren]
    exact actors_subset_preorderChildren rest n hn d hd
  | some c :: rest, n, hn, d, hd => by
    simp only [subtreesChildren, List.mem_append] at hn
    simp only [preorderChildren, List.mem_append]
    rcases hn with hn | hn
    · exact Or.inl (actors_subset_preorder c n hn d hd)
    · exact Or.inr (actors_subset_preorderChildren rest n hn d hd)
end

mutual
theorem computeAABB_nodes {A B S : Type} (api : ActorApi A B S) (ops : AABBOps B)
    (hcb : ∀ a, api.computeBounds (api.computeBounds a) = api.computeBounds a) :
    ∀ (t : ActorTree B) (w : World A) (f : ActorId → B),
      (∀ d, api.boundingBox (api.computeBounds (w.actor d)) = f d) →
      ∀ n ∈ subtrees (computeAABB api ops t w).1,
        n.aabb = ops.unionAll (n.actors.map f ++ (n.children.filterMap id).map ActorTree.aabb)
  | .node actors children enabled b, w, f, hf, n, hn => by
    have hf1 : ∀ d, api.boundingBox (api.computeBounds
        ((computeAABBActors api ops actors ops.null w).2.actor d)) = f d := by
      intro d
      rw [computeAABBActors_world, foldl_computeBounds_fresh api hcb]
      exact hf d
    have hq := computeAABBChildren_nodes api ops hcb children
      (computeAABBActors api ops actors ops.null w).1
      (computeAABBActors api ops actors ops.null w).2 f hf1
    simp only [computeAABB, subtrees, List.mem_cons] at hn
    rcases hn with rfl | hn
    · simp only [ActorTree.aabb, ActorTree.actors, ActorTree.children, AABBOps.unionAll,
        List.foldl_append]
      rw [hq.2, computeAABBActors_box api ops hcb]
      simp only [hf]
    · exact hq.1 n hn
theorem computeAABBChildren_nodes {A B S : Type} (api : ActorApi A B S) (ops : AABBOps B)
    (hcb : ∀ a, api.computeBounds (api.computeBounds a) = api.computeBounds a) :
    ∀ (cs : List (Option (ActorTree B))) (acc : B) (w : World A) (f : ActorId → B),
      (∀ d, api.boundingBox (api.computeBounds (w.actor d)) = f d) →
      (∀ n ∈ subtreesChildren (computeAABBChildren api ops cs acc w).1,
        n.aabb = ops.unionAll (n.actors.map f ++ (n.children.filterMap id).map ActorTree.aabb))
      ∧ (computeAABBChildren api ops cs acc w).2.1
          = (((computeAABBChildren api ops cs acc w).1.filterMap id).map ActorTree.aabb).foldl
              ops.add acc
  | [], _, _, _, _ => by simp [computeAABBChildren, subtreesChildren]
  | none :: rest, acc, w, f, hf => by
    have hq := computeAABBChildren_nodes api ops hcb rest acc w f hf
    simp only [computeAABBChildren, subtreesChildren, List.filterMap_cons_none]
    exact hq
  | some c :: rest, acc, w, f, hf => by
    have hp := computeAABB_nodes api ops hcb c w f hf
    have hf1 : ∀ d, api.boundingBox (api.computeBounds
        ((computeAABB api ops c w).2.actor d)) = f d := by
      intro d
      rw [computeAABB_world, foldl_computeBounds_fresh api hcb]
      exact hf d
    have hq := computeAABBChildren_nodes api ops hcb rest
      (ops.add acc (computeAABB api ops c w).1.aabb) (computeAABB api ops c w).2 f hf1
    simp only [computeAABBChildren, subtreesChildren, List.mem_append]
    refine ⟨?_, ?_⟩
    · intro n hn
      rcases hn with hn | hn
      · exact hp n hn
      · exact hq.1 n hn
    · rw [hq.2]
      simp
end

/-! ## C2: the cached-bounds invariant at every node -/

/-- C2: after `computeAABB()` on the root, every node of the tree satisfies the cached-bounds
invariant in the resulting world: its `aabb` is the union of the bounding boxes of its own
actors and of the `aabb` of each of its children, enabled or not. `computeBounds` is assumed
idempotent. -/
theorem computeAABB_cached_bounds {A B S : Type} (api : ActorApi A B S) (ops : AABBOps B)
    (hcb : ∀ a, api.computeBounds (api.computeBounds a) = api.computeBounds a)
    (t : ActorTree B) (w : World A) :
    ∀ n ∈ subtrees (computeAABB api ops t w).1,
      cachedBoundsOk api ops (computeAABB api ops t w).2 n := by
  intro n hn
  unfold cachedBoundsOk
  rw [computeAABB_nodes api ops hcb t w _ (fun _ => rfl) n hn]
  congr 2
  apply List.map_congr_left
  intro d hd
  have hmem : d ∈ preorder t := by
    rw [← preorder_computeAABB api ops t w]
    exact actors_subset_preorder _ n hn d hd
  rw [computeAABB_world, foldl_computeBounds_actor api hcb, if_pos hmem]

/-- Witness for C2 on the scenario tree: the disabled child `B` is among the nodes and its
cached box is the box of its drawable. -/
theorem computeAABB_cached_bounds_witness :
    ActorTree.node [2] [] false 3 ∈ subtrees (computeAABB exApi exOps exTree exWorld).1
      ∧ ∀ n ∈ subtrees (computeAABB exApi exOps exTree exWorld).1,
          cachedBoundsOk exApi exOps (computeAABB exApi exOps exTree exWorld).2 n :=
  ⟨by simp [exTree, computeAABB, computeAABBChildren, computeAABBActors, subtrees,
      subtreesChildren, exApi, exOps, exWorld, World.computeBounds, ActorTree.aabb],
    computeAABB_cached_bounds exApi exOps (fun _ => rfl) exTree exWorld⟩

/-! ## Helper lemmas: `extractActors` -/

theorem foldl_push_back (l : List ActorId) :
    ∀ (list : List ActorId), l.foldl (fun acc a => acc ++ [a]) list = list ++ l := by
  induction l with
  | nil => intro list; simp
  | cons a rest ih => intro list; simp [ih]

mutual
theorem extractActors_eq {B : Type} :
    ∀ (t : ActorTree B) (list : List ActorId), extractActors t list = list ++ preorder t
  | .node actors children enabled b, list => by
    simp only [extractActors, preorder]
    rw [extractActorsChildren_eq children, foldl_push_back, List.append_assoc]
theorem extractActorsChildren_eq {B : Type} :
    ∀ (cs : List (Option (ActorTree B))) (list : List ActorId),
      extractActorsChildren cs list = list ++ preorderChildren cs
  | [], list => by simp [extractActorsChildren, preorderChildren]
  | none :: rest, list => by
    simp only [extractActorsChildren, preorderChildren]
    exact extractActorsChildren_eq rest list
  | some c :: rest, list => by
    simp only [extractActorsChildren, preorderChildren]
    rw [extractActorsChildren_eq rest, extractActors_eq c, List.append_assoc]
end

mutual
theorem preorder_eraseEnabled {B : Type} :
    ∀ (t : ActorTree B), preorder (eraseEnabled t) = preorder t
  | .node actors children enabled b => by
    simp only [eraseEnabled, preorder]
    rw [preorderChildren_eraseEnabled children]
theorem preorderChildren_eraseEnabled {B : Type} :
    ∀ (cs : List (Option (ActorTree B))),
      preorderChildren (eraseEnabledChildren cs) = preorderChildren cs
  | [] => rfl
  | none :: rest => by
    simp only [eraseEnabledChildren, preorderChildren]
    exact preorderChildren_eraseEnabled rest
  | some c :: rest => by
    simp only [eraseEnabledChildren, preorderChildren]
    rw [preorderChildren_eraseEnabled rest, preorder_eraseEnabled c]
end

/-! ## C3: `extractActors` appends the pre-order enumeration -/

/-- C3: `extractActors(list)` returns the given list, unchanged, followed by exactly the
pre-order enumeration of the subtree (own actors in stored order, then each child's enumeration
in index order); and the result is the same on any tree that differs only in enabled flags
(the function never reads a drawable: it does not take the world). -/
theorem extractActors_preorder {B : Type} (t : ActorTree B) (list : List ActorId) :
    extractActors t list = list ++ preorder t
      ∧ ∀ t2 : ActorTree B, eraseEnabled t2 = eraseEnabled t →
          extractActors t2 list = extractActors t list := by
  refine ⟨extractActors_eq t list, fun t2 h => ?_⟩
  rw [extractActors_eq, extractActors_eq, ← preorder_eraseEnabled t2, h, preorder_eraseEnabled]

/-- Witness for C3: the scenario tree and the same tree with child `B` enabled and the root
disabled give the same list `[7, 1, 2]` from the initial list `[7]`. -/
theorem extractActors_preorder_witness :
    extractActors exTree [7] = [7, 1, 2]
      ∧ extractActors
          (ActorTree.node [] [some (.node [1] [] true 0), some (.node [2] [] true 0)] false 0) [7]
        = extractActors exTree [7] :=
  ⟨by decide,
    (extractActors_preorder exTree [7]).2
      (ActorTree.node [] [some (.node [1] [] true 0), some (.node [2] [] true 0)] false 0)
      (by rfl)⟩

/-! ## Helper lemmas: `extractVisibleActors` -/

theorem extractVisibleActors_of_disabled {A B S : Type} (api : ActorApi A B S) (defaultMask : Nat)
    (t : ActorTree B) (h : t.isEnabled = false) (list : List ActorId)
    (camera : Option (Camera B S)) (enable_mask : Nat) (w : World A) :
    extractVisibleActors api defaultMask t list camera enable_mask w = (list, w) := by
  cases t with
  | node actors children enabled aabb =>
    simp only [ActorTree.isEnabled] at h
    subst h
    simp [extractVisibleActors]

mutual
theorem extractVisibleActors_removeDisabled {A B S : Type} (api : ActorApi A B S)
    (defaultMask : Nat) :
    ∀ (t : ActorTree B) (list : List ActorId) (camera : Option (Camera B S)) (enable_mask : Nat)
      (w : World A),
      extractVisibleActors api defaultMask (removeDisabled t) list camera enable_mask w
        = extractVisibleActors api defaultMask t list camera enable_mask w
  | .node actors children enabled aabb, list, camera, enable_mask, w => by
    simp only [removeDisabled, extractVisibleActors]
    rw [extractVisibleChildren_removeDisabled api defaultMask children]
theorem extractVisibleChildren_removeDisabled {A B S : Type} (api : ActorApi A B S)
    (defaultMask : Nat) :
    ∀ (cs : List (Option (ActorTree B))) (list : List ActorId) (camera : Option (Camera B S))
      (w : World A),
      extractVisibleChildren api defaultMask (removeDisabledChildren cs) list camera w
        = extractVisibleChildren api defaultMask cs list camera w
  | [], _, _, _ => rfl
  | none :: rest, list, camera, w => by
    simp only [removeDisabledChildren, extractVisibleChildren]
    exact extractVisibleChildren_removeDisabled api defaultMask rest list camera w
  | some c :: rest, list, camera, w => by
    simp only [removeDisabledChildren]
    cases h : c.isEnabled with
    | true =>
      simp only [if_true, extractVisibleChildren]
      rw [extractVisibleActors_removeDisabled api defaultMask c,
        extractVisibleChildren_removeDisabled api defaultMask rest]
    | false =>
      simp only [Bool.false_eq_true, if_false, extractVisibleChildren]
      rw [extractVisibleActors_of_disabled api defaultMask c h,
        extractVisibleChildren_removeDisabled api defaultMask rest]
end

/-! ## C4: disabled subtrees contribute nothing to `extractVisibleActors` -/

/-- C4: for every tree, camera (present or absent) and mask, `extractVisibleActors` called on a
disabled node leaves the list (and the world) unchanged; on any tree its result equals the
result on the tree with every disabled node's subtree removed; and on the scenario tree
(enabled child `A` holding the enabled drawable `1`, disabled child `B` holding drawable `2`)
with no camera and the default mask `0xFFFFFFFF` the output is exactly `[1]`, whatever the
caller's mask. -/
theorem extractVisibleActors_disabled_pruned {A B S : Type} (api : ActorApi A B S)
    (defaultMask : Nat) (t : ActorTree B) (actors : List ActorId)
    (children : List (Option (ActorTree B))) (aabb : B) (list : List ActorId)
    (camera : Option (Camera B S)) (enable_mask : Nat) (w : World A) :
    extractVisibleActors api defaultMask (.node actors children false aabb) list camera
        enable_mask w = (list, w)
      ∧ extractVisibleActors api defaultMask (removeDisabled t) list camera enable_mask w
          = extractVisibleActors api defaultMask t list camera enable_mask w
      ∧ (extractVisibleActors exApi 0xFFFFFFFF exTree [] none enable_mask exWorld).1 = [1] := by
  refine ⟨extractVisibleActors_of_disabled api defaultMask (.node actors children false aabb) rfl
      list camera enable_mask w,
    extractVisibleActors_removeDisabled api defaultMask t list camera enable_mask w, ?_⟩
  simp [exTree, extractVisibleActors, extractVisibleChildren, extractVisibleOwn, exApi, exWorld,
    cameraCullsBox, cameraCullsSphere, maskIntersects]

/-! ## Helper lemmas: `computeAABB` and the enabled flags -/

theorem aabb_eraseEnabled {B : Type} (t : ActorTree B) : (eraseEnabled t).aabb = t.aabb := by
  cases t with
  | node actors children enabled aabb => simp [eraseEnabled, ActorTree.aabb]

mutual
theorem computeAABB_eraseEnabled {A B S : Type} (api : ActorApi A B S) (ops : AABBOps B) :
    ∀ (t : ActorTree B) (w : World A),
      computeAABB api ops (eraseEnabled t) w
        = (eraseEnabled (computeAABB api ops t w).1, (computeAABB api ops t w).2)
  | .node actors children enabled b, w => by
    simp only [eraseEnabled, computeAABB]
    rw [computeAABBChildren_eraseEnabled api ops children]
theorem computeAABBChildren_eraseEnabled {A B S : Type} (api : ActorApi A B S) (ops : AABBOps B) :
    ∀ (cs : List (Option (ActorTree B))) (acc : B) (w : World A),
      computeAABBChildren api ops (eraseEnabledChildren cs) acc w
        = (eraseEnabledChildren (computeAABBChildren api ops cs acc w).1,
            (computeAABBChildren api ops cs acc w).2)
  | [], _, _ => rfl
  | none :: rest, acc, w => by
    simp only [eraseEnabledChildren, computeAABBChildren]
    rw [computeAABBChildren_eraseEnabled api ops rest]
  | some c :: rest, acc, w => by
    simp only [eraseEnabledChildren, computeAABBChildren]
    rw [computeAABB_eraseEnabled api ops c]
    simp only [aabb_eraseEnabled]
    rw [computeAABBChildren_eraseEnabled api ops rest]
end

/-! ## C5: `computeAABB` ignores the enabled flags -/

/-- C5: for two trees that differ only in the enabled flags of their nodes, `computeAABB()` on
the roots gives result trees that again differ only in the enabled flags (so the same `aabb`
at every corresponding node) and the same world; `computeBounds` is invoked on every drawable
of every node, in pre-order, also below disabled nodes; and in the scenario the root's box
`3` is the box of drawable `2`, held by the disabled child. -/
theorem computeAABB_ignores_enabled {A B S : Type} (api : ActorApi A B S) (ops : AABBOps B)
    (t1 t2 : ActorTree B) (w : World A) (h : eraseEnabled t1 = eraseEnabled t2) :
    eraseEnabled (computeAABB api ops t1 w).1 = eraseEnabled (computeAABB api ops t2 w).1
      ∧ (computeAABB api ops t1 w).2 = (computeAABB api ops t2 w).2
      ∧ (computeAABB api ops t1 w).2.log = w.log ++ (preorder t1).map Call.computeBounds
      ∧ ((computeAABB exApi exOps exTree exWorld).1.aabb = 3
          ∧ exApi.boundingBox ((computeAABB exApi exOps exTree exWorld).2.actor 2) = 3) := by
  have h1 := computeAABB_eraseEnabled api ops t1 w
  have h2 := computeAABB_eraseEnabled api ops t2 w
  rw [h] at h1
  rw [h2] at h1
  refine ⟨(congrArg Prod.fst h1).symm, (congrArg Prod.snd h1).symm, ?_, by decide, by decide⟩
  rw [computeAABB_world, foldl_computeBounds_log]

/-- Witness for C5: the scenario tree and the same tree with every node enabled. -/
theorem computeAABB_ignores_enabled_witness :
    eraseEnabled exTree
        = eraseEnabled (ActorTree.node [] [some (.node [1] [] true 0), some (.node [2] [] true 0)]
            true 0)
      ∧ (computeAABB exApi exOps exTree exWorld).2.log
          = [Call.computeBounds 1, Call.computeBounds 2] :=
  ⟨by rfl,
    (computeAABB_ignores_enabled exApi exOps exTree
      (ActorTree.node [] [some (.node [1] [] true 0), some (.node [2] [] true 0)] true 0)
      exWorld (by rfl)).2.2.1⟩

/-! ## C6: a box-culled node contributes nothing -/

/-- C6: for every node, mask and output list, when a camera is supplied and its frustum culls
the node's cached `aabb`, `extractVisibleActors` leaves the output list (and the world)
unchanged, whatever the subtree contains. -/
theorem extractVisibleActors_box_culled {A B S : Type} (api : ActorApi A B S) (defaultMask : Nat)
    (t : ActorTree B) (list : List ActorId) (cam : Camera B S) (enable_mask : Nat) (w : World A)
    (h : cam.cullBox t.aabb = true) :
    extractVisibleActors api defaultMask t list (some cam) enable_mask w = (list, w) := by
  cases t with
  | node actors children enabled aabb =>
    simp only [ActorTree.aabb] at h
    simp [extractVisibleActors, cameraCullsBox, h]

/-- Witness for C6: the scenario tree with its cached box `0` is culled by the concrete camera. -/
theorem extractVisibleActors_box_culled_witness :
    exCamera.cullBox exTree.aabb = true
      ∧ extractVisibleActors exApi 0xFFFFFFFF exTree [7] (some exCamera) 0xFFFFFFFF exWorld
          = ([7], exWorld) :=
  ⟨by decide,
    extractVisibleActors_box_culled exApi 0xFFFFFFFF exTree [7] exCamera 0xFFFFFFFF exWorld
      (by decide)⟩

/-! ## Helper lemmas: worlds along `extractVisibleActors` -/

theorem boundsOnly_refl {A B S : Type} (api : ActorApi A B S) (w : World A) :
    boundsOnly api w w :=
  fun _ => ⟨rfl, rfl, rfl⟩

theorem boundsOnly_trans {A B S : Type} (api : ActorApi A B S) {w1 w2 w3 : World A}
    (h12 : boundsOnly api w1 w2) (h23 : boundsOnly api w2 w3) : boundsOnly api w1 w3 :=
  fun d => ⟨(h23 d).1.trans (h12 d).1, (h23 d).2.1.trans (h12 d).2.1,
    (h23 d).2.2.trans (h12 d).2.2⟩

theorem boundsOnly_step {A B S : Type} (api : ActorApi A B S) (hapi : api.boundsWellBehaved)
    (w : World A) (a : ActorId) : boundsOnly api w (w.computeBounds api a) := by
  intro d
  by_cases hda : d = a
  · subst hda
    simp [World.computeBounds, hapi.1, hapi.2.1, hapi.2.2]
  · simp [World.computeBounds, hda]

theorem extractVisibleOwn_boundsOnly {A B S : Type} (api : ActorApi A B S)
    (hapi : api.boundsWellBehaved) (camera : Option (Camera B S)) (enable_mask : Nat) :
    ∀ (actors list : List ActorId) (w : World A),
      boundsOnly api w (extractVisibleOwn api camera enable_mask actors list w).2
  | [], _, w => boundsOnly_refl api w
  | a :: rest, list, w => by
    unfold extractVisibleOwn
    split
    · split
      · exact boundsOnly_trans api (boundsOnly_step api hapi w a)
          (extractVisibleOwn_boundsOnly api hapi camera enable_mask rest _ _)
      · exact boundsOnly_trans api (boundsOnly_step api hapi w a)
          (extractVisibleOwn_boundsOnly api hapi camera enable_mask rest _ _)
    · exact extractVisibleOwn_boundsOnly api hapi camera enable_mask rest _ _

mutual
theorem extractVisibleActors_boundsOnly {A B S : Type} (api : ActorApi A B S)
    (hapi : api.boundsWellBehaved) (defaultMask : Nat) :
    ∀ (t : ActorTree B) (list : List ActorId) (camera : Option (Camera B S)) (enable_mask : Nat)
      (w : World A),
      boundsOnly api w (extractVisibleActors api defaultMask t list camera enable_mask w).2
  | .node actors children enabled aabb, list, camera, enable_mask, w => by
    unfold extractVisibleActors
    split
    · exact boundsOnly_refl api w
    · exact boundsOnly_trans api
        (extractVisibleOwn_boundsOnly api hapi camera enable_mask actors list w)
        (extractVisibleChildren_boundsOnly api hapi defaultMask children _ camera _)
theorem extractVisibleChildren_boundsOnly {A B S : Type} (api : ActorApi A B S)
    (hapi : api.boundsWellBehaved) (defaultMask : Nat) :
    ∀ (cs : List (Option (ActorTree B))) (list : List ActorId) (camera : Option (Camera B S))
      (w : World A),
      boundsOnly api w (extractVisibleChildren api defaultMask cs list camera w).2
  | [], _, _, w => boundsOnly_refl api w
  | none :: rest, list, camera, w => by
    simp only [extractVisibleChildren]
    exact extractVisibleChildren_boundsOnly api hapi defaultMask rest list camera w
  | some c :: rest, list, camera, w => by
    simp only [extractVisibleChildren]
    exact boundsOnly_trans api
      (extractVisibleActors_boundsOnly api hapi defaultMask c list camera defaultMask w)
      (extractVisibleChildren_boundsOnly api hapi defaultMask rest _ camera _)
end

/-! ## Helper lemmas: the output list only grows -/

theorem extractVisibleOwn_subset {A B S : Type} (api : ActorApi A B S)
    (camera : Option (Camera B S)) (enable_mask : Nat) :
    ∀ (actors list : List ActorId) (w : World A) (x : ActorId), x ∈ list →
      x ∈ (extractVisibleOwn api camera enable_mask actors list w).1
  | [], _, _, _, hx => hx
  | a :: rest, list, w, x, hx => by
    unfold extractVisibleOwn
    split
    · split
      · exact extractVisibleOwn_subset api camera enable_mask rest _ _ x hx
      · exact extractVisibleOwn_subset api camera enable_mask rest _ _ x
          (List.mem_append_left _ hx)
    · exact extractVisibleOwn_subset api camera enable_mask rest _ _ x hx

mutual
theorem extractVisibleActors_subset {A B S : Type} (api : ActorApi A B S) (defaultMask : Nat) :
    ∀ (t : ActorTree B) (list : List ActorId) (camera : Option (Camera B S)) (enable_mask : Nat)
      (w : World A) (x : ActorId), x ∈ list →
      x ∈ (extractVisibleActors api defaultMask t list camera enable_mask w).1
  | .node actors children enabled aabb, list, camera, enable_mask, w, x, hx => by
    unfold extractVisibleActors
    split
    · exact hx
    · exact extractVisibleChildren_subset api defaultMask children _ camera _ x
        (extractVisibleOwn_subset api camera enable_mask actors list w x hx)
theorem extractVisibleChildren_subset {A B S : Type} (api : ActorApi A B S) (defaultMask : Nat) :
    ∀ (cs : List (Option (ActorTree B))) (list : List ActorId) (camera : Option (Camera B S))
      (w : World A) (x : ActorId), x ∈ list →
      x ∈ (extractVisibleChildren api defaultMask cs list camera w).1
  | [], _, _, _, _, hx => hx
  | none :: rest, list, camera, w, x, hx => by
    simp only [extractVisibleChildren]
    exact extractVisibleChildren_subset api defaultMask rest list camera w x hx
  | some c :: rest, list, camera, w, x, hx => by
    simp only [extractVisibleChildren]
    exact extractVisibleChildren_subset api defaultMask rest _ camera _ x
      (extractVisibleActors_subset api defaultMask c list camera defaultMask w x hx)
end

/-! ## Helper lemmas: drawables that pass the tests are appended -/

theorem passesTests_of_boundsOnly {A B S : Type} (api : ActorApi A B S)
    (camera : Option (Camera B S)) (enable_mask : Nat) {w w' : World A}
    (h : boundsOnly api w w') (d : ActorId) (hp : passesTests api camera enable_mask w d) :
    passesTests api camera enable_mask w' d := by
  unfold passesTests
  rw [(h d).1, (h d).2.1, (h d).2.2]
  exact hp

theorem extractVisibleOwn_mem {A B S : Type} (api : ActorApi A B S)
    (hapi : api.boundsWellBehaved) (camera : Option (Camera B S)) (enable_mask : Nat) :
    ∀ (actors list : List ActorId) (w : World A) (d : ActorId), d ∈ actors →
      passesTests api camera enable_mask w d →
      d ∈ (extractVisibleOwn api camera enable_mask actors list w).1
  | [], _, _, _, hd, _ => by simp at hd
  | a :: rest, list, w, d, hd, hp => by
    unfold extractVisibleOwn
    by_cases hda : d = a
    · subst hda
      have h1 : (w.computeBounds api d).actor d = api.computeBounds (w.actor d) := by
        simp [World.computeBounds]
      rw [h1, hp.1, hp.2.1, hp.2.2]
      simp only [Bool.and_self, if_true, Bool.false_eq_true, if_false]
      exact extractVisibleOwn_subset api camera enable_mask rest _ _ d
        (List.mem_append_right _ (List.mem_singleton_self d))
    · have hd' : d ∈ rest := by
        rcases List.mem_cons.mp hd with h | h
        · exact absurd h hda
        · exact h
      have hp' := passesTests_of_boundsOnly api camera enable_mask (boundsOnly_step api hapi w a)
        d hp
      split
      · split
        · exact extractVisibleOwn_mem api hapi camera enable_mask rest _ _ d hd' hp'
        · exact extractVisibleOwn_mem api hapi camera enable_mask rest _ _ d hd' hp'
      · exact extractVisibleOwn_mem api hapi camera enable_mask rest _ _ d hd' hp

mutual
theorem extractVisibleActors_mem {A B S : Type} (api : ActorApi A B S)
    (hapi : api.boundsWellBehaved) (defaultMask : Nat) (camera : Option (Camera B S))
    (d : ActorId) :
    ∀ (t : ActorTree B) (list : List ActorId) (enable_mask : Nat) (w : World A),
      listedThrough (fun n => n.isEnabled && !cameraCullsBox camera n.aabb) d t = true →
      passesTests api camera enable_mask w d → passesTests api camera defaultMask w d →
      d ∈ (extractVisibleActors api defaultMask t list camera enable_mask w).1
  | .node actors children enabled aabb, list, enable_mask, w, hl, hp, hpd => by
    simp only [listedThrough, ActorTree.isEnabled, ActorTree.aabb, Bool.and_eq_true,
      Bool.or_eq_true, decide_eq_true_eq, Bool.not_eq_true'] at hl
    obtain ⟨⟨hen, hcull⟩, hl⟩ := hl
    unfold extractVisibleActors
    simp only [hen, hcull, Bool.not_true, Bool.or_self, Bool.false_eq_true, if_false]
    rcases hl with hl | hl
    · exact extractVisibleChildren_subset api defaultMask children _ camera _ d
        (extractVisibleOwn_mem api hapi camera enable_mask actors list w d hl hp)
    · exact extractVisibleChildren_mem api hapi defaultMask camera d children _ _ hl
        (passesTests_of_boundsOnly api camera defaultMask
          (extractVisibleOwn_boundsOnly api hapi camera enable_mask actors list w) d hpd)
theorem extractVisibleChildren_mem {A B S : Type} (api : ActorApi A B S)
    (hapi : api.boundsWellBehaved) (defaultMask : Nat) (camera : Option (Camera B S))
    (d : ActorId) :
    ∀ (cs : List (Option (ActorTree B))) (list : List ActorId) (w : World A),
      listedThroughChildren (fun n => n.isEnabled && !cameraCullsBox camera n.aabb) d cs = true →
      passesTests api camera defaultMask w d →
      d ∈ (extractVisibleChildren api defaultMask cs list camera w).1
  | [], _, _, hl, _ => by simp [listedThroughChildren] at hl
  | none :: rest, list, w, hl, hpd => by
    simp only [listedThroughChildren] at hl
    simp only [extractVisibleChildren]
    exact extractVisibleChildren_mem api hapi defaultMask camera d rest list w hl hpd
  | some c :: rest, list, w, hl, hpd => by
    simp only [listedThroughChildren, Bool.or_eq_true] at hl
    simp only [extractVisibleChildren]
    rcases hl with hl | hl
    · exact extractVisibleChildren_subset api defaultMask rest _ camera _ d
        (extractVisibleActors_mem api hapi defaultMask camera d c list defaultMask w hl hpd hpd)
    · exact extractVisibleChildren_mem api hapi defaultMask camera d rest _ _ hl
        (passesTests_of_boundsOnly api camera defaultMask
          (extractVisibleActors_boundsOnly api hapi defaultMask c list camera defaultMask w) d hpd)
end

theorem maskIntersects_allOnes (enable_mask m : Nat) (h : enable_mask < 2 ^ 32)
    (hm : maskIntersects enable_mask m = true) : maskIntersects 0xFFFFFFFF m = true := by
  simp only [maskIntersects, bne_iff_ne, ne_eq] at hm ⊢
  obtain ⟨i, hi⟩ := Nat.ne_zero_implies_bit_true hm
  rw [Nat.testBit_land, Bool.and_eq_true] at hi
  have hi32 : i < 32 := by
    by_contra hge
    have hlt : enable_mask < 2 ^ i :=
      lt_of_lt_of_le h (Nat.pow_le_pow_right (by norm_num) (by omega))
    rw [Nat.testBit_lt_two_pow hlt] at hi
    exact absurd hi.1 (by simp)
  intro h0
  have hbit : (0xFFFFFFFF &&& m).testBit i = true := by
    rw [Nat.testBit_land, hi.2]
    have hpow : (0xFFFFFFFF : Nat) = 2 ^ 32 - 1 := by norm_num
    rw [hpow, Nat.testBit_two_pow_sub_one]
    simp [hi32]
  rw [h0] at hbit
  simp at hbit

/-! ## C7: which drawables are guaranteed to survive visible extraction -/

/-- C7, as stated, fails: a single enabled node holding the enabled drawable `3` (all mask bits
set), with bounds freshly computed by `computeAABB`, has the box `4` and the drawable the
sphere `5`; the frustum from `5` on culls the box but not the sphere, so the drawable meets
every condition of the claim and yet the output is empty. -/
theorem extractVisibleActors_conservative_counterexample :
    listedThrough ActorTree.isEnabled 3
        (computeAABB exApi exOps (.node [3] [] true 0) exWorld).1 = true
      ∧ exApi.isEnabled ((computeAABB exApi exOps (.node [3] [] true 0) exWorld).2.actor 3) = true
      ∧ maskIntersects 0xFFFFFFFF
          (exApi.enableMask ((computeAABB exApi exOps (.node [3] [] true 0) exWorld).2.actor 3))
          = true
      ∧ exCamera.cullSphere (exApi.boundingSphere (exApi.computeBounds
          ((computeAABB exApi exOps (.node [3] [] true 0) exWorld).2.actor 3))) = false
      ∧ (extractVisibleActors exApi 0xFFFFFFFF
          (computeAABB exApi exOps (.node [3] [] true 0) exWorld).1 [] (some exCamera) 0xFFFFFFFF
          (computeAABB exApi exOps (.node [3] [] true 0) exWorld).2).1 = [] := by
  refine ⟨by decide, by decide, by decide, by decide, by decide⟩

/-- C7, amended: for every tree, camera and mask, a drawable that is enabled, whose enable mask
intersects the caller's mask, whose bounding sphere (after `computeBounds`) the frustum does not
cull, and which is listed in a node such that the node and all its ancestors within the subtree
are enabled and have a cached `aabb` that the frustum does not cull, appears in the output.
Assumed of the collaborators: `computeBounds` is idempotent and leaves the enabled flag and the
enable mask alone, and the default mask (used below the called node) intersects every drawable
mask that the caller's mask intersects, as an all-ones default does. -/
theorem extractVisibleActors_conservative {A B S : Type} (api : ActorApi A B S)
    (defaultMask : Nat)
    (hcb : ∀ a, api.computeBounds (api.computeBounds a) = api.computeBounds a)
    (hen : ∀ a, api.isEnabled (api.computeBounds a) = api.isEnabled a)
    (hmk : ∀ a, api.enableMask (api.computeBounds a) = api.enableMask a)
    (t : ActorTree B) (list : List ActorId) (camera : Option (Camera B S)) (enable_mask : Nat)
    (hdefault : ∀ m, maskIntersects enable_mask m = true → maskIntersects defaultMask m = true)
    (w : World A) (d : ActorId)
    (hlisted : listedThrough (fun n => n.isEnabled && !cameraCullsBox camera n.aabb) d t = true)
    (henabled : api.isEnabled (w.actor d) = true)
    (hmask : maskIntersects enable_mask (api.enableMask (w.actor d)) = true)
    (hsphere : cameraCullsSphere camera
      (api.boundingSphere (api.computeBounds (w.actor d))) = false) :
    d ∈ (extractVisibleActors api defaultMask t list camera enable_mask w).1 :=
  extractVisibleActors_mem api ⟨hcb, hen, hmk⟩ defaultMask camera d t list enable_mask w hlisted
    ⟨henabled, hmask, hsphere⟩ ⟨henabled, hdefault _ hmask, hsphere⟩

/-- Witness for the amended C7: drawable `9` (box `10`, sphere `11`) in an enabled child below an
enabled root, bounds computed, the concrete camera, caller's mask `1`. -/
theorem extractVisibleActors_conservative_witness :
    9 ∈ (extractVisibleActors exApi 0xFFFFFFFF
      (computeAABB exApi exOps (.node [] [some (.node [9] [] true 0)] true 0) exWorld).1 []
      (some exCamera) 1 exWorld).1 :=
  extractVisibleActors_conservative exApi 0xFFFFFFFF (fun _ => rfl) (fun _ => rfl) (fun _ => rfl)
    (computeAABB exApi exOps (.node [] [some (.node [9] [] true 0)] true 0) exWorld).1 []
    (some exCamera) 1 (fun m hm => maskIntersects_allOnes 1 m (by norm_num) hm) exWorld 9
    (by decide) (by decide) (by decide) (by decide)

/-! ## Helper lemmas: `eraseActor` -/

theorem Collection.find_eq_none (d : ActorId) :
    ∀ (l : List ActorId), Collection.find l d = none ↔ d ∉ l
  | [] => by simp [Collection.find]
  | x :: rest => by
    by_cases hx : x = d
    · simp [Collection.find, hx]
    · have ih := Collection.find_eq_none d rest
      have hx' : ¬ d = x := fun h => hx h.symm
      simp [Collection.find, hx, hx', ih]

theorem Collection.find_eq_some (d : ActorId) :
    ∀ (l : List ActorId) (pos : Nat), Collection.find l d = some pos →
      d ∈ l ∧ Collection.eraseAt l pos = l.erase d
  | [], pos, h => by simp [Collection.find] at h
  | x :: rest, pos, h => by
    by_cases hx : x = d
    · subst hx
      simp only [Collection.find, if_true, Option.some.injEq] at h
      subst h
      simp [Collection.eraseAt]
    · simp only [Collection.find, hx, if_false, Option.map_eq_some'] at h
      obtain ⟨pos', hfind, rfl⟩ := h
      have ih := Collection.find_eq_some d rest pos' hfind
      refine ⟨List.mem_cons_of_mem _ ih.1, ?_⟩
      have h2 := ih.2
      simp only [Collection.eraseAt] at h2 ⊢
      rw [List.eraseIdx_cons_succ, h2, List.erase_cons_tail (by simpa using hx)]

mutual
theorem mem_preorder_iff {B : Type} (d : ActorId) :
    ∀ (t : ActorTree B), d ∈ preorder t ↔ ∃ x ∈ nodeTable t, d ∈ x.2
  | .node actors children enabled aabb => by
    simp only [preorder, nodeTable, List.mem_append, List.mem_cons, exists_eq_or_imp]
    rw [mem_preorderChildren_iff d children 0]
theorem mem_preorderChildren_iff {B : Type} (d : ActorId) :
    ∀ (cs : List (Option (ActorTree B))) (i : Nat),
      d ∈ preorderChildren cs ↔ ∃ x ∈ nodeTableChildren cs i, d ∈ x.2
  | [], _ => by simp [preorderChildren, nodeTableChildren]
  | none :: rest, i => by
    simp only [preorderChildren, nodeTableChildren]
    exact mem_preorderChildren_iff d rest (i + 1)
  | some c :: rest, i => by
    simp only [preorderChildren, nodeTableChildren, List.mem_append, List.mem_map]
    rw [mem_preorderChildren_iff d rest (i + 1), mem_preorder_iff d c]
    constructor
    · rintro (⟨x, hx, hd⟩ | ⟨x, hx, hd⟩)
      · exact ⟨(i :: x.1, x.2), Or.inl ⟨x, hx, rfl⟩, hd⟩
      · exact ⟨x, Or.inr hx, hd⟩
    · rintro ⟨x, (⟨y, hy, rfl⟩ | hx), hd⟩
      · exact Or.inl ⟨y, hy, hd⟩
      · exact Or.inr ⟨x, hx, hd⟩
end

mutual
theorem eraseActor_absent {B : Type} (d : ActorId) :
    ∀ (t : ActorTree B), d ∉ preorder t → eraseActor d t = (none, t)
  | .node actors children enabled aabb, h => by
    simp only [preorder, List.mem_append, not_or] at h
    unfold eraseActor
    rw [(Collection.find_eq_none d actors).mpr h.1]
    simp only
    rw [eraseActorChildren_absent d children 0 h.2]
theorem eraseActorChildren_absent {B : Type} (d : ActorId) :
    ∀ (cs : List (Option (ActorTree B))) (i : Nat), d ∉ preorderChildren cs →
      eraseActorChildren d cs i = (none, cs)
  | [], _, _ => rfl
  | none :: rest, i, h => by
    simp only [preorderChildren] at h
    simp only [eraseActorChildren]
    rw [eraseActorChildren_absent d rest (i + 1) h]
  | some c :: rest, i, h => by
    simp only [preorderChildren, List.mem_append, not_or] at h
    unfold eraseActorChildren
    rw [eraseActor_absent d c h.1]
    simp only
    rw [eraseActorChildren_absent d rest (i + 1) h.2]
end

theorem ErasedAt.here (d : ActorId) (p : Path) (l : List ActorId)
    (post : List (Path × List ActorId)) (h : d ∈ l) :
    ErasedAt d ((p, l) :: post) ((p, l.erase d) :: post) (some p) :=
  ⟨[], p, l, post, rfl, by simp, h, rfl, rfl⟩

theorem ErasedAt.prepend {d : ActorId} {table table' : List (Path × List ActorId)}
    {ret : Option Path} (pre0 : List (Path × List ActorId)) (hpre : ∀ x ∈ pre0, d ∉ x.2)
    (h : ErasedAt d table table' ret) : ErasedAt d (pre0 ++ table) (pre0 ++ table') ret := by
  obtain ⟨pre, p, l, post, h1, h2, h3, h4, h5⟩ := h
  refine ⟨pre0 ++ pre, p, l, post, by simp [h1], ?_, h3, h4, by simp [h5]⟩
  intro x hx
  rcases List.mem_append.mp hx with hx | hx
  · exact hpre x hx
  · exact h2 x hx

theorem ErasedAt.append {d : ActorId} {table table' : List (Path × List ActorId)}
    {ret : Option Path} (post0 : List (Path × List ActorId))
    (h : ErasedAt d table table' ret) : ErasedAt d (table ++ post0) (table' ++ post0) ret := by
  obtain ⟨pre, p, l, post, h1, h2, h3, h4, h5⟩ := h
  exact ⟨pre, p, l, post ++ post0, by simp [h1], h2, h3, h4, by simp [h5]⟩

theorem ErasedAt.map {d : ActorId} {table table' : List (Path × List ActorId)}
    {ret : Option Path} (i : Nat) (h : ErasedAt d table table' ret) :
    ErasedAt d (table.map (fun x => (i :: x.1, x.2))) (table'.map (fun x => (i :: x.1, x.2)))
      (ret.map (fun p => i :: p)) := by
  obtain ⟨pre, p, l, post, h1, h2, h3, h4, h5⟩ := h
  refine ⟨pre.map (fun x => (i :: x.1, x.2)), i :: p, l, post.map (fun x => (i :: x.1, x.2)),
    by simp [h1], ?_, h3, by simp [h4], by simp [h5]⟩
  intro x hx
  obtain ⟨y, hy, rfl⟩ := List.mem_map.mp hx
  exact h2 y hy

theorem ErasedAt.ret_isSome {d : ActorId} {table table' : List (Path × List ActorId)}
    {ret : Option Path} (h : ErasedAt d table table' ret) : ∃ p, ret = some p := by
  obtain ⟨_, p, _, _, _, _, _, h4, _⟩ := h
  exact ⟨p, h4⟩

mutual
theorem eraseActor_present {B : Type} (d : ActorId) :
    ∀ (t : ActorTree B), d ∈ preorder t →
      ErasedAt d (nodeTable t) (nodeTable (eraseActor d t).2) (eraseActor d t).1
        ∧ (preorder (eraseActor d t).2).length + 1 = (preorder t).length
  | .node actors children enabled aabb, h => by
    unfold eraseActor
    cases hfind : Collection.find actors d with
    | some pos =>
      obtain ⟨hmem, herase⟩ := Collection.find_eq_some d actors pos hfind
      simp only [nodeTable, preorder, herase, List.length_append]
      refine ⟨ErasedAt.here d [] actors _ hmem, ?_⟩
      have hlen := List.length_erase_of_mem hmem
      have hpos : 0 < actors.length := List.length_pos_of_mem hmem
      omega
    | none =>
      have hnot := (Collection.find_eq_none d actors).mp hfind
      simp only [preorder, List.mem_append] at h
      have hc : d ∈ preorderChildren children := h.resolve_left hnot
      obtain ⟨h1, h2⟩ := eraseActorChildren_present d children 0 hc
      simp only [nodeTable, preorder, List.length_append]
      refine ⟨?_, by omega⟩
      have := ErasedAt.prepend [(([] : Path), actors)] (by simpa using hnot) h1
      simpa using this
theorem eraseActorChildren_present {B : Type} (d : ActorId) :
    ∀ (cs : List (Option (ActorTree B))) (i : Nat), d ∈ preorderChildren cs →
      ErasedAt d (nodeTableChildren cs i) (nodeTableChildren (eraseActorChildren d cs i).2 i)
          (eraseActorChildren d cs i).1
        ∧ (preorderChildren (eraseActorChildren d cs i).2).length + 1
            = (preorderChildren cs).length
  | [], _, h => by simp [preorderChildren] at h
  | none :: rest, i, h => by
    simp only [preorderChildren] at h
    simp only [eraseActorChildren, nodeTableChildren, preorderChildren]
    exact eraseActorChildren_present d rest (i + 1) h
  | some c :: rest, i, h => by
    by_cases hc : d ∈ preorder c
    · obtain ⟨h1, h2⟩ := eraseActor_present d c hc
      obtain ⟨p, hp⟩ := h1.ret_isSome
      unfold eraseActorChildren
      rw [hp] at h1 ⊢
      simp only [nodeTableChildren, preorderChildren, List.length_append]
      refine ⟨?_, by omega⟩
      exact (h1.map i).append _
    · simp only [preorderChildren, List.mem_append] at h
      have hr : d ∈ preorderChildren rest := h.resolve_left hc
      obtain ⟨h1, h2⟩ := eraseActorChildren_present d rest (i + 1) hr
      unfold eraseActorChildren
      rw [eraseActor_absent d c hc]
      simp only [nodeTableChildren, preorderChildren, List.length_append]
      refine ⟨?_, by omega⟩
      apply ErasedAt.prepend _ _ h1
      intro x hx
      obtain ⟨y, hy, rfl⟩ := List.mem_map.mp hx
      exact fun hd => hc ((mem_preorder_iff d c).mpr ⟨y, hy, hd⟩)
end

mutual
theorem skeleton_eraseActor {B : Type} (d : ActorId) :
    ∀ (t : ActorTree B), skeleton (eraseActor d t).2 = skeleton t
  | .node actors children enabled aabb => by
    unfold eraseActor
    cases Collection.find actors d with
    | some pos => simp [skeleton]
    | none =>
      simp only [skeleton]
      rw [skeletonChildren_eraseActor d children 0]
theorem skeletonChildren_eraseActor {B : Type} (d : ActorId) :
    ∀ (cs : List (Option (ActorTree B))) (i : Nat),
      skeletonChildren (eraseActorChildren d cs i).2 = skeletonChildren cs
  | [], _ => rfl
  | none :: rest, i => by
    simp only [eraseActorChildren, skeletonChildren]
    rw [skeletonChildren_eraseActor d rest (i + 1)]
  | some c :: rest, i => by
    unfold eraseActorChildren
    cases h : (eraseActor d c).1 with
    | some p =>
      simp only [skeletonChildren]
      rw [skeleton_eraseActor d c]
    | none =>
      simp only [skeletonChildren]
      rw [skeleton_eraseActor d c, skeletonChildren_eraseActor d rest (i + 1)]
end

mutual
theorem nodeAt_of_mem_nodeTable {B : Type} :
    ∀ (t : ActorTree B) (x : Path × List ActorId), x ∈ nodeTable t →
      (nodeAt t x.1).map ActorTree.actors = some x.2
  | .node actors children enabled aabb, x, hx => by
    simp only [nodeTable, List.mem_cons] at hx
    rcases hx with rfl | hx
    · simp [nodeAt, ActorTree.actors]
    · obtain ⟨j, p, c, h1, h2, h3⟩ := nodeAt_of_mem_nodeTableChildren children 0 x hx
      rw [h1]
      simp only [Nat.zero_add, nodeAt, ActorTree.children, h2]
      exact h3
theorem nodeAt_of_mem_nodeTableChildren {B : Type} :
    ∀ (cs : List (Option (ActorTree B))) (i : Nat) (x : Path × List ActorId),
      x ∈ nodeTableChildren cs i →
      ∃ j p c, x.1 = (i + j) :: p ∧ cs.get? j = some (some c)
        ∧ (nodeAt c p).map ActorTree.actors = some x.2
  | [], _, x, hx => by simp [nodeTableChildren] at hx
  | none :: rest, i, x, hx => by
    simp only [nodeTableChildren] at hx
    obtain ⟨j, p, c, h1, h2, h3⟩ := nodeAt_of_mem_nodeTableChildren rest (i + 1) x hx
    exact ⟨j + 1, p, c, by rw [h1]; congr 1; omega, by simpa using h2, h3⟩
  | some c :: rest, i, x, hx => by
    simp only [nodeTableChildren, List.mem_append, List.mem_map] at hx
    rcases hx with ⟨y, hy, rfl⟩ | hx
    · exact ⟨0, y.1, c, by simp, by simp, nodeAt_of_mem_nodeTable c y hy⟩
    · obtain ⟨j, p, c', h1, h2, h3⟩ := nodeAt_of_mem_nodeTableChildren rest (i + 1) x hx
      exact ⟨j + 1, p, c', by rw [h1]; congr 1; omega, by simpa using h2, h3⟩
end

theorem eraseActor_none_iff {B : Type} (d : ActorId) (t : ActorTree B) :
    (eraseActor d t).1 = none ↔ d ∉ preorder t := by
  constructor
  · intro hnone hmem
    obtain ⟨p, hp⟩ := (eraseActor_present d t hmem).1.ret_isSome
    rw [hp] at hnone
    exact absurd hnone (by simp)
  · intro habs
    rw [eraseActor_absent d t habs]

mutual
theorem nodeAt_eraseActor_ne {B : Type} (d : ActorId) :
    ∀ (t : ActorTree B) (p : Path), (eraseActor d t).1 = some p → ∀ q : Path, q ≠ p →
      (nodeAt (eraseActor d t).2 q).map ActorTree.actors = (nodeAt t q).map ActorTree.actors
  | .node actors children enabled aabb, p, hp, q, hq => by
    unfold eraseActor at hp ⊢
    cases hfind : Collection.find actors d with
    | some pos =>
      simp only [hfind, Option.some.injEq] at hp
      subst hp
      cases q with
      | nil => exact absurd rfl hq
      | cons j q' => simp [nodeAt, ActorTree.children]
    | none =>
      simp only [hfind] at hp
      cases q with
      | nil => simp [nodeAt, ActorTree.actors]
      | cons j q' =>
        have h := childActorsAt_eraseActor_ne d children 0 p hp j q' (by simpa using hq)
        simpa [nodeAt, ActorTree.children] using h
theorem childActorsAt_eraseActor_ne {B : Type} (d : ActorId) :
    ∀ (cs : List (Option (ActorTree B))) (i : Nat) (p : Path),
      (eraseActorChildren d cs i).1 = some p → ∀ (j : Nat) (q : Path), (i + j) :: q ≠ p →
      Option.map ActorTree.actors
          (match (eraseActorChildren d cs i).2.get? j with
            | some (some c) => nodeAt c q
            | _ => none)
        = Option.map ActorTree.actors
          (match cs.get? j with
            | some (some c) => nodeAt c q
            | _ => none)
  | [], _, _, hp, _, _, _ => by simp [eraseActorChildren] at hp
  | none :: rest, i, p, hp, j, q, hq => by
    simp only [eraseActorChildren] at hp ⊢
    cases j with
    | zero => simp
    | succ j' =>
      have h := childActorsAt_eraseActor_ne d rest (i + 1) p hp j' q
        (by rw [show i + 1 + j' = i + (j' + 1) by omega]; exact hq)
      simpa using h
  | some c :: rest, i, p, hp, j, q, hq => by
    unfold eraseActorChildren at hp ⊢
    cases hc : (eraseActor d c).1 with
    | some p0 =>
      simp only [hc, Option.some.injEq] at hp
      subst hp
      cases j with
      | zero =>
        have hq' : q ≠ p0 := fun h => hq (by simp [h])
        have h := nodeAt_eraseActor_ne d c p0 hc q hq'
        simpa using h
      | succ j' => simp
    | none =>
      simp only [hc] at hp
      have hsame : (eraseActor d c).2 = c := by
        rw [eraseActor_absent d c ((eraseActor_none_iff d c).mp hc)]
      cases j with
      | zero => simp [hsame]
      | succ j' =>
        have h := childActorsAt_eraseActor_ne d rest (i + 1) p hp j' q
          (by rw [show i + 1 + j' = i + (j' + 1) by omega]; exact hq)
        simpa using h
end

theorem find_first_entry (d : ActorId) (p : Path) (l : List ActorId)
    (post : List (Path × List ActorId)) (hl : d ∈ l) :
    ∀ (pre : List (Path × List ActorId)), (∀ x ∈ pre, d ∉ x.2) →
      (pre ++ (p, l) :: post).find? (fun x => decide (d ∈ x.2)) = some (p, l)
  | [], _ => by simp [hl]
  | y :: pre, h => by
    have hy : d ∉ y.2 := h y (List.mem_cons_self _ _)
    have ih := find_first_entry d p l post hl pre (fun x hx => h x (List.mem_cons_of_mem _ hx))
    simp only [List.cons_append, List.find?_cons, hy, decide_False]
    exact ih

/-! ## C8: `eraseActor` removes one entry from the first owner in pre-order -/

/-- C8: when the drawable is listed somewhere in the subtree, the pre-order table of the nodes
splits as `pre ++ (p, l) :: post` where no list in `pre` contains the drawable and `l` does, so
that the node at path `p` is the first node in pre-order whose own list contains it;
`eraseActor` returns that node; after the call that node's list is `l` without the first
occurrence of the drawable, every other node's list is the same (in the table, also for the
entries of `post` that list the drawable, and at every path other than `p`), the child
sequences, flags and cached boxes are the same, and the total number of actor entries has
dropped by exactly one. -/
theorem eraseActor_removes_first {B : Type} (d : ActorId) (t : ActorTree B)
    (h : d ∈ preorder t) :
    ∃ pre p l post,
      nodeTable t = pre ++ (p, l) :: post ∧ (∀ x ∈ pre, d ∉ x.2) ∧ d ∈ l
        ∧ firstOwner d t = some p
        ∧ (eraseActor d t).1 = some p
        ∧ (nodeAt t p).map ActorTree.actors = some l
        ∧ (nodeAt (eraseActor d t).2 p).map ActorTree.actors = some (l.erase d)
        ∧ nodeTable (eraseActor d t).2 = pre ++ (p, l.erase d) :: post
        ∧ (∀ q : Path, q ≠ p →
            (nodeAt (eraseActor d t).2 q).map ActorTree.actors
              = (nodeAt t q).map ActorTree.actors)
        ∧ skeleton (eraseActor d t).2 = skeleton t
        ∧ (preorder (eraseActor d t).2).length + 1 = (preorder t).length := by
  obtain ⟨⟨pre, p, l, post, h1, h2, h3, h4, h5⟩, hlen⟩ := eraseActor_present d t h
  refine ⟨pre, p, l, post, h1, h2, h3, ?_, h4, ?_, ?_, h5, nodeAt_eraseActor_ne d t p h4,
    skeleton_eraseActor d t, hlen⟩
  · unfold firstOwner
    rw [h1, find_first_entry d p l post h3 pre h2]
    rfl
  · exact nodeAt_of_mem_nodeTable t (p, l) (by rw [h1]; simp)
  · exact nodeAt_of_mem_nodeTable (eraseActor d t).2 (p, l.erase d) (by rw [h5]; simp)

/-- Witness for C8: drawable `5` is listed in the first child (twice) and in the last child;
`eraseActor` returns the first child and removes one entry there only. -/
theorem eraseActor_removes_first_witness :
    eraseActor 5 exEraseTree
      = (some [0], ActorTree.node [4] [some (.node [6, 5] [] true 0), none,
        some (.node [5] [] false 0)] true 0)
    ∧ ∃ pre p l post,
      nodeTable exEraseTree = pre ++ (p, l) :: post
        ∧ (∀ x ∈ pre, 5 ∉ x.2) ∧ 5 ∈ l
        ∧ firstOwner 5 exEraseTree = some p
        ∧ (eraseActor 5 exEraseTree).1 = some p
        ∧ (nodeAt exEraseTree p).map ActorTree.actors = some l
        ∧ (nodeAt (eraseActor 5 exEraseTree).2 p).map ActorTree.actors = some (l.erase 5)
        ∧ nodeTable (eraseActor 5 exEraseTree).2 = pre ++ (p, l.erase 5) :: post
        ∧ (∀ q : Path, q ≠ p →
            (nodeAt (eraseActor 5 exEraseTree).2 q).map ActorTree.actors
              = (nodeAt exEraseTree q).map ActorTree.actors)
        ∧ skeleton (eraseActor 5 exEraseTree).2 = skeleton exEraseTree
        ∧ (preorder (eraseActor 5 exEraseTree).2).length + 1 = (preorder exEraseTree).length :=
  ⟨by rfl, eraseActor_removes_first 5 exEraseTree (by decide)⟩

/-! ## C9: the not-found result of `eraseActor` -/

/-- C9: `eraseActor` returns the not-found signal (`NULL`, here `none`) if and only if the
drawable is listed in no node of the subtree, and in that case the whole tree (every node's
actors, children, enabled flag and cached box) is unchanged. -/
theorem eraseActor_not_found {B : Type} (d : ActorId) (t : ActorTree B) :
    ((eraseActor d t).1 = none ↔ d ∉ preorder t)
      ∧ ((eraseActor d t).1 = none → (eraseActor d t).2 = t) := by
  have hiff : (eraseActor d t).1 = none ↔ d ∉ preorder t := by
    constructor
    · intro hnone hmem
      obtain ⟨p, hp⟩ := (eraseActor_present d t hmem).1.ret_isSome
      rw [hp] at hnone
      exact absurd hnone (by simp)
    · intro habs
      rw [eraseActor_absent d t habs]
  refine ⟨hiff, fun hnone => ?_⟩
  rw [eraseActor_absent d t (hiff.mp hnone)]

/-- Witness for C9: drawable `9` is not listed in the example tree, which `eraseActor` leaves
as it is, null slot included. -/
theorem eraseActor_not_found_witness :
    (eraseActor 9 exEraseTree).1 = none ∧ (eraseActor 9 exEraseTree).2 = exEraseTree :=
  ⟨by rfl, (eraseActor_not_found 9 exEraseTree).2 (by rfl)⟩

/-! ## C10: array round trip through `Uniform` -/

/-- C10, as stated, fails for large counts: `setUniformMatrix4d(count, value)` with
`count = 2^26` and a source array of `2^26 * 16` doubles computes `count*4*4 = 2^30` and then,
in `initDouble`, `2^30 * 2`, which does not fit in an `int`: the call does not complete
normally and nothing can be read back. -/
theorem setUniform_getUniform_counterexample :
    (1 : Int) ≤ 2 ^ 26
      ∧ ((List.replicate (2 ^ 30) 0).length : Int)
          = 2 ^ 26 * Setter.components .setUniformMatrix4d
      ∧ (∀ v ∈ List.replicate (2 ^ 30) 0, v < 2 ^ (Setter.kind .setUniformMatrix4d).bits)
      ∧ Setter.apply .setUniformMatrix4d (2 ^ 26) (List.replicate (2 ^ 30) 0) Uniform.new
          = .error .signedOverflow := by
  refine ⟨by norm_num, ?_, ?_, ?_⟩
  · rw [List.length_replicate]
    decide
  · intro v hv
    rw [List.eq_of_mem_replicate hv]
    positivity
  · rfl

theorem one_le_prod_of_one_le : ∀ (dims : List Int), (∀ d ∈ dims, 1 ≤ d) → 1 ≤ dims.prod
  | [], _ => by simp
  | d :: rest, h => by
    have hd : 1 ≤ d := h d (List.mem_cons_self _ _)
    have hr : 1 ≤ rest.prod :=
      one_le_prod_of_one_le rest (fun x hx => h x (List.mem_cons_of_mem _ hx))
    rw [List.prod_cons]
    nlinarith

theorem imulChain_ok : ∀ (dims : List Int) (count : Int), 1 ≤ count → (∀ d ∈ dims, 1 ≤ d) →
    count * dims.prod < 2 ^ 31 → imulChain count dims = .ok (count * dims.prod)
  | [], count, _, _, _ => by simp [imulChain]
  | d :: rest, count, h1, hd, hfit => by
    have hd1 : 1 ≤ d := hd d (List.mem_cons_self _ _)
    have hrest : ∀ x ∈ rest, 1 ≤ x := fun x hx => hd x (List.mem_cons_of_mem _ hx)
    have hr : 1 ≤ rest.prod := one_le_prod_of_one_le rest hrest
    rw [List.prod_cons] at hfit
    have hcd : 1 ≤ count * d := by nlinarith
    have hle : count * d ≤ count * (d * rest.prod) := by
      rw [← mul_assoc]
      exact le_mul_of_one_le_right (by omega) hr
    have hstep : imul count d = .ok (count * d) := by
      unfold imul
      rw [if_pos]
      constructor <;> omega
    have ih := imulChain_ok rest (count * d) hcd hrest (by rw [mul_assoc]; exact hfit)
    simp only [imulChain, hstep, ih, List.prod_cons, mul_assoc]

theorem resize_ok (data : List Nat) (n : Int) (h : 0 ≤ n) :
    ∃ data', resize data n = .ok data' ∧ data'.length = n.toNat := by
  refine ⟨data.take n.toNat ++ List.replicate (n.toNat - data.length) 0, ?_, ?_⟩
  · unfold resize
    rw [if_neg (by omega)]
  · simp only [List.length_append, List.length_take, List.length_replicate]
    omega

theorem memcpyFrom_all (source data : List Nat) (u : Uniform) (h : data.length = source.length) :
    memcpyFrom source { u with mData := data } = .ok { u with mData := source } := by
  unfold memcpyFrom
  simp only [h, lt_self_iff_false, if_false, List.take_length]

theorem length_flatMap_toWords (k : Scalar) :
    ∀ (value : List Nat), (value.flatMap (toWords k)).length = value.length * k.words
  | [] => by simp
  | v :: rest => by
    have ih := length_flatMap_toWords k rest
    cases k <;> simp [List.flatMap_cons, toWords, Scalar.words, ih]
    omega

theorem fromWords_toWords (k : Scalar) :
    ∀ (value : List Nat), fromWords k (value.flatMap (toWords k)) = value
  | [] => by cases k <;> simp [fromWords]
  | v :: rest => by
    have ih := fromWords_toWords k rest
    cases k
    · simpa [List.flatMap_cons, toWords, fromWords] using ih
    · simpa [List.flatMap_cons, toWords, fromWords] using ih
    · simpa [List.flatMap_cons, toWords, fromWords] using ih
    · show fromWords .double ([v % 2 ^ 32, v / 2 ^ 32] ++ rest.flatMap (toWords .double))
          = v :: rest
      simp only [List.cons_append, fromWords, Nat.mod_add_div]
      exact congrArg (List.cons v) ih

theorem toWords_lt (k : Scalar) (value : List Nat) (h : ∀ v ∈ value, v < 2 ^ k.bits) :
    ∀ w ∈ value.flatMap (toWords k), w < 2 ^ 32 := by
  intro w hw
  obtain ⟨v, hv, hwv⟩ := List.mem_flatMap.mp hw
  have hb := h v hv
  cases k
  · simp only [toWords, List.mem_singleton] at hwv
    subst hwv
    exact hb
  · simp only [toWords, List.mem_singleton] at hwv
    subst hwv
    exact hb
  · simp only [toWords, List.mem_singleton] at hwv
    subst hwv
    exact hb
  · simp only [toWords, List.mem_cons, List.mem_singleton, List.not_mem_nil, or_false] at hwv
    simp only [Scalar.bits] at hb
    rcases hwv with rfl | rfl
    · exact Nat.mod_lt _ (by positivity)
    · exact Nat.div_lt_of_lt_mul (by norm_num at hb ⊢; exact hb)

theorem setUniformArray_ok (k : Scalar) (dims : List Int) (type : EUniformType) (count : Int)
    (value : List Nat) (u : Uniform) (h1 : 1 ≤ count) (hd : ∀ d ∈ dims, 1 ≤ d)
    (hfit : count * dims.prod * k.words < 2 ^ 31)
    (hlen : (value.length : Int) = count * dims.prod) :
    setUniformArray k dims type count value u
      = .ok { mType := type, mData := value.flatMap (toWords k), mName := u.mName } := by
  have hprod : 1 ≤ dims.prod := one_le_prod_of_one_le dims hd
  have hn1 : 1 ≤ count * dims.prod := by nlinarith
  have hwords : (1 : Int) ≤ k.words := by cases k <;> simp [Scalar.words]
  have hfit1 : count * dims.prod < 2 ^ 31 := by nlinarith
  have hlenW := length_flatMap_toWords k value
  unfold setUniformArray
  rw [imulChain_ok dims count h1 hd hfit1]
  simp only
  by_cases hk : k = .double
  · subst hk
    simp only [Scalar.words, Nat.cast_ofNat] at hfit hlenW
    have hstep : imul (count * dims.prod) 2 = .ok (count * dims.prod * 2) := by
      unfold imul
      rw [if_pos]
      constructor <;> omega
    obtain ⟨data', hres, hlen'⟩ := resize_ok u.mData (count * dims.prod * 2) (by omega)
    simp only [if_true, initDouble, hstep, hres]
    rw [memcpyFrom_all _ data' u (by rw [hlen', hlenW]; omega)]
  · have hw1 : k.words = 1 := by cases k <;> simp_all [Scalar.words]
    rw [hw1] at hlenW
    obtain ⟨data', hres, hlen'⟩ := resize_ok u.mData (count * dims.prod) (by omega)
    simp only [hk, if_false, initData, hres]
    rw [memcpyFrom_all _ data' u (by rw [hlen', hlenW]; omega)]

theorem Setter.one_le_dims (s : Setter) : ∀ d ∈ s.dims, (1 : Int) ≤ d := by
  cases s <;> simp [Setter.dims, Setter.spec]

theorem Setter.type_ne_none (s : Setter) : s.type ≠ .UT_NONE := by
  cases s <;> simp [Setter.type, Setter.spec]

/-- C10, amended: for every type-specific array setter (1/2/3/4-wide `int`, `unsigned`, `float`,
`double`; `float` and `double` matrices 2x2 to 4x4 including non-square), every count `>= 1`
for which the number of storage units `count * components` (times two for the `double`
setters) fits in an `int`, and every source array of `count * components` values, calling the
setter and then the pointer getter of the same scalar type yields exactly the same values, bit
for bit (doubles through the two-units-per-double packing), with both checks of the getter
passing; the storage holds 32-bit units only. -/
theorem setUniform_getUniform_roundtrip (s : Setter) (count : Int) (value : List Nat)
    (u : Uniform) (hcount : 1 ≤ count)
    (hfit : count * s.components * s.kind.words < 2 ^ 31)
    (hlen : (value.length : Int) = count * s.components)
    (hbits : ∀ v ∈ value, v < 2 ^ s.kind.bits) :
    ∃ u', s.apply count value u = .ok u'
      ∧ (∀ w ∈ u'.mData, w < 2 ^ 32)
      ∧ (u'.mData.length : Int) = count * s.components * s.kind.words
      ∧ getUniform s.kind u' = .ok value := by
  have hset := setUniformArray_ok s.kind s.dims s.type count value u hcount s.one_le_dims
    hfit hlen
  have hlenW := length_flatMap_toWords s.kind value
  refine ⟨_, hset, toWords_lt s.kind value hbits, ?_, ?_⟩
  · simp only [hlenW, Nat.cast_mul, hlen]
  · have hprod : 1 ≤ s.dims.prod := one_le_prod_of_one_le s.dims s.one_le_dims
    have hpos : 0 < value.length := by
      have : (1 : Int) ≤ value.length := by
        rw [hlen]
        unfold Setter.components
        nlinarith
      omega
    have hwpos : 0 < s.kind.words := by cases s <;> decide
    have hne : (value.flatMap (toWords s.kind)).length ≠ 0 := by
      rw [hlenW]
      exact Nat.ne_of_gt (Nat.mul_pos hpos hwpos)
    have ht : (s.type != EUniformType.UT_NONE) = true := bne_iff_ne.mpr s.type_ne_none
    have hl : ((value.flatMap (toWords s.kind)).length != 0) = true := bne_iff_ne.mpr hne
    simp only [getUniform, VL_CHECK, ht, hl, if_true, fromWords_toWords]

/-- Witness for the amended C10: two 2x3 `double` matrices written over a uniform that held
three `int` values; the twelve doubles occupy twenty-four storage units and are read back. -/
theorem setUniform_getUniform_roundtrip_witness :
    ∃ u', Setter.apply .setUniformMatrix2x3d 2
        [0, 1, 2 ^ 63, 2 ^ 64 - 1, 2 ^ 32, 2 ^ 32 + 7, 4607182418800017408, 5, 6, 7, 8, 9]
        { mType := .UT_INT_VEC3, mData := [1, 2, 3], mName := "m" } = .ok u'
      ∧ (∀ w ∈ u'.mData, w < 2 ^ 32)
      ∧ (u'.mData.length : Int)
          = 2 * Setter.components .setUniformMatrix2x3d * (Setter.kind .setUniformMatrix2x3d).words
      ∧ getUniform (Setter.kind .setUniformMatrix2x3d) u'
          = .ok [0, 1, 2 ^ 63, 2 ^ 64 - 1, 2 ^ 32, 2 ^ 32 + 7, 4607182418800017408, 5, 6, 7, 8,
              9] :=
  setUniform_getUniform_roundtrip .setUniformMatrix2x3d 2
    [0, 1, 2 ^ 63, 2 ^ 64 - 1, 2 ^ 32, 2 ^ 32 + 7, 4607182418800017408, 5, 6, 7, 8, 9]
    { mType := .UT_INT_VEC3, mData := [1, 2, 3], mName := "m" } (by decide) (by decide)
    (by decide) (by decide)

/-! ## Helper lemmas: single-value setters -/

theorem Setter.apply_one (s : Setter) (value : List Nat) (u : Uniform)
    (hlen : (value.length : Int) = s.components) :
    s.apply 1 value u
      = .ok { mType := s.type, mData := value.flatMap (toWords s.kind), mName := u.mName } := by
  have hfit : (1 : Int) * s.dims.prod * s.kind.words < 2 ^ 31 := by
    cases s <;> decide
  exact setUniformArray_ok s.kind s.dims s.type 1 value u (le_refl 1) s.one_le_dims hfit
    (by rw [hlen]; simp [Setter.components])

/-! ## C11: `getUniformD` after `setUniformD` -/

/-- C11, evaluated on the code: for every double `v` (and whatever the uninitialised local of
the getter holds), `setUniformD(v)` stores the two storage units of `v`, and `getUniformD()`
then fails its check `mData.size() == 1` instead of returning `v`. -/
theorem getUniformD_after_setUniformD (v indeterminate : Nat) (u : Uniform) :
    ∃ u', setUniformD v u = .ok u' ∧ u'.mData = [v % 2 ^ 32, v / 2 ^ 32]
      ∧ getUniformD indeterminate u' = .error .checkFailed := by
  refine ⟨_, Setter.apply_one .setUniform1d [v] u rfl, rfl, ?_⟩
  rfl

theorem vecSetter_kind (k : Scalar) (width : Width) : (vecSetter k width).kind = k := by
  cases k <;> cases width <;> rfl

theorem vecSetter_components (k : Scalar) (width : Width) :
    (vecSetter k width).components = width.n := by
  cases k <;> cases width <;> rfl

theorem getUniformInto_exact (k : Scalar) (type : EUniformType) (name : String)
    (value v0 : List Nat) (htype : type ≠ .UT_NONE) (hpos : 0 < value.length)
    (hlen : v0.length = value.length) :
    getUniformInto k (v0.flatMap (toWords k))
        { mType := type, mData := value.flatMap (toWords k), mName := name }
      = .ok value := by
  have hw : 0 < k.words := by cases k <;> decide
  have hne : (value.flatMap (toWords k)).length ≠ 0 := by
    rw [length_flatMap_toWords]
    exact Nat.ne_of_gt (Nat.mul_pos hpos hw)
  have ht : (type != EUniformType.UT_NONE) = true := bne_iff_ne.mpr htype
  have hl : ((value.flatMap (toWords k)).length != 0) = true := bne_iff_ne.mpr hne
  have hsame : (v0.flatMap (toWords k)).length = (value.flatMap (toWords k)).length := by
    rw [length_flatMap_toWords, length_flatMap_toWords, hlen]
  simp only [getUniformInto, VL_CHECK, ht, hl, if_true, hsame, lt_self_iff_false, if_false]
  rw [List.drop_of_length_le (le_of_eq hsame), List.append_nil, fromWords_toWords]

/-! ## C12: single-value round trip for 32-bit scalars and vectors -/

/-- C12: for every value, `setUniformI`, `setUniformU` and `setUniformF` followed by
`getUniformI`, `getUniformU` and `getUniformF` return the value bit-identically, and so does the
single-value setter of every vector type (`ivec`, `uvec`, `fvec`, `dvec` of width 2, 3 or 4)
followed by the vector getter of that type (`getUniform2I` ... `getUniform4D`); all checks
pass, whatever the uniform held before and whatever the getter's local held. -/
theorem single_value_roundtrip (v indeterminate : Nat) (k : Scalar) (width : Width)
    (value v0 : List Nat) (u : Uniform) (hvalue : value.length = width.n)
    (hv0 : v0.length = width.n) :
    (∃ u', setUniformI v u = .ok u' ∧ getUniformI indeterminate u' = .ok v)
      ∧ (∃ u', setUniformU v u = .ok u' ∧ getUniformU indeterminate u' = .ok v)
      ∧ (∃ u', setUniformF v u = .ok u' ∧ getUniformF indeterminate u' = .ok v)
      ∧ (∃ u', setUniformVec k width value u = .ok u' ∧ getUniformVec k v0 u' = .ok value) := by
  refine ⟨⟨_, Setter.apply_one .setUniform1i [v] u rfl, rfl⟩,
    ⟨_, Setter.apply_one .setUniform1ui [v] u rfl, rfl⟩,
    ⟨_, Setter.apply_one .setUniform1f [v] u rfl, rfl⟩, ?_⟩
  have hset := Setter.apply_one (vecSetter k width) value u
    (by rw [vecSetter_components, hvalue])
  rw [vecSetter_kind] at hset
  refine ⟨_, hset, ?_⟩
  have hpos : 0 < value.length := by
    rw [hvalue]
    cases width <;> decide
  exact getUniformInto_exact k _ _ value v0 (Setter.type_ne_none _) hpos (by rw [hv0, hvalue])

/-- Witness for C12: the `dvec3` round trip, over a uniform that held a float. -/
theorem single_value_roundtrip_witness :
    (∃ u', setUniformI 4294967295 { mType := .UT_FLOAT, mData := [9], mName := "x" } = .ok u'
        ∧ getUniformI 77 u' = .ok 4294967295)
      ∧ (∃ u', setUniformU 4294967295 { mType := .UT_FLOAT, mData := [9], mName := "x" } = .ok u'
        ∧ getUniformU 77 u' = .ok 4294967295)
      ∧ (∃ u', setUniformF 4294967295 { mType := .UT_FLOAT, mData := [9], mName := "x" } = .ok u'
        ∧ getUniformF 77 u' = .ok 4294967295)
      ∧ (∃ u', setUniformVec .double .w3 [2 ^ 63, 1, 2 ^ 64 - 1]
            { mType := .UT_FLOAT, mData := [9], mName := "x" } = .ok u'
        ∧ getUniformVec .double [0, 0, 0] u' = .ok [2 ^ 63, 1, 2 ^ 64 - 1]) :=
  single_value_roundtrip 4294967295 77 .double .w3 [2 ^ 63, 1, 2 ^ 64 - 1] [0, 0, 0]
    { mType := .UT_FLOAT, mData := [9], mName := "x" } (by decide) (by decide)

/-! ## Helper lemmas: `count()` after a setter -/

theorem imulChain_zero : ∀ (dims : List Int), imulChain 0 dims = .ok 0
  | [] => rfl
  | d :: rest => by
    have hstep : imul 0 d = .ok 0 := by simp [imul]
    simp only [imulChain, hstep]
    exact imulChain_zero rest

theorem setUniformArray_zero (k : Scalar) (dims : List Int) (type : EUniformType)
    (value : List Nat) (u : Uniform) :
    setUniformArray k dims type 0 value u
      = .ok { mType := type, mData := [], mName := u.mName } := by
  unfold setUniformArray
  rw [imulChain_zero]
  by_cases hk : k = .double
  · subst hk
    simp [initDouble, imul, resize, memcpyFrom]
  · simp [hk, initData, resize, memcpyFrom]

theorem setUniformArray_ok_nonneg (k : Scalar) (dims : List Int) (type : EUniformType)
    (n : Int) (value : List Nat) (u : Uniform) (h0 : 0 ≤ n) (hd : ∀ d ∈ dims, 1 ≤ d)
    (hfit : n * dims.prod * k.words < 2 ^ 31) (hlen : (value.length : Int) = n * dims.prod) :
    setUniformArray k dims type n value u
      = .ok { mType := type, mData := value.flatMap (toWords k), mName := u.mName } := by
  rcases eq_or_lt_of_le h0 with h | h
  · subst h
    have hnil : value = [] := by
      apply List.eq_nil_of_length_eq_zero
      have : (value.length : Int) = 0 := by rw [hlen]; simp
      omega
    subst hnil
    exact setUniformArray_zero k dims type [] u
  · exact setUniformArray_ok k dims type n value u (by omega) hd hfit hlen

theorem count_after_set (s : Setter) (c : Int) (D : List Nat) (name : String) (hc : 0 ≤ c)
    (hlen : (D.length : Int) = c * s.components * s.kind.words) :
    count { mType := s.type, mData := D, mName := name } = .ok c := by
  cases D with
  | nil =>
    have h0 : c = 0 := by
      have hcomp : 1 ≤ s.components := one_le_prod_of_one_le s.dims s.one_le_dims
      have hw : (1 : Int) ≤ s.kind.words := by cases s <;> decide
      simp only [List.length_nil, Nat.cast_zero] at hlen
      by_contra hne
      have hpos : 0 < c := lt_of_le_of_ne hc (Ne.symm hne)
      have : 0 < c * s.components * s.kind.words := by positivity
      omega
    subst h0
    simp [count]
  | cons x rest =>
    cases s <;>
      simp only [Setter.components, Setter.dims, Setter.spec, Setter.kind, Scalar.words,
        Setter.type, List.prod_cons, List.prod_nil, List.length_cons, count, List.isEmpty_cons,
        Bool.false_eq_true, if_false, singleCount, doubleCount, doubleCountDiv, VL_CHECK,
        Nat.and_one_is_mod, Nat.shiftRight_one] at hlen ⊢ <;>
      first
        | (congr 1; omega)
        | (have hmod : (rest.length + 1) % 2 = 0 := by omega
           simp only [hmod, beq_self_eq_true, if_true]
           congr 1
           omega)

/-! ## C13: `count()` right after a setter -/

/-- C13, as stated, fails for large counts: `setUniformMatrix4f(count, value)` with
`count = 2^27` and a source array of `2^27 * 16` floats evaluates `count*4*4 = 2^31` in `int`,
which overflows; the setter does not complete normally and there is no state for `count()` to
report `2^27` on. -/
theorem count_after_setter_counterexample :
    (0 : Int) ≤ 2 ^ 27
      ∧ ((List.replicate (2 ^ 31) 0).length : Int)
          = 2 ^ 27 * Setter.components .setUniformMatrix4f
      ∧ Setter.apply .setUniformMatrix4f (2 ^ 27) (List.replicate (2 ^ 31) 0) Uniform.new
          = .error .signedOverflow := by
  refine ⟨by norm_num, ?_, rfl⟩
  rw [List.length_replicate]
  decide

/-- C13, amended: for every type-specific setter and every count `n >= 0` for which the number
of storage units `n * components` (times two for the `double` setters) fits in an `int`,
`count()` called right after the setter returns exactly `n`, for the `double` setters as well
as the `int`, `unsigned` and `float` ones. -/
theorem count_after_setter (s : Setter) (n : Int) (value : List Nat) (u : Uniform)
    (h0 : 0 ≤ n) (hfit : n * s.components * s.kind.words < 2 ^ 31)
    (hlen : (value.length : Int) = n * s.components) :
    ∃ u', s.apply n value u = .ok u' ∧ count u' = .ok n := by
  refine ⟨_, setUniformArray_ok_nonneg s.kind s.dims s.type n value u h0 s.one_le_dims hfit hlen,
    ?_⟩
  apply count_after_set s n _ _ h0
  rw [length_flatMap_toWords, Nat.cast_mul, hlen]

/-- Witness for the amended C13: `count()` is `5` after `setUniform3f(5, data)`, `2` after
`setUniformMatrix4f(2, data)`, `3` after `setUniformMatrix2x3d(3, data)` and `0` after
`setUniform4d(0, data)`. -/
theorem count_after_setter_witness :
    (∃ u', Setter.apply .setUniform3f 5 (List.replicate 15 7) Uniform.new = .ok u'
        ∧ count u' = .ok 5)
      ∧ (∃ u', Setter.apply .setUniformMatrix4f 2 (List.replicate 32 7) Uniform.new = .ok u'
        ∧ count u' = .ok 2)
      ∧ (∃ u', Setter.apply .setUniformMatrix2x3d 3 (List.replicate 18 7) Uniform.new = .ok u'
        ∧ count u' = .ok 3)
      ∧ (∃ u', Setter.apply .setUniform4d 0 [] (Uniform.named "m") = .ok u'
        ∧ count u' = .ok 0) :=
  ⟨count_after_setter .setUniform3f 5 (List.replicate 15 7) Uniform.new (by decide) (by decide)
      (by decide),
    count_after_setter .setUniformMatrix4f 2 (List.replicate 32 7) Uniform.new (by decide)
      (by decide) (by decide),
    count_after_setter .setUniformMatrix2x3d 3 (List.replicate 18 7) Uniform.new (by decide)
      (by decide) (by decide),
    count_after_setter .setUniform4d 0 [] (Uniform.named "m") (by decide) (by decide)
      (by decide)⟩

/-! ## C14: what the getters check about the stored type -/

/-- C14, as stated, fails: after `setUniform1i(1, &x)` with `x = 7` the stored type is `UT_INT`,
and `getUniformF()`, `getUniform(float*)` and `getUniform2I()` all pass their checks and return
a value (the stored bits; for `getUniform2I` the second component keeps the value of the
default-constructed vector). -/
theorem getter_type_check_counterexample :
    ∃ u', Setter.apply .setUniform1i 1 [7] Uniform.new = .ok u'
      ∧ u'.mType = .UT_INT
      ∧ getUniformF 0 u' = .ok 7
      ∧ getUniform .float u' = .ok [7]
      ∧ getUniformVec .int [0, 0] u' = .ok [7, 0] :=
  ⟨_, Setter.apply_one .setUniform1i [7] Uniform.new rfl, rfl, rfl, rfl, rfl⟩

/-- C14, amended: a getter fails an assertion when the stored type is `UT_NONE` (no setter has
been called); the getters do not compare the stored type with their own, and for every Uniform
last set by a setter (count `>= 1`, size within `int`) the pointer getter of every scalar type,
the same or a different one, passes its checks and returns the stored units read as that
type. -/
theorem getter_type_check (s : Setter) (n : Int) (value : List Nat) (u : Uniform) (k : Scalar)
    (indeterminate : Nat) (v0 : List Nat) (un : Uniform) (hn : 1 ≤ n)
    (hfit : n * s.components * s.kind.words < 2 ^ 31)
    (hlen : (value.length : Int) = n * s.components) (hnone : un.mType = .UT_NONE) :
    (getUniform k un = .error .checkFailed
        ∧ getUniformScalar k indeterminate un = .error .checkFailed
        ∧ getUniformVec k v0 un = .error .checkFailed)
      ∧ ∃ u', s.apply n value u = .ok u'
          ∧ getUniform k u' = .ok (fromWords k (value.flatMap (toWords s.kind))) := by
  refine ⟨⟨?_, ?_, ?_⟩, _, setUniformArray_ok s.kind s.dims s.type n value u hn s.one_le_dims
    hfit hlen, ?_⟩
  · simp [getUniform, VL_CHECK, hnone]
  · simp [getUniformScalar, VL_CHECK, hnone]
  · simp [getUniformVec, getUniformInto, VL_CHECK, hnone]
  · have hprod : 1 ≤ s.dims.prod := one_le_prod_of_one_le s.dims s.one_le_dims
    have hpos : 0 < value.length := by
      have : (1 : Int) ≤ value.length := by
        rw [hlen]
        unfold Setter.components
        nlinarith
      omega
    have hwpos : 0 < s.kind.words := by cases s <;> decide
    have hne : (value.flatMap (toWords s.kind)).length ≠ 0 := by
      rw [length_flatMap_toWords]
      exact Nat.ne_of_gt (Nat.mul_pos hpos hwpos)
    have ht : (s.type != EUniformType.UT_NONE) = true := bne_iff_ne.mpr s.type_ne_none
    have hl : ((value.flatMap (toWords s.kind)).length != 0) = true := bne_iff_ne.mpr hne
    simp only [getUniform, VL_CHECK, ht, hl, if_true]

/-- Witness for the amended C14: every getter fails on a fresh Uniform, and `getUniform(double*)`
after `setUniform2f(1, data)` returns the two floats read as one double. -/
theorem getter_type_check_witness :
    (getUniform .double Uniform.new = .error .checkFailed
        ∧ getUniformScalar .double 0 Uniform.new = .error .checkFailed
        ∧ getUniformVec .double [0, 0] Uniform.new = .error .checkFailed)
      ∧ ∃ u', Setter.apply .setUniform2f 1 [3, 5] Uniform.new = .ok u'
          ∧ getUniform .double u' = .ok [3 + 2 ^ 32 * 5] :=
  getter_type_check .setUniform2f 1 [3, 5] Uniform.new .double 0 [0, 0] Uniform.new (by decide)
    (by decide) (by decide) rfl

/-! ## Helper lemmas: closed form of the array setters -/

theorem resize_memcpy (type : EUniformType) (source : List Nat) (n : Int) (u : Uniform) :
    (match resize u.mData n with
      | .ok data =>
        (match memcpyFrom source { u with mData := data } with
          | .error e => .error e
          | .ok u2 => .ok { u2 with mType := type })
      | .error e => (.error e : Except Fault Uniform))
    = storeUnits type source n u.mName := by
  unfold resize storeUnits
  by_cases hn : n < 0
  · simp [hn]
  · have hlen : (List.take n.toNat u.mData
        ++ List.replicate (n.toNat - u.mData.length) 0).length = n.toNat := by
      simp only [List.length_append, List.length_take, List.length_replicate]
      omega
    simp only [hn, if_false, memcpyFrom, hlen]
    by_cases hs : source.length < n.toNat
    · simp [hs]
    · simp [hs]

theorem setUniformArray_eq (k : Scalar) (dims : List Int) (type : EUniformType) (n : Int)
    (value : List Nat) (u : Uniform) :
    setUniformArray k dims type n value u
      = match imulChain n dims with
        | .error e => .error e
        | .ok m =>
          if k = .double then
            match imul m 2 with
            | .error e => .error e
            | .ok m2 => storeUnits type (value.flatMap (toWords k)) m2 u.mName
          else storeUnits type (value.flatMap (toWords k)) m u.mName := by
  unfold setUniformArray
  cases imulChain n dims with
  | error e => rfl
  | ok m =>
    simp only
    by_cases hk : k = .double
    · simp only [hk, if_true, initDouble]
      cases imul m 2 with
      | error e => rfl
      | ok m2 =>
        simp only
        rw [← resize_memcpy]
        cases resize u.mData m2 <;> rfl
    · simp only [hk, if_false, initData]
      rw [← resize_memcpy]
      cases resize u.mData m <;> rfl

theorem storeUnits_indep (type : EUniformType) (source : List Nat) (n : Int)
    (name1 name2 : String) :
    (storeUnits type source n name1).map (fun u => (u.mType, u.mData))
      = (storeUnits type source n name2).map (fun u => (u.mType, u.mData)) := by
  unfold storeUnits
  by_cases hn : n < 0
  · simp [hn, Except.map]
  · by_cases hs : source.length < n.toNat
    · simp [hn, hs, Except.map]
    · simp [hn, hs, Except.map]

theorem setUniformArray_indep (k : Scalar) (dims : List Int) (type : EUniformType) (n : Int)
    (value : List Nat) (u1 u2 : Uniform) :
    (setUniformArray k dims type n value u1).map (fun u => (u.mType, u.mData))
      = (setUniformArray k dims type n value u2).map (fun u => (u.mType, u.mData)) := by
  rw [setUniformArray_eq, setUniformArray_eq]
  cases imulChain n dims with
  | error e => rfl
  | ok m =>
    simp only
    by_cases hk : k = .double
    · simp only [hk, if_true]
      cases imul m 2 with
      | error e => rfl
      | ok m2 => exact storeUnits_indep _ _ _ _ _
    · simp only [hk, if_false]
      exact storeUnits_indep _ _ _ _ _

/-! ## C15: single-value getters on a Uniform that does not hold one element -/

/-- C15, evaluated on the code: after `setUniform2i(2, data)` the Uniform holds two `ivec2`
(`count()` is `2`), and `getUniform2I()` fails no assertion: both checks of `getUniform(int*)`
pass and the `memcpy` writes four storage units into the two-unit vector, an overrun. The
scalar getter does make the check: after `setUniform1i(2, data)`, `getUniformI()` fails its
assertion `mData.size() == 1`. -/
theorem getUniformVec_array_overrun :
    (∃ u', Setter.apply .setUniform2i 2 [1, 2, 3, 4] Uniform.new = .ok u'
        ∧ count u' = .ok 2
        ∧ getUniformVec .int [0, 0] u' = .error .destinationOverrun)
      ∧ (∃ u', Setter.apply .setUniform1i 2 [1, 2] Uniform.new = .ok u'
        ∧ count u' = .ok 2
        ∧ getUniformI 0 u' = .error .checkFailed) :=
  ⟨⟨{ mType := .UT_INT_VEC2, mData := [1, 2, 3, 4], mName := "" }, rfl, rfl, rfl⟩,
    ⟨{ mType := .UT_INT, mData := [1, 2], mName := "" }, rfl, rfl, rfl⟩⟩

/-! ## Helper lemmas: what a successful setter call leaves -/

theorem imulChain_exact : ∀ (dims : List Int) (n m : Int), imulChain n dims = .ok m →
    m = n * dims.prod
  | [], n, m, h => by
    simp only [imulChain, Except.ok.injEq] at h
    simp [h]
  | d :: rest, n, m, h => by
    unfold imulChain at h
    cases hstep : imul n d with
    | error e => simp [hstep] at h
    | ok x =>
      simp only [hstep] at h
      have hx : x = n * d := by
        unfold imul at hstep
        split at hstep
        · simp only [Except.ok.injEq] at hstep
          exact hstep.symm
        · simp at hstep
      rw [imulChain_exact rest x m h, hx, List.prod_cons, mul_assoc]

theorem storeUnits_ok_inv (type : EUniformType) (source : List Nat) (m : Int) (name : String)
    (u' : Uniform) (h : storeUnits type source m name = .ok u') :
    0 ≤ m ∧ u'.mType = type ∧ (u'.mData.length : Int) = m ∧ u'.mName = name := by
  unfold storeUnits at h
  by_cases hm : m < 0
  · simp [hm] at h
  · by_cases hs : source.length < m.toNat
    · simp [hm, hs] at h
    · simp only [hm, hs, if_false, Except.ok.injEq] at h
      subst h
      refine ⟨by omega, rfl, ?_, rfl⟩
      simp only [List.length_take]
      omega

theorem Setter.apply_ok_inv (s : Setter) (n : Int) (value : List Nat) (u u' : Uniform)
    (h : s.apply n value u = .ok u') :
    0 ≤ n ∧ u'.mType = s.type
      ∧ (u'.mData.length : Int) = n * s.components * s.kind.words
      ∧ u'.mName = u.mName := by
  have hprod : 1 ≤ s.dims.prod := one_le_prod_of_one_le s.dims s.one_le_dims
  unfold Setter.apply at h
  rw [setUniformArray_eq] at h
  cases hchain : imulChain n s.dims with
  | error e => simp [hchain] at h
  | ok m =>
    have hm := imulChain_exact s.dims n m hchain
    simp only [hchain] at h
    by_cases hk : s.kind = .double
    · simp only [hk, if_true] at h
      cases hstep : imul m 2 with
      | error e => simp [hstep] at h
      | ok m2 =>
        simp only [hstep] at h
        have hm2 : m2 = m * 2 := by
          unfold imul at hstep
          split at hstep
          · simp only [Except.ok.injEq] at hstep
            exact hstep.symm
          · simp at hstep
        obtain ⟨h0, ht, hl, hname⟩ := storeUnits_ok_inv _ _ _ _ _ h
        have hn0 : 0 ≤ n := by
          by_contra hneg
          have : n * s.dims.prod < 0 := by nlinarith
          omega
        refine ⟨hn0, ht, ?_, hname⟩
        rw [hl, hm2, hm, hk]
        simp [Setter.components, Scalar.words]
    · simp only [hk, if_false] at h
      obtain ⟨h0, ht, hl, hname⟩ := storeUnits_ok_inv _ _ _ _ _ h
      have hn0 : 0 ≤ n := by
        by_contra hneg
        have : n * s.dims.prod < 0 := by nlinarith
        omega
      have hw1 : s.kind.words = 1 := by
        revert hk
        cases s.kind <;> simp [Scalar.words]
      refine ⟨hn0, ht, ?_, hname⟩
      rw [hl, hm, hw1]
      simp [Setter.components]

/-- C16, as stated, fails for large counts: `setUniform4d(count, value)` with `count = 2^28` and
a source array of `2^28 * 4` doubles evaluates `count*4 = 2^30` and then, in `initDouble`,
`2^30 * 2` in `int`, which overflows; the call does not complete normally, so the storage does
not come to hold `count` elements. -/
theorem setter_total_replacement_counterexample :
    (1 : Int) ≤ 2 ^ 28
      ∧ ((List.replicate (2 ^ 30) 0).length : Int) = 2 ^ 28 * Setter.components .setUniform4d
      ∧ Setter.apply .setUniform4d (2 ^ 28) (List.replicate (2 ^ 30) 0) Uniform.new
          = .error .signedOverflow := by
  refine ⟨by norm_num, ?_, rfl⟩
  rw [List.length_replicate]
  decide

/-- C16, amended: for every setter, every count `n` (zero, negative and overflowing ones
included) and every source array, the outcome of the call, and in it the resulting type tag and
payload, are the same whatever type and payload the Uniform held before; and when `n >= 1` and
the number of storage units `n * components` (times two for the `double` setters) fits in an
`int`, the call succeeds, the type tag is the setter's, the storage holds exactly the units of
the `n` source elements and nothing else, `count()` is `n`, and the name is unchanged; the name
is unchanged by every call that completes. -/
theorem setter_total_replacement (s : Setter) (n : Int) (value : List Nat) (u1 u2 : Uniform) :
    (s.apply n value u1).map (fun u => (u.mType, u.mData))
        = (s.apply n value u2).map (fun u => (u.mType, u.mData))
      ∧ (1 ≤ n → n * s.components * s.kind.words < 2 ^ 31 →
          (value.length : Int) = n * s.components →
          ∃ u', s.apply n value u1 = .ok u'
            ∧ u'.mType = s.type
            ∧ u'.mData = value.flatMap (toWords s.kind)
            ∧ (u'.mData.length : Int) = n * s.components * s.kind.words
            ∧ count u' = .ok n
            ∧ u'.mName = u1.mName)
      ∧ (∀ u', s.apply n value u1 = .ok u' → u'.mName = u1.mName) := by
  refine ⟨setUniformArray_indep s.kind s.dims s.type n value u1 u2, fun hn hfit hlen => ?_,
    fun u' h => (s.apply_ok_inv n value u1 u' h).2.2.2⟩
  have hlenW : ((value.flatMap (toWords s.kind)).length : Int)
      = n * s.components * s.kind.words := by
    rw [length_flatMap_toWords, Nat.cast_mul, hlen]
  exact ⟨_, setUniformArray_ok s.kind s.dims s.type n value u1 hn s.one_le_dims hfit hlen, rfl,
    rfl, hlenW, count_after_set s n _ _ (by omega) hlenW, rfl⟩

/-- Witness for the amended C16: `setUniform2d(1, data)` over a Uniform holding five `int` and
over a fresh one give the same type tag and the same four storage units; and
`setUniform2i(0, data)` over the same two states has the same outcome. -/
theorem setter_total_replacement_witness :
    (Setter.apply .setUniform2d 1 [2 ^ 63, 3]
          { mType := .UT_INT, mData := [1, 2, 3, 4, 5], mName := "a" }).map
          (fun u => (u.mType, u.mData))
        = (Setter.apply .setUniform2d 1 [2 ^ 63, 3] Uniform.new).map
          (fun u => (u.mType, u.mData))
      ∧ (∃ u', Setter.apply .setUniform2d 1 [2 ^ 63, 3]
            { mType := .UT_INT, mData := [1, 2, 3, 4, 5], mName := "a" } = .ok u'
          ∧ u'.mType = .UT_DOUBLE_VEC2
          ∧ u'.mData = [0, 2 ^ 31, 3, 0]
          ∧ (u'.mData.length : Int) = 1 * 2 * 2
          ∧ count u' = .ok 1
          ∧ u'.mName = "a")
      ∧ (Setter.apply .setUniform2i 0 []
          { mType := .UT_INT, mData := [1, 2, 3, 4, 5], mName := "a" }).map
          (fun u => (u.mType, u.mData))
        = (Setter.apply .setUniform2i 0 [] Uniform.new).map (fun u => (u.mType, u.mData)) :=
  ⟨(setter_total_replacement .setUniform2d 1 [2 ^ 63, 3]
      { mType := .UT_INT, mData := [1, 2, 3, 4, 5], mName := "a" } Uniform.new).1,
    (setter_total_replacement .setUniform2d 1 [2 ^ 63, 3]
      { mType := .UT_INT, mData := [1, 2, 3, 4, 5], mName := "a" } Uniform.new).2.1 (by decide)
      (by decide) (by decide),
    (setter_total_replacement .setUniform2i 0 []
      { mType := .UT_INT, mData := [1, 2, 3, 4, 5], mName := "a" } Uniform.new).1⟩

/-! ## C17: the storage length is a multiple of the element size -/

theorem setInsert_mem (x r : TransformId) :
    ∀ (l : List TransformId), r ∈ setInsert x l ↔ r = x ∨ r ∈ l
  | [] => by simp [setInsert]
  | y :: rest => by
    unfold setInsert
    by_cases h1 : x < y
    · simp [h1]
    · by_cases h2 : x = y
      · subst h2
        simp
      · have ih := setInsert_mem x r rest
        simp only [h1, h2, if_false, List.mem_cons, ih]
        tauto

theorem setInsert_pairwise (x : TransformId) :
    ∀ (l : List TransformId), l.Pairwise (· < ·) → (setInsert x l).Pairwise (· < ·)
  | [], _ => by simp [setInsert]
  | y :: rest, h => by
    unfold setInsert
    have hy := List.pairwise_cons.mp h
    by_cases h1 : x < y
    · simp only [h1, if_true]
      refine List.pairwise_cons.mpr ⟨?_, h⟩
      intro z hz
      rcases List.mem_cons.mp hz with rfl | hz
      · exact h1
      · exact lt_trans h1 (hy.1 z hz)
    · by_cases h2 : x = y
      · subst h2
        simp only [lt_irrefl, if_false, if_true]
        exact h
      · simp only [h1, h2, if_false]
        refine List.pairwise_cons.mpr ⟨?_, setInsert_pairwise x rest hy.2⟩
        intro z hz
        rcases (setInsert_mem x z rest).mp hz with hzx | hz
        · rw [hzx]
          exact Nat.lt_of_le_of_ne (Nat.le_of_not_lt h1) (fun h => h2 h.symm)
        · exact hy.1 z hz

theorem findRoot_mono (parent : TransformId → Option TransformId) :
    ∀ (n : Nat) (t r : TransformId), findRoot parent n t = some r →
      ∀ m, n ≤ m → findRoot parent m t = some r
  | 0, _, _, h, _, _ => by simp [findRoot] at h
  | n + 1, t, r, h, m, hm => by
    obtain ⟨m', rfl⟩ : ∃ m', m = m' + 1 := ⟨m - 1, by omega⟩
    unfold findRoot at h ⊢
    cases hp : parent t with
    | none => simpa [hp] using h
    | some p =>
      simp only [hp] at h ⊢
      exact findRoot_mono parent n p r h m' (by omega)

theorem findRoot_sound (parent : TransformId → Option TransformId) :
    ∀ (n : Nat) (t r : TransformId), findRoot parent n t = some r → IsRootOf parent t r
  | 0, _, _, h => by simp [findRoot] at h
  | n + 1, t, r, h => by
    unfold findRoot at h
    cases hp : parent t with
    | none =>
      simp only [hp, Option.some.injEq] at h
      subst h
      exact ⟨Relation.ReflTransGen.refl, hp⟩
    | some p =>
      simp only [hp] at h
      obtain ⟨h1, h2⟩ := findRoot_sound parent n p r h
      exact ⟨Relation.ReflTransGen.head hp h1, h2⟩

theorem findRoot_complete (parent : TransformId → Option TransformId) (t r : TransformId)
    (h : IsRootOf parent t r) : ∃ n, findRoot parent n t = some r := by
  obtain ⟨hchain, hroot⟩ := h
  induction hchain using Relation.ReflTransGen.head_induction_on with
  | refl => exact ⟨1, by simp [findRoot, hroot]⟩
  | head hstep _ ih =>
    obtain ⟨n, hn⟩ := ih
    exact ⟨n + 1, by simp [findRoot, hstep, hn]⟩

theorem enough_fuel {A : Type} (tapi : TransformApi A) (w : World A) :
    ∀ (actors : List ActorId),
      (∀ a ∈ actors, ∀ t, tapi.transform (w.actor a) = some t → ∃ r, IsRootOf tapi.parent t r) →
      ∃ n, ∀ fuel, n ≤ fuel → ∀ a ∈ actors, ∀ t, tapi.transform (w.actor a) = some t →
        ∃ r, findRoot tapi.parent fuel t = some r
  | [], _ => ⟨0, fun _ _ a ha => by simp at ha⟩
  | a :: rest, h => by
    obtain ⟨n1, h1⟩ := enough_fuel tapi w rest
      (fun b hb => h b (List.mem_cons_of_mem _ hb))
    cases ht : tapi.transform (w.actor a) with
    | none =>
      refine ⟨n1, fun fuel hf b hb t hbt => ?_⟩
      rcases List.mem_cons.mp hb with rfl | hb
      · rw [ht] at hbt
        simp at hbt
      · exact h1 fuel hf b hb t hbt
    | some t0 =>
      obtain ⟨r0, hr0⟩ := h a (List.mem_cons_self _ _) t0 ht
      obtain ⟨n0, hn0⟩ := findRoot_complete tapi.parent t0 r0 hr0
      refine ⟨max n0 n1, fun fuel hf b hb t hbt => ?_⟩
      rcases List.mem_cons.mp hb with rfl | hb
      · rw [ht] at hbt
        simp only [Option.some.injEq] at hbt
        subst hbt
        exact ⟨r0, findRoot_mono tapi.parent n0 _ r0 hn0 fuel (le_trans (le_max_left _ _) hf)⟩
      · exact h1 fuel (le_trans (le_max_right _ _) hf) b hb t hbt

theorem collectRoots_ok {A : Type} (tapi : TransformApi A) (fuel : Nat) (w : World A) :
    ∀ (actors : List ActorId) (acc : List TransformId),
      (∀ a ∈ actors, ∀ t, tapi.transform (w.actor a) = some t →
        ∃ r, findRoot tapi.parent fuel t = some r) →
      acc.Pairwise (· < ·) →
      ∃ roots, collectRoots tapi fuel w actors acc = some roots ∧ roots.Pairwise (· < ·)
        ∧ ∀ r, r ∈ roots ↔ r ∈ acc ∨ ∃ a ∈ actors, ∃ t,
            tapi.transform (w.actor a) = some t ∧ findRoot tapi.parent fuel t = some r
  | [], acc, _, hacc => ⟨acc, rfl, hacc, fun r => by simp⟩
  | a :: rest, acc, h, hacc => by
    have hrest : ∀ b ∈ rest, ∀ t, tapi.transform (w.actor b) = some t →
        ∃ r, findRoot tapi.parent fuel t = some r :=
      fun b hb => h b (List.mem_cons_of_mem _ hb)
    unfold collectRoots
    cases ht : tapi.transform (w.actor a) with
    | none =>
      obtain ⟨roots, h1, h2, h3⟩ := collectRoots_ok tapi fuel w rest acc hrest hacc
      refine ⟨roots, h1, h2, fun r => ?_⟩
      rw [h3 r]
      constructor
      · rintro (hr | ⟨b, hb, t, hbt, hf⟩)
        · exact Or.inl hr
        · exact Or.inr ⟨b, List.mem_cons_of_mem _ hb, t, hbt, hf⟩
      · rintro (hr | ⟨b, hb, t, hbt, hf⟩)
        · exact Or.inl hr
        · rcases List.mem_cons.mp hb with rfl | hb
          · rw [ht] at hbt
            simp at hbt
          · exact Or.inr ⟨b, hb, t, hbt, hf⟩
    | some t0 =>
      obtain ⟨r0, hr0⟩ := h a (List.mem_cons_self _ _) t0 ht
      obtain ⟨roots, h1, h2, h3⟩ := collectRoots_ok tapi fuel w rest (setInsert r0 acc) hrest
        (setInsert_pairwise r0 acc hacc)
      simp only [hr0]
      refine ⟨roots, h1, h2, fun r => ?_⟩
      rw [h3 r, setInsert_mem]
      constructor
      · rintro ((rfl | hr) | ⟨b, hb, t, hbt, hf⟩)
        · exact Or.inr ⟨a, List.mem_cons_self _ _, t0, ht, hr0⟩
        · exact Or.inl hr
        · exact Or.inr ⟨b, List.mem_cons_of_mem _ hb, t, hbt, hf⟩
      · rintro (hr | ⟨b, hb, t, hbt, hf⟩)
        · exact Or.inl (Or.inr hr)
        · rcases List.mem_cons.mp hb with rfl | hb
          · rw [ht] at hbt
            simp only [Option.some.injEq] at hbt
            subst hbt
            rw [hr0] at hf
            simp only [Option.some.injEq] at hf
            exact Or.inl (Or.inl hf.symm)
          · exact Or.inr ⟨b, hb, t, hbt, hf⟩

theorem foldl_computeWorldMatrixRecursive_log {A : Type} :
    ∀ (roots : List TransformId) (w : World A),
      (roots.foldl World.computeWorldMatrixRecursive w).log
        = w.log ++ roots.map Call.computeWorldMatrixRecursive
  | [], w => by simp
  | r :: rest, w => by
    simp only [List.foldl_cons, List.map_cons]
    rw [foldl_computeWorldMatrixRecursive_log rest]
    simp [World.computeWorldMatrixRecursive]

theorem finite_of_fuel {A : Type} (tapi : TransformApi A) (w : World A)
    (actors : List ActorId) (fuel : Nat)
    (h : ∀ a ∈ actors, ∀ t, tapi.transform (w.actor a) = some t →
      (findRoot tapi.parent fuel t).isSome = true) :
    ∀ a ∈ actors, ∀ t, tapi.transform (w.actor a) = some t → ∃ r, IsRootOf tapi.parent t r := by
  intro a ha t ht
  obtain ⟨r, hr⟩ := Option.isSome_iff_exists.mp (h a ha t ht)
  exact ⟨r, findRoot_sound tapi.parent fuel t r hr⟩

theorem prepareActors_spec {A B S : Type} (api : ActorApi A B S) (tapi : TransformApi A)
    (actors : List ActorId) (w : World A)
    (hfin : ∀ a ∈ actors, ∀ t, tapi.transform (w.actor a) = some t →
      ∃ r, IsRootOf tapi.parent t r) :
    ∃ n, ∀ fuel, n ≤ fuel → ∃ roots : List TransformId, roots.Pairwise (· < ·)
      ∧ (∀ r, r ∈ roots ↔ NeededRoot tapi w actors r)
      ∧ prepareActors api tapi fuel actors w
          = some (actors.foldl (World.computeBounds api)
              (roots.foldl World.computeWorldMatrixRecursive w)) := by
  obtain ⟨n, hn⟩ := enough_fuel tapi w actors hfin
  refine ⟨n, fun fuel hfuel => ?_⟩
  obtain ⟨roots, h1, h2, h3⟩ := collectRoots_ok tapi fuel w actors [] (hn fuel hfuel)
    List.Pairwise.nil
  refine ⟨roots, h2, fun r => ?_, by simp [prepareActors, h1]⟩
  rw [h3 r]
  simp only [List.not_mem_nil, false_or]
  constructor
  · rintro ⟨a, ha, t, hat, hf⟩
    exact ⟨a, ha, t, hat, findRoot_sound tapi.parent fuel t r hf⟩
  · rintro ⟨a, ha, t, hat, hroot⟩
    obtain ⟨r', hr'⟩ := hn fuel hfuel a ha t hat
    obtain ⟨m, hm⟩ := findRoot_complete tapi.parent t r hroot
    have e1 := findRoot_mono tapi.parent m t r hm (max m fuel) (le_max_left _ _)
    have e2 := findRoot_mono tapi.parent fuel t r' hr' (max m fuel) (le_max_right _ _)
    rw [e1] at e2
    simp only [Option.some.injEq] at e2
    subst e2
    exact ⟨a, ha, t, hat, hr'⟩

/-! ## C18: `prepareActors` updates each needed root once -/

/-- C18: when the parent chain of every actor's transform reaches a root (finite, acyclic
chains), `prepareActors(actors)` returns, given enough steps for the walks, and among the calls
it makes, `computeWorldMatrixRecursive` is called exactly once on each transform that is the
root of the transform of some actor of the list, and never on any other transform, however
many actors or duplicate entries reach the same root; actors without a transform contribute no
root. -/
theorem prepareActors_roots_once {A B S : Type} (api : ActorApi A B S) (tapi : TransformApi A)
    (actors : List ActorId) (w : World A)
    (hfin : ∀ a ∈ actors, ∀ t, tapi.transform (w.actor a) = some t →
      ∃ r, IsRootOf tapi.parent t r) :
    ∃ n, ∀ fuel, n ≤ fuel → ∃ w', prepareActors api tapi fuel actors w = some w'
      ∧ ∀ t,
        (NeededRoot tapi w actors t →
          (w'.log.drop w.log.length).count (Call.computeWorldMatrixRecursive t) = 1)
        ∧ (¬ NeededRoot tapi w actors t →
          (w'.log.drop w.log.length).count (Call.computeWorldMatrixRecursive t) = 0) := by
  obtain ⟨n, hn⟩ := prepareActors_spec api tapi actors w hfin
  refine ⟨n, fun fuel hfuel => ?_⟩
  obtain ⟨roots, hsorted, hmem, hrun⟩ := hn fuel hfuel
  refine ⟨_, hrun, fun t => ?_⟩
  have hnodup : roots.Nodup := hsorted.imp (fun h => Nat.ne_of_lt h)
  have hlog : (actors.foldl (World.computeBounds api)
      (roots.foldl World.computeWorldMatrixRecursive w)).log.drop w.log.length
      = roots.map Call.computeWorldMatrixRecursive ++ actors.map Call.computeBounds := by
    rw [foldl_computeBounds_log, foldl_computeWorldMatrixRecursive_log, List.append_assoc,
      List.drop_left]
  have hinj : Function.Injective Call.computeWorldMatrixRecursive := by
    intro x y hxy
    injection hxy
  have hzero : (actors.map Call.computeBounds).count (Call.computeWorldMatrixRecursive t) = 0 := by
    apply List.count_eq_zero_of_not_mem
    simp
  rw [hlog, List.count_append, hzero, Nat.add_zero, List.count_map_of_injective _ _ hinj]
  constructor
  · intro hneeded
    exact List.count_eq_one_of_mem hnodup ((hmem t).mpr hneeded)
  · intro hnot
    exact List.count_eq_zero_of_not_mem (fun h => hnot ((hmem t).mp h))

/-- Witness for C18: six list entries, two of them the same actor and one without transform,
reach the two roots `10` and `20`. -/
theorem prepareActors_roots_once_witness :
    (prepareActors exApi exTransforms 3 [1, 0, 3, 2, 1, 4] exWorld).map World.log
        = some [.computeWorldMatrixRecursive 10, .computeWorldMatrixRecursive 20,
            .computeBounds 1, .computeBounds 0, .computeBounds 3, .computeBounds 2,
            .computeBounds 1, .computeBounds 4]
      ∧ ∃ n, ∀ fuel, n ≤ fuel →
        ∃ w', prepareActors exApi exTransforms fuel [1, 0, 3, 2, 1, 4] exWorld = some w'
          ∧ ∀ t,
            (NeededRoot exTransforms exWorld [1, 0, 3, 2, 1, 4] t →
              (w'.log.drop exWorld.log.length).count (Call.computeWorldMatrixRecursive t) = 1)
            ∧ (¬ NeededRoot exTransforms exWorld [1, 0, 3, 2, 1, 4] t →
              (w'.log.drop exWorld.log.length).count (Call.computeWorldMatrixRecursive t) = 0) :=
  ⟨by rfl,
    prepareActors_roots_once exApi exTransforms [1, 0, 3, 2, 1, 4] exWorld
      (finite_of_fuel exTransforms exWorld [1, 0, 3, 2, 1, 4] 3 (by
        intro a ha t ht
        simp only [List.mem_cons, List.mem_singleton, List.not_mem_nil, or_false] at ha
        rcases ha with rfl | rfl | rfl | rfl | rfl | rfl <;>
          simp only [exTransforms, exWorld, Option.some.injEq] at ht <;>
          first
            | (subst ht; rfl)
            | exact absurd ht (by simp)))⟩

/-! ## C19: order of the collaborator calls of `prepareActors` -/

/-- C19: when the parent chain of every actor's transform reaches a root, `prepareActors(actors)`
returns, given enough steps for the walks, and the calls it makes are, in order, the
`computeWorldMatrixRecursive` calls on the roots followed by one `computeBounds` call per entry
of the input list, in list order (entries without a transform included): every
`computeWorldMatrixRecursive` call precedes every `computeBounds` call. -/
theorem prepareActors_call_order {A B S : Type} (api : ActorApi A B S) (tapi : TransformApi A)
    (actors : List ActorId) (w : World A)
    (hfin : ∀ a ∈ actors, ∀ t, tapi.transform (w.actor a) = some t →
      ∃ r, IsRootOf tapi.parent t r) :
    ∃ n, ∀ fuel, n ≤ fuel → ∃ (w' : World A) (roots : List TransformId),
      prepareActors api tapi fuel actors w = some w'
        ∧ w'.log = w.log ++ roots.map Call.computeWorldMatrixRecursive
            ++ actors.map Call.computeBounds := by
  obtain ⟨n, hn⟩ := prepareActors_spec api tapi actors w hfin
  refine ⟨n, fun fuel hfuel => ?_⟩
  obtain ⟨roots, _, _, hrun⟩ := hn fuel hfuel
  refine ⟨_, roots, hrun, ?_⟩
  rw [foldl_computeBounds_log, foldl_computeWorldMatrixRecursive_log]

/-- Witness for C19: the actors `0` (no transform), `4` and `1` give the calls on the roots
`10` and `20` first and then the three `computeBounds` calls in list order. -/
theorem prepareActors_call_order_witness :
    (prepareActors exApi exTransforms 3 [0, 4, 1] exWorld).map World.log
        = some [.computeWorldMatrixRecursive 10, .computeWorldMatrixRecursive 20,
            .computeBounds 0, .computeBounds 4, .computeBounds 1]
      ∧ ∃ n, ∀ fuel, n ≤ fuel → ∃ (w' : World ExActor) (roots : List TransformId),
        prepareActors exApi exTransforms fuel [0, 4, 1] exWorld = some w'
          ∧ w'.log = exWorld.log ++ roots.map Call.computeWorldMatrixRecursive
              ++ [0, 4, 1].map Call.computeBounds :=
  ⟨by rfl,
    prepareActors_call_order exApi exTransforms [0, 4, 1] exWorld
      (finite_of_fuel exTransforms exWorld [0, 4, 1] 3 (by
        intro a ha t ht
        simp only [List.mem_cons, List.mem_singleton, List.not_mem_nil, or_false] at ha
        rcases ha with rfl | rfl | rfl <;>
          simp only [exTransforms, exWorld, Option.some.injEq] at ht <;>
          first
            | (subst ht; rfl)
            | exact absurd ht (by simp)))⟩

/-! ## Helper lemmas: `addActor` -/

mutual
theorem addActorAt_spec {B : Type} (actor : ActorId) :
    ∀ (t : ActorTree B) (p : Path) (t' : ActorTree B), addActorAt actor t p = some t' →
      (preorder t').Perm (actor :: preorder t) ∧ skeleton t' = skeleton t
  | .node actors children enabled aabb, [], t', h => by
    simp only [addActorAt, addActor, Option.some.injEq] at h
    subst h
    refine ⟨?_, by simp [skeleton]⟩
    simp only [preorder, List.append_assoc, List.singleton_append]
    exact List.perm_middle
  | .node actors children enabled aabb, i :: p, t', h => by
    unfold addActorAt at h
    cases hc : addActorAtChildren actor children i p with
    | none => simp [hc] at h
    | some children' =>
      simp only [hc, Option.some.injEq] at h
      subst h
      obtain ⟨h1, h2⟩ := addActorAtChildren_spec actor children i p children' hc
      refine ⟨?_, by simp [skeleton, h2]⟩
      simp only [preorder]
      exact (List.Perm.append_left actors h1).trans List.perm_middle
theorem addActorAtChildren_spec {B : Type} (actor : ActorId) :
    ∀ (cs : List (Option (ActorTree B))) (i : Nat) (p : Path)
      (cs' : List (Option (ActorTree B))), addActorAtChildren actor cs i p = some cs' →
      (preorderChildren cs').Perm (actor :: preorderChildren cs)
        ∧ skeletonChildren cs' = skeletonChildren cs
  | [], _, _, _, h => by simp [addActorAtChildren] at h
  | none :: rest, 0, _, _, h => by simp [addActorAtChildren] at h
  | some c :: rest, 0, p, cs', h => by
    unfold addActorAtChildren at h
    cases hc : addActorAt actor c p with
    | none => simp [hc] at h
    | some c' =>
      simp only [hc, Option.some.injEq] at h
      subst h
      obtain ⟨h1, h2⟩ := addActorAt_spec actor c p c' hc
      refine ⟨?_, by simp [skeletonChildren, h2]⟩
      simp only [preorderChildren]
      exact List.Perm.append_right _ h1
  | none :: rest, i + 1, p, cs', h => by
    unfold addActorAtChildren at h
    cases hc : addActorAtChildren actor rest i p with
    | none => simp [hc] at h
    | some rest' =>
      simp only [hc, Option.some.injEq] at h
      subst h
      obtain ⟨h1, h2⟩ := addActorAtChildren_spec actor rest i p rest' hc
      exact ⟨by simpa [preorderChildren] using h1, by simp [skeletonChildren, h2]⟩
  | some c :: rest, i + 1, p, cs', h => by
    unfold addActorAtChildren at h
    cases hc : addActorAtChildren actor rest i p with
    | none => simp [hc] at h
    | some rest' =>
      simp only [hc, Option.some.injEq] at h
      subst h
      obtain ⟨h1, h2⟩ := addActorAtChildren_spec actor rest i p rest' hc
      refine ⟨?_, by simp [skeletonChildren, h2]⟩
      simp only [preorderChildren]
      exact (List.Perm.append_left (preorder c) h1).trans List.perm_middle
end

theorem addActors_spec {B : Type} :
    ∀ (calls : List (Path × ActorId)) (t t' : ActorTree B), addActors calls t = some t' →
      (preorder t').Perm (preorder t ++ calls.map Prod.snd) ∧ skeleton t' = skeleton t
  | [], t, t', h => by
    simp only [addActors, Option.some.injEq] at h
    subst h
    simp
  | (p, actor) :: rest, t, t', h => by
    unfold addActors at h
    cases h1 : addActorAt actor t p with
    | none => simp [h1] at h
    | some t1 =>
      simp only [h1] at h
      obtain ⟨ha, hs⟩ := addActorAt_spec actor t p t1 h1
      obtain ⟨hb, hs'⟩ := addActors_spec rest t1 t' h
      refine ⟨?_, hs'.trans hs⟩
      simp only [List.map_cons]
      exact hb.trans ((List.Perm.append_right _ ha).trans List.perm_middle.symm)

theorem addActorAtChildren_get {B : Type} (actor : ActorId) (p : Path) (c c' : ActorTree B)
    (hc : addActorAt actor c p = some c') :
    ∀ (cs : List (Option (ActorTree B))) (i : Nat), cs.get? i = some (some c) →
      addActorAtChildren actor cs i p = some (cs.set i (some c'))
  | [], _, h => by simp at h
  | slot :: rest, 0, h => by
    simp only [List.get?_cons_zero, Option.some.injEq] at h
    subst h
    simp [addActorAtChildren, hc]
  | slot :: rest, i + 1, h => by
    simp only [List.get?_cons_succ] at h
    have ih := addActorAtChildren_get actor p c c' hc rest i h
    cases slot <;> simp [addActorAtChildren, ih]

theorem addActorAt_nodeAt {B : Type} (actor : ActorId) :
    ∀ (p : Path) (t n : ActorTree B), nodeAt t p = some n →
      ∃ t', addActorAt actor t p = some t' ∧ nodeAt t' p = some (addActor actor n).2
  | [], t, n, h => by
    simp only [nodeAt, Option.some.injEq] at h
    subst h
    cases t with
    | node actors children enabled aabb =>
      exact ⟨(addActor actor (.node actors children enabled aabb)).2, rfl, rfl⟩
  | i :: p, .node actors children enabled aabb, n, h => by
    simp only [nodeAt, ActorTree.children] at h
    cases hget : children.get? i with
    | none =>
      simp only [hget] at h
      exact absurd h (by simp)
    | some slot =>
      cases slot with
      | none =>
        simp only [hget] at h
        exact absurd h (by simp)
      | some c =>
        simp only [hget] at h
        obtain ⟨c', hc1, hc2⟩ := addActorAt_nodeAt actor p c n h
        have hset := addActorAtChildren_get actor p c c' hc1 children i hget
        have hlt : i < children.length := by
          by_contra hge
          rw [List.get?_eq_none.mpr (by omega)] at hget
          exact absurd hget (by simp)
        have hget' : (children.set i (some c')).get? i = some (some c') := by
          rw [List.get?_eq_getElem?, List.getElem?_set_self hlt]
        refine ⟨.node actors (children.set i (some c')) enabled aabb, by simp [addActorAt, hset],
          ?_⟩
        simp only [nodeAt, ActorTree.children, hget']
        exact hc2

/-! ## C20: `addActor` appends to the node's own list -/

/-- C20: `addActor(actor)` returns that same actor and appends it at the end of the node's own
actor list, leaving the previous entries, the children, the enabled flag and the cached box
unchanged; called on the node at any path of a tree it changes that node in this way; and
after any sequence of `addActor` calls on nodes of a tree, `extractActors` on the root returns
the entries the tree listed before together with exactly the multiset of drawables added
(exactly that multiset when the tree listed nothing), the child sequences, flags and boxes of
all nodes being unchanged. -/
theorem addActor_appends {B : Type} (actor : ActorId) (n t : ActorTree B) (p : Path)
    (hp : nodeAt t p = some n) (calls : List (Path × ActorId)) (t0 t' : ActorTree B)
    (hcalls : addActors calls t0 = some t') :
    (addActor actor n).1 = actor
      ∧ (addActor actor n).2 = .node (n.actors ++ [actor]) n.children n.isEnabled n.aabb
      ∧ (∃ t1, addActorAt actor t p = some t1 ∧ nodeAt t1 p = some (addActor actor n).2)
      ∧ (extractActors t' []).Perm (extractActors t0 [] ++ calls.map Prod.snd)
      ∧ skeleton t' = skeleton t0
      ∧ (extractActors t0 [] = [] → (extractActors t' []).Perm (calls.map Prod.snd)) := by
  obtain ⟨hperm, hskel⟩ := addActors_spec calls t0 t' hcalls
  have hperm' : (extractActors t' []).Perm (extractActors t0 [] ++ calls.map Prod.snd) := by
    rw [extractActors_eq, extractActors_eq]
    simpa using hperm
  refine ⟨?_, ?_, addActorAt_nodeAt actor p t n hp, hperm', hskel, fun hempty => ?_⟩
  · cases n with
    | node actors children enabled aabb => rfl
  · cases n with
    | node actors children enabled aabb => rfl
  · rw [hempty] at hperm'
    simpa using hperm'

/-- Witness for C20: on the scenario tree, whose nodes list `1` and `2`, the calls
`addActor(7)` on child `A`, `addActor(8)` on the root and `addActor(7)` on child `B`. -/
theorem addActor_appends_witness :
    addActors [([0], 7), ([], 8), ([1], 7)] exTree
        = some (.node [8] [some (.node [1, 7] [] true 0), some (.node [2, 7] [] false 0)] true 0)
      ∧ extractActors (ActorTree.node [8]
          [some (.node [1, 7] [] true 0), some (.node [2, 7] [] false 0)] true 0) []
        = [8, 1, 7, 2, 7]
      ∧ ((addActor 7 (ActorTree.node [1] [] true (0 : Nat))).1 = 7
        ∧ (addActor 7 (ActorTree.node [1] [] true (0 : Nat))).2
            = .node ((ActorTree.node [1] [] true (0 : Nat)).actors ++ [7])
                (ActorTree.node [1] [] true (0 : Nat)).children
                (ActorTree.node [1] [] true (0 : Nat)).isEnabled
                (ActorTree.node [1] [] true (0 : Nat)).aabb
        ∧ (∃ t1, addActorAt 7 exTree [0] = some t1
            ∧ nodeAt t1 [0] = some (addActor 7 (ActorTree.node [1] [] true (0 : Nat))).2)
        ∧ (extractActors (ActorTree.node [8]
              [some (.node [1, 7] [] true 0), some (.node [2, 7] [] false 0)] true 0) []).Perm
            (extractActors exTree [] ++ [([0], 7), (([] : Path), 8), ([1], 7)].map Prod.snd)
        ∧ skeleton (ActorTree.node [8]
              [some (.node [1, 7] [] true 0), some (.node [2, 7] [] false 0)] true 0)
            = skeleton exTree
        ∧ (extractActors exTree [] = [] →
            (extractActors (ActorTree.node [8]
              [some (.node [1, 7] [] true 0), some (.node [2, 7] [] false 0)] true 0) []).Perm
              ([([0], 7), (([] : Path), 8), ([1], 7)].map Prod.snd))) :=
  ⟨by rfl, by rfl,
    addActor_appends 7 (ActorTree.node [1] [] true (0 : Nat)) exTree [0] (by rfl)
      [([0], 7), ([], 8), ([1], 7)] exTree
      (.node [8] [some (.node [1, 7] [] true 0), some (.node [2, 7] [] false 0)] true 0)
      (by rfl)⟩

/-! ## Helper lemmas: `computeAABB` depends on the bounds to come only -/

mutual
theorem computeAABB_congr {A B S : Type} (api : ActorApi A B S) (ops : AABBOps B)
    (hcb : ∀ a, api.computeBounds (api.computeBounds a) = api.computeBounds a) :
    ∀ (t : ActorTree B) (w1 w2 : World A),
      (∀ d, api.computeBounds (w1.actor d) = api.computeBounds (w2.actor d)) →
      (computeAABB api ops t w1).1 = (computeAABB api ops t w2).1
  | .node actors children enabled b, w1, w2, h => by
    have hbox : (computeAABBActors api ops actors ops.null w1).1
        = (computeAABBActors api ops actors ops.null w2).1 := by
      rw [computeAABBActors_box api ops hcb, computeAABBActors_box api ops hcb]
      simp only [h]
    have hfresh : ∀ d, api.computeBounds ((computeAABBActors api ops actors ops.null w1).2.actor d)
        = api.computeBounds ((computeAABBActors api ops actors ops.null w2).2.actor d) := by
      intro d
      rw [computeAABBActors_world, computeAABBActors_world, foldl_computeBounds_fresh api hcb,
        foldl_computeBounds_fresh api hcb]
      exact h d
    have hc := computeAABBChildren_congr api ops hcb children
      (computeAABBActors api ops actors ops.null w1).1
      (computeAABBActors api ops actors ops.null w1).2
      (computeAABBActors api ops actors ops.null w2).2 hfresh
    simp only [computeAABB]
    rw [← hbox, hc.1, hc.2]
theorem computeAABBChildren_congr {A B S : Type} (api : ActorApi A B S) (ops : AABBOps B)
    (hcb : ∀ a, api.computeBounds (api.computeBounds a) = api.computeBounds a) :
    ∀ (cs : List (Option (ActorTree B))) (acc : B) (w1 w2 : World A),
      (∀ d, api.computeBounds (w1.actor d) = api.computeBounds (w2.actor d)) →
      (computeAABBChildren api ops cs acc w1).1 = (computeAABBChildren api ops cs acc w2).1
        ∧ (computeAABBChildren api ops cs acc w1).2.1 = (computeAABBChildren api ops cs acc w2).2.1
  | [], _, _, _, _ => ⟨rfl, rfl⟩
  | none :: rest, acc, w1, w2, h => by
    have ih := computeAABBChildren_congr api ops hcb rest acc w1 w2 h
    simp only [computeAABBChildren]
    exact ⟨by rw [ih.1], ih.2⟩
  | some c :: rest, acc, w1, w2, h => by
    have hc := computeAABB_congr api ops hcb c w1 w2 h
    have hfresh : ∀ d, api.computeBounds ((computeAABB api ops c w1).2.actor d)
        = api.computeBounds ((computeAABB api ops c w2).2.actor d) := by
      intro d
      rw [computeAABB_world, computeAABB_world, foldl_computeBounds_fresh api hcb,
        foldl_computeBounds_fresh api hcb]
      exact h d
    have ih := computeAABBChildren_congr api ops hcb rest
      (ops.add acc (computeAABB api ops c w1).1.aabb) (computeAABB api ops c w1).2
      (computeAABB api ops c w2).2 hfresh
    simp only [computeAABBChildren]
    rw [← hc]
    exact ⟨by rw [ih.1], ih.2⟩
end

theorem computeAABBChildren_fold {A B S : Type} (api : ActorApi A B S) (ops : AABBOps B)
    (hcb : ∀ a, api.computeBounds (api.computeBounds a) = api.computeBounds a) (w : World A) :
    ∀ (cs : List (Option (ActorTree B))) (acc : B) (w' : World A),
      (∀ d, api.computeBounds (w'.actor d) = api.computeBounds (w.actor d)) →
      (computeAABBChildren api ops cs acc w').2.1
        = ((cs.filterMap id).map (fun c => (computeAABB api ops c w).1.aabb)).foldl ops.add acc
  | [], _, _, _ => rfl
  | none :: rest, acc, w', h => by
    simp only [computeAABBChildren, List.filterMap_cons_none, id]
    exact computeAABBChildren_fold api ops hcb w rest acc w' h
  | some c :: rest, acc, w', h => by
    have hfresh : ∀ d, api.computeBounds ((computeAABB api ops c w').2.actor d)
        = api.computeBounds (w.actor d) := by
      intro d
      rw [computeAABB_world, foldl_computeBounds_fresh api hcb]
      exact h d
    have hcons : (some c :: rest).filterMap id = c :: rest.filterMap id := rfl
    simp only [computeAABBChildren, hcons, List.map_cons, List.foldl_cons]
    rw [computeAABBChildren_fold api ops hcb w rest _ _ hfresh,
      computeAABB_congr api ops hcb c w' w h]

theorem computeAABB_root_fold {A B S : Type} (api : ActorApi A B S) (ops : AABBOps B)
    (hcb : ∀ a, api.computeBounds (api.computeBounds a) = api.computeBounds a)
    (actors : List ActorId) (children : List (Option (ActorTree B))) (enabled : Bool) (b : B)
    (w : World A) :
    (computeAABB api ops (.node actors children enabled b) w).1.aabb
      = (actors.map (fun d => api.boundingBox (api.computeBounds (w.actor d)))
          ++ (children.filterMap id).map (fun c => (computeAABB api ops c w).1.aabb)).foldl
          ops.add ops.null := by
  have hroot : (computeAABB api ops (.node actors children enabled b) w).1.aabb
      = (computeAABBChildren api ops children (computeAABBActors api ops actors ops.null w).1
          (computeAABBActors api ops actors ops.null w).2).2.1 := rfl
  rw [hroot, List.foldl_append]
  rw [computeAABBChildren_fold api ops hcb w children _ _
      (fun d => by rw [computeAABBActors_world, foldl_computeBounds_fresh api hcb]),
    computeAABBActors_box api ops hcb]

/-! ## C21: the box of a node does not depend on the order of its children and actors -/

/-- C21: for every node, any permutation of its children sequence and of its own actor list
gives the same `aabb` at that node after `computeAABB()`, given a commutative and associative
box union (and an idempotent `computeBounds`). -/
theorem computeAABB_sibling_order {A B S : Type} (api : ActorApi A B S) (ops : AABBOps B)
    (hcomm : ∀ a b, ops.add a b = ops.add b a)
    (hassoc : ∀ a b c, ops.add (ops.add a b) c = ops.add a (ops.add b c))
    (hcb : ∀ a, api.computeBounds (api.computeBounds a) = api.computeBounds a)
    (actors actors2 : List ActorId) (children children2 : List (Option (ActorTree B)))
    (enabled enabled2 : Bool) (b b2 : B) (w : World A)
    (hactors : actors2.Perm actors) (hchildren : children2.Perm children) :
    (computeAABB api ops (.node actors2 children2 enabled2 b2) w).1.aabb
      = (computeAABB api ops (.node actors children enabled b) w).1.aabb := by
  rw [computeAABB_root_fold api ops hcb, computeAABB_root_fold api ops hcb]
  apply List.Perm.foldl_eq'
  · exact (hactors.map _).append ((hchildren.filterMap id).map _)
  · intro x _ y _ z
    rw [hassoc, hcomm x y, ← hassoc]

/-- Witness for C21: a node with two own actors and two children, against the same node with
its actors and its children swapped and other flags. -/
theorem computeAABB_sibling_order_witness :
    (computeAABB exApi exOps
        (.node [7, 3] [some (.node [2] [] false 0), some (.node [1] [] true 0)] false 5)
        exWorld).1.aabb
      = (computeAABB exApi exOps
        (.node [3, 7] [some (.node [1] [] true 0), some (.node [2] [] false 0)] true 0)
        exWorld).1.aabb :=
  computeAABB_sibling_order exApi exOps (fun a b => Nat.max_comm a b)
    (fun a b c => Nat.max_assoc a b c) (fun _ => rfl) [3, 7] [7, 3]
    [some (.node [1] [] true 0), some (.node [2] [] false 0)]
    [some (.node [2] [] false 0), some (.node [1] [] true 0)] true false 0 5 exWorld
    (List.Perm.swap 3 7 []) (List.Perm.swap _ _ [])

/-! ## Helper lemmas: closed form of the own-actor loop -/

theorem boundsOnly_symm {A B S : Type} (api : ActorApi A B S) {w1 w2 : World A}
    (h : boundsOnly api w1 w2) : boundsOnly api w2 w1 :=
  fun d => ⟨(h d).1.symm, (h d).2.1.symm, (h d).2.2.symm⟩

theorem ownTested_of_boundsOnly {A B S : Type} (api : ActorApi A B S) (enable_mask : Nat)
    {w w' : World A} (h : boundsOnly api w w') (a : ActorId) :
    ownTested api enable_mask w' a = ownTested api enable_mask w a := by
  unfold ownTested
  rw [(h a).1, (h a).2.1]

theorem ownSelected_of_boundsOnly {A B S : Type} (api : ActorApi A B S)
    (camera : Option (Camera B S)) (enable_mask : Nat) {w w' : World A}
    (h : boundsOnly api w w') (a : ActorId) :
    ownSelected api camera enable_mask w' a = ownSelected api camera enable_mask w a := by
  unfold ownSelected
  rw [ownTested_of_boundsOnly api enable_mask h, (h a).2.2]

theorem extractVisibleOwn_closed {A B S : Type} (api : ActorApi A B S)
    (hapi : api.boundsWellBehaved) (camera : Option (Camera B S)) (enable_mask : Nat) :
    ∀ (actors list : List ActorId) (w : World A),
      extractVisibleOwn api camera enable_mask actors list w
        = (list ++ actors.filter (ownSelected api camera enable_mask w),
            (actors.filter (ownTested api enable_mask w)).foldl (World.computeBounds api) w)
  | [], list, w => by simp [extractVisibleOwn]
  | a :: rest, list, w => by
    have hstep := boundsOnly_step api hapi w a
    have hsel : rest.filter (ownSelected api camera enable_mask (w.computeBounds api a))
        = rest.filter (ownSelected api camera enable_mask w) :=
      List.filter_congr (fun d _ => ownSelected_of_boundsOnly api camera enable_mask hstep d)
    have htest : rest.filter (ownTested api enable_mask (w.computeBounds api a))
        = rest.filter (ownTested api enable_mask w) :=
      List.filter_congr (fun d _ => ownTested_of_boundsOnly api enable_mask hstep d)
    have hactor : (w.computeBounds api a).actor a = api.computeBounds (w.actor a) := by
      simp [World.computeBounds]
    unfold extractVisibleOwn
    rw [hactor]
    cases ht : ownTested api enable_mask w a with
    | false =>
      have ht' : (api.isEnabled (w.actor a)
          && maskIntersects enable_mask (api.enableMask (w.actor a))) = false := ht
      have hs : ownSelected api camera enable_mask w a = false := by
        simp [ownSelected, ht]
      have hfs : (a :: rest).filter (ownSelected api camera enable_mask w)
          = rest.filter (ownSelected api camera enable_mask w) :=
        List.filter_cons_of_neg (by simp [hs])
      have hft : (a :: rest).filter (ownTested api enable_mask w)
          = rest.filter (ownTested api enable_mask w) :=
        List.filter_cons_of_neg (by simp [ht])
      rw [ht', hfs, hft]
      simp only [Bool.false_eq_true, if_false]
      exact extractVisibleOwn_closed api hapi camera enable_mask rest list w
    | true =>
      have ht' : (api.isEnabled (w.actor a)
          && maskIntersects enable_mask (api.enableMask (w.actor a))) = true := ht
      have hft : (a :: rest).filter (ownTested api enable_mask w)
          = a :: rest.filter (ownTested api enable_mask w) :=
        List.filter_cons_of_pos ht
      rw [ht', hft, List.foldl_cons]
      simp only [if_true]
      cases hc : cameraCullsSphere camera (api.boundingSphere (api.computeBounds (w.actor a))) with
      | true =>
        have hs : ownSelected api camera enable_mask w a = false := by
          simp [ownSelected, hc]
        rw [List.filter_cons_of_neg (by simp [hs])]
        rw [extractVisibleOwn_closed api hapi camera enable_mask rest list _, hsel, htest]
        simp
      | false =>
        have hs : ownSelected api camera enable_mask w a = true := by
          simp [ownSelected, ht, hc]
        rw [List.filter_cons_of_pos hs]
        simp only [Bool.false_eq_true, if_false]
        rw [extractVisibleOwn_closed api hapi camera enable_mask rest _ _, hsel, htest]
        simp

/-! ## Helper lemmas: the initial list is a prefix of the output -/

theorem extractVisibleOwn_initial {A B S : Type} (api : ActorApi A B S)
    (camera : Option (Camera B S)) (enable_mask : Nat) :
    ∀ (actors list : List ActorId) (w : World A),
      extractVisibleOwn api camera enable_mask actors list w
        = (list ++ (extractVisibleOwn api camera enable_mask actors [] w).1,
            (extractVisibleOwn api camera enable_mask actors [] w).2)
  | [], list, w => by simp [extractVisibleOwn]
  | a :: rest, list, w => by
    unfold extractVisibleOwn
    split
    · split
      · exact extractVisibleOwn_initial api camera enable_mask rest list _
      · rw [extractVisibleOwn_initial api camera enable_mask rest (list ++ [a]) _,
          extractVisibleOwn_initial api camera enable_mask rest ([] ++ [a]) _]
        simp
    · exact extractVisibleOwn_initial api camera enable_mask rest list _

mutual
theorem extractVisibleActors_initial {A B S : Type} (api : ActorApi A B S) (defaultMask : Nat) :
    ∀ (t : ActorTree B) (list : List ActorId) (camera : Option (Camera B S)) (enable_mask : Nat)
      (w : World A),
      extractVisibleActors api defaultMask t list camera enable_mask w
        = (list ++ (extractVisibleActors api defaultMask t [] camera enable_mask w).1,
            (extractVisibleActors api defaultMask t [] camera enable_mask w).2)
  | .node actors children enabled aabb, list, camera, enable_mask, w => by
    unfold extractVisibleActors
    split
    · simp
    · rw [extractVisibleOwn_initial api camera enable_mask actors list w,
        extractVisibleChildren_initial api defaultMask children
          (list ++ (extractVisibleOwn api camera enable_mask actors [] w).1),
        extractVisibleChildren_initial api defaultMask children
          (extractVisibleOwn api camera enable_mask actors [] w).1]
      simp
theorem extractVisibleChildren_initial {A B S : Type} (api : ActorApi A B S) (defaultMask : Nat) :
    ∀ (cs : List (Option (ActorTree B))) (list : List ActorId) (camera : Option (Camera B S))
      (w : World A),
      extractVisibleChildren api defaultMask cs list camera w
        = (list ++ (extractVisibleChildren api defaultMask cs [] camera w).1,
            (extractVisibleChildren api defaultMask cs [] camera w).2)
  | [], list, _, w => by simp [extractVisibleChildren]
  | none :: rest, list, camera, w => by
    simp only [extractVisibleChildren]
    exact extractVisibleChildren_initial api defaultMask rest list camera w
  | some c :: rest, list, camera, w => by
    simp only [extractVisibleChildren]
    rw [extractVisibleActors_initial api defaultMask c list camera defaultMask w,
      extractVisibleChildren_initial api defaultMask rest
        (list ++ (extractVisibleActors api defaultMask c [] camera defaultMask w).1),
      extractVisibleChildren_initial api defaultMask rest
        (extractVisibleActors api defaultMask c [] camera defaultMask w).1]
    simp
end

/-! ## Helper lemmas: the appended drawables do not depend on earlier bounds recomputations -/

mutual
theorem extractVisibleActors_world_indep {A B S : Type} (api : ActorApi A B S)
    (hapi : api.boundsWellBehaved) (defaultMask : Nat) :
    ∀ (t : ActorTree B) (camera : Option (Camera B S)) (enable_mask : Nat) (w1 w2 : World A),
      boundsOnly api w1 w2 →
      (extractVisibleActors api defaultMask t [] camera enable_mask w2).1
        = (extractVisibleActors api defaultMask t [] camera enable_mask w1).1
  | .node actors children enabled aabb, camera, enable_mask, w1, w2, h => by
    unfold extractVisibleActors
    split
    · rfl
    · have h1 := extractVisibleOwn_boundsOnly api hapi camera enable_mask actors [] w1
      have h2 := extractVisibleOwn_boundsOnly api hapi camera enable_mask actors [] w2
      have h12 := boundsOnly_trans api (boundsOnly_trans api (boundsOnly_symm api h1) h) h2
      rw [extractVisibleChildren_initial api defaultMask children
          (extractVisibleOwn api camera enable_mask actors [] w2).1,
        extractVisibleChildren_initial api defaultMask children
          (extractVisibleOwn api camera enable_mask actors [] w1).1]
      simp only
      rw [extractVisibleChildren_world_indep api hapi defaultMask children camera _ _ h12,
        extractVisibleOwn_closed api hapi camera enable_mask actors [] w2,
        extractVisibleOwn_closed api hapi camera enable_mask actors [] w1]
      simp only
      rw [List.filter_congr
        (fun d _ => ownSelected_of_boundsOnly api camera enable_mask h d)]
theorem extractVisibleChildren_world_indep {A B S : Type} (api : ActorApi A B S)
    (hapi : api.boundsWellBehaved) (defaultMask : Nat) :
    ∀ (cs : List (Option (ActorTree B))) (camera : Option (Camera B S)) (w1 w2 : World A),
      boundsOnly api w1 w2 →
      (extractVisibleChildren api defaultMask cs [] camera w2).1
        = (extractVisibleChildren api defaultMask cs [] camera w1).1
  | [], _, _, _, _ => rfl
  | none :: rest, camera, w1, w2, h => by
    simp only [extractVisibleChildren]
    exact extractVisibleChildren_world_indep api hapi defaultMask rest camera w1 w2 h
  | some c :: rest, camera, w1, w2, h => by
    simp only [extractVisibleChildren]
    have h1 := extractVisibleActors_boundsOnly api hapi defaultMask c [] camera defaultMask w1
    have h2 := extractVisibleActors_boundsOnly api hapi defaultMask c [] camera defaultMask w2
    have h12 := boundsOnly_trans api (boundsOnly_trans api (boundsOnly_symm api h1) h) h2
    rw [extractVisibleChildren_initial api defaultMask rest
        (extractVisibleActors api defaultMask c [] camera defaultMask w2).1,
      extractVisibleChildren_initial api defaultMask rest
        (extractVisibleActors api defaultMask c [] camera defaultMask w1).1]
    simp only
    rw [extractVisibleChildren_world_indep api hapi defaultMask rest camera _ _ h12,
      extractVisibleActors_world_indep api hapi defaultMask c camera defaultMask w1 w2 h]
end

theorem ownTested_iff {A B S : Type} (api : ActorApi A B S) (enable_mask : Nat) (w : World A)
    (a : ActorId) :
    ownTested api enable_mask w a = true
      ↔ api.isEnabled (w.actor a) = true ∧ enable_mask &&& api.enableMask (w.actor a) ≠ 0 := by
  simp [ownTested, maskIntersects]

theorem ownSelected_iff {A B S : Type} (api : ActorApi A B S) (camera : Option (Camera B S))
    (enable_mask : Nat) (w : World A) (a : ActorId) :
    ownSelected api camera enable_mask w a = true
      ↔ api.isEnabled (w.actor a) = true ∧ enable_mask &&& api.enableMask (w.actor a) ≠ 0
        ∧ (camera = none ∨ ∃ c, camera = some c
            ∧ c.cullSphere (api.boundingSphere (api.computeBounds (w.actor a))) = false) := by
  cases camera with
  | none => simp [ownSelected, ownTested, maskIntersects, cameraCullsSphere]
  | some c => simp [ownSelected, ownTested, maskIntersects, cameraCullsSphere, and_assoc]

/-- The whole call on a node that is not pruned: own survivors first, then the descendants'. -/
theorem extractVisibleActors_survivor {A B S : Type} (api : ActorApi A B S)
    (hapi : api.boundsWellBehaved) (defaultMask : Nat) (actors : List ActorId)
    (children : List (Option (ActorTree B))) (aabb : B) (list : List ActorId)
    (camera : Option (Camera B S)) (enable_mask : Nat) (w : World A)
    (hbox : cameraCullsBox camera aabb = false) :
    (extractVisibleActors api defaultMask (.node actors children true aabb) list camera
        enable_mask w).1
      = list ++ actors.filter (ownSelected api camera enable_mask w)
          ++ (extractVisibleChildren api defaultMask children [] camera w).1 := by
  unfold extractVisibleActors
  rw [hbox]
  simp only [Bool.not_true, Bool.or_self, Bool.false_eq_true, if_false]
  rw [extractVisibleChildren_initial, extractVisibleOwn_closed api hapi]
  simp only
  rw [extractVisibleChildren_world_indep api hapi defaultMask children camera w _
    (by
      have h := extractVisibleOwn_boundsOnly api hapi camera enable_mask actors list w
      rw [extractVisibleOwn_closed api hapi] at h
      exact h)]

/-! ## Helper lemmas: visible extraction filters the pre-order enumeration -/

theorem extractVisibleOwn_sublist {A B S : Type} (api : ActorApi A B S)
    (camera : Option (Camera B S)) (enable_mask : Nat) :
    ∀ (actors : List ActorId) (w : World A),
      (extractVisibleOwn api camera enable_mask actors [] w).1.Sublist actors
  | [], _ => List.Sublist.refl _
  | a :: rest, w => by
    unfold extractVisibleOwn
    split
    · split
      · exact (extractVisibleOwn_sublist api camera enable_mask rest _).cons a
      · rw [extractVisibleOwn_initial]
        exact (extractVisibleOwn_sublist api camera enable_mask rest _).cons₂ a
    · exact (extractVisibleOwn_sublist api camera enable_mask rest _).cons a

mutual
theorem extractVisibleActors_sublist {A B S : Type} (api : ActorApi A B S) (defaultMask : Nat) :
    ∀ (t : ActorTree B) (camera : Option (Camera B S)) (enable_mask : Nat) (w : World A),
      (extractVisibleActors api defaultMask t [] camera enable_mask w).1.Sublist (preorder t)
  | .node actors children enabled aabb, camera, enable_mask, w => by
    unfold extractVisibleActors
    split
    · exact List.nil_sublist _
    · rw [extractVisibleChildren_initial]
      simp only [preorder]
      exact (extractVisibleOwn_sublist api camera enable_mask actors w).append
        (extractVisibleChildren_sublist api defaultMask children camera _)
theorem extractVisibleChildren_sublist {A B S : Type} (api : ActorApi A B S) (defaultMask : Nat) :
    ∀ (cs : List (Option (ActorTree B))) (camera : Option (Camera B S)) (w : World A),
      (extractVisibleChildren api defaultMask cs [] camera w).1.Sublist (preorderChildren cs)
  | [], _, _ => List.Sublist.refl _
  | none :: rest, camera, w => by
    simp only [extractVisibleChildren, preorderChildren]
    exact extractVisibleChildren_sublist api defaultMask rest camera w
  | some c :: rest, camera, w => by
    simp only [extractVisibleChildren, preorderChildren]
    rw [extractVisibleChildren_initial]
    exact (extractVisibleActors_sublist api defaultMask c camera defaultMask w).append
      (extractVisibleChildren_sublist api defaultMask rest camera _)
end

/-! ## C22: the per-drawable tests of a surviving node -/

/-- C22: on a node that survives pruning (enabled, and its cached box not culled by a supplied
camera), `extractVisibleActors` runs like the child loop started from the list extended by the
own actors that are selected, in stored order, in the world where `computeBounds` has been
invoked, in stored order, on exactly the own actors that pass the enabled and mask tests; so
the output is the initial list, then the selected own actors, then the descendants'. An own
actor is selected if and only if it is enabled, `enable_mask & enableMask()` is non-zero, and
either no camera is supplied or the frustum does not cull its bounding sphere (as recomputed by
`computeBounds`). Assumed of the collaborator: `computeBounds` is idempotent and leaves the
enabled flag and the enable mask alone. -/
theorem extractVisibleActors_own_tests {A B S : Type} (api : ActorApi A B S) (defaultMask : Nat)
    (hcb : ∀ a, api.computeBounds (api.computeBounds a) = api.computeBounds a)
    (hen : ∀ a, api.isEnabled (api.computeBounds a) = api.isEnabled a)
    (hmk : ∀ a, api.enableMask (api.computeBounds a) = api.enableMask a)
    (actors : List ActorId) (children : List (Option (ActorTree B))) (aabb : B)
    (list : List ActorId) (camera : Option (Camera B S)) (enable_mask : Nat) (w : World A)
    (hbox : cameraCullsBox camera aabb = false) :
    extractVisibleActors api defaultMask (.node actors children true aabb) list camera
        enable_mask w
      = extractVisibleChildren api defaultMask children
          (list ++ actors.filter (ownSelected api camera enable_mask w)) camera
          ((actors.filter (ownTested api enable_mask w)).foldl (World.computeBounds api) w)
    ∧ (extractVisibleActors api defaultMask (.node actors children true aabb) list camera
        enable_mask w).1
      = list ++ actors.filter (ownSelected api camera enable_mask w)
          ++ (extractVisibleChildren api defaultMask children [] camera w).1
    ∧ ((actors.filter (ownTested api enable_mask w)).foldl (World.computeBounds api) w).log
      = w.log ++ (actors.filter (ownTested api enable_mask w)).map Call.computeBounds
    ∧ (∀ a, ownSelected api camera enable_mask w a = true
        ↔ api.isEnabled (w.actor a) = true ∧ enable_mask &&& api.enableMask (w.actor a) ≠ 0
          ∧ (camera = none ∨ ∃ c, camera = some c
              ∧ c.cullSphere (api.boundingSphere (api.computeBounds (w.actor a))) = false))
    ∧ (∀ a, ownTested api enable_mask w a = true
        ↔ api.isEnabled (w.actor a) = true ∧ enable_mask &&& api.enableMask (w.actor a) ≠ 0) := by
  refine ⟨?_, extractVisibleActors_survivor api ⟨hcb, hen, hmk⟩ defaultMask actors children aabb
    list camera enable_mask w hbox, foldl_computeBounds_log api _ w,
    ownSelected_iff api camera enable_mask w, ownTested_iff api enable_mask w⟩
  unfold extractVisibleActors
  rw [hbox]
  simp only [Bool.not_true, Bool.or_self, Bool.false_eq_true, if_false]
  rw [extractVisibleOwn_closed api ⟨hcb, hen, hmk⟩]

/-- Witness for C22: an enabled childless node with the box `10` holding the drawables `1`
(sphere `3`, culled by the concrete camera) and `9` (sphere `11`, kept), caller's mask `1`. -/
theorem extractVisibleActors_own_tests_witness :
    cameraCullsBox (some exCamera) 10 = false
      ∧ (extractVisibleActors exApi 0xFFFFFFFF (.node [1, 9] [] true 10) [] (some exCamera) 1
          exWorld).1
        = [] ++ [1, 9].filter (ownSelected exApi (some exCamera) 1 exWorld)
            ++ (extractVisibleChildren exApi 0xFFFFFFFF [] [] (some exCamera) exWorld).1 :=
  ⟨by decide,
    (extractVisibleActors_own_tests exApi 0xFFFFFFFF (fun _ => rfl) (fun _ => rfl) (fun _ => rfl)
      [1, 9] [] 10 [] (some exCamera) 1 exWorld (by decide)).2.1⟩

/-! ## C23: the caller's mask is not forwarded to the children -/

/-- C25: for every tree, camera, mask, world and initial list, the list after
`extractVisibleActors` is the initial list followed by a sequence that is a subsequence (same
relative order, nothing added or repeated) of what `extractActors` appends to the same initial
list for the same tree. -/
theorem extractVisibleActors_sublist_extractActors {A B S : Type} (api : ActorApi A B S)
    (defaultMask : Nat) (t : ActorTree B) (list : List ActorId) (camera : Option (Camera B S))
    (enable_mask : Nat) (w : World A) :
    ∃ visible all : List ActorId,
      (extractVisibleActors api defaultMask t list camera enable_mask w).1 = list ++ visible
        ∧ extractActors t list = list ++ all
        ∧ visible.Sublist all :=
  ⟨(extractVisibleActors api defaultMask t [] camera enable_mask w).1, preorder t,
    by rw [extractVisibleActors_initial], extractActors_eq t list,
    extractVisibleActors_sublist api defaultMask t camera enable_mask w⟩

/-! ## Helper lemmas: extraction without a camera when every test passes -/

theorem flagsOnly_refl {A B S : Type} (api : ActorApi A B S) (w : World A) :
    flagsOnly api w w :=
  fun _ => ⟨rfl, rfl⟩

theorem flagsOnly_trans {A B S : Type} (api : ActorApi A B S) {w1 w2 w3 : World A}
    (h12 : flagsOnly api w1 w2) (h23 : flagsOnly api w2 w3) : flagsOnly api w1 w3 :=
  fun d => ⟨(h23 d).1.trans (h12 d).1, (h23 d).2.trans (h12 d).2⟩

theorem flagsOnly_step {A B S : Type} (api : ActorApi A B S)
    (hen : ∀ a, api.isEnabled (api.computeBounds a) = api.isEnabled a)
    (hmk : ∀ a, api.enableMask (api.computeBounds a) = api.enableMask a)
    (w : World A) (a : ActorId) : flagsOnly api w (w.computeBounds api a) := by
  intro d
  by_cases hda : d = a
  · subst hda
    simp [World.computeBounds, hen, hmk]
  · simp [World.computeBounds, hda]

theorem ownTested_of_flagsOnly {A B S : Type} (api : ActorApi A B S) (enable_mask : Nat)
    {w w' : World A} (h : flagsOnly api w w') (a : ActorId) :
    ownTested api enable_mask w' a = ownTested api enable_mask w a := by
  unfold ownTested
  rw [(h a).1, (h a).2]

theorem extractVisibleOwn_all {A B S : Type} (api : ActorApi A B S)
    (hen : ∀ a, api.isEnabled (api.computeBounds a) = api.isEnabled a)
    (hmk : ∀ a, api.enableMask (api.computeBounds a) = api.enableMask a)
    (enable_mask : Nat) :
    ∀ (actors list : List ActorId) (w : World A),
      (∀ d ∈ actors, ownTested api enable_mask w d = true) →
      (extractVisibleOwn api none enable_mask actors list w).1 = list ++ actors
        ∧ flagsOnly api w (extractVisibleOwn api none enable_mask actors list w).2
  | [], list, w, _ => by
    simp only [extractVisibleOwn, List.append_nil, true_and]
    exact flagsOnly_refl api w
  | a :: rest, list, w, h => by
    have ha : (api.isEnabled (w.actor a)
        && maskIntersects enable_mask (api.enableMask (w.actor a))) = true :=
      h a (List.mem_cons_self a rest)
    have hstep := flagsOnly_step api hen hmk w a
    have hrest : ∀ d ∈ rest, ownTested api enable_mask (w.computeBounds api a) d = true :=
      fun d hd => (ownTested_of_flagsOnly api enable_mask hstep d).trans
        (h d (List.mem_cons_of_mem a hd))
    have ih := extractVisibleOwn_all api hen hmk enable_mask rest (list ++ [a])
      (w.computeBounds api a) hrest
    unfold extractVisibleOwn
    rw [ha]
    simp only [cameraCullsSphere, if_true, Bool.false_eq_true, if_false]
    refine ⟨?_, flagsOnly_trans api hstep ih.2⟩
    rw [ih.1]
    simp

mutual
theorem extractVisibleActors_all {A B S : Type} (api : ActorApi A B S)
    (hen : ∀ a, api.isEnabled (api.computeBounds a) = api.isEnabled a)
    (hmk : ∀ a, api.enableMask (api.computeBounds a) = api.enableMask a)
    (defaultMask : Nat) :
    ∀ (t : ActorTree B) (list : List ActorId) (enable_mask : Nat) (w : World A),
      allEnabled t = true →
      (∀ d ∈ preorder t, ownTested api enable_mask w d = true
        ∧ ownTested api defaultMask w d = true) →
      (extractVisibleActors api defaultMask t list none enable_mask w).1 = list ++ preorder t
        ∧ flagsOnly api w (extractVisibleActors api defaultMask t list none enable_mask w).2
  | .node actors children enabled aabb, list, enable_mask, w, hall, h => by
    simp only [allEnabled, Bool.and_eq_true] at hall
    simp only [preorder, List.mem_append] at h
    have hown := extractVisibleOwn_all api hen hmk enable_mask actors list w
      (fun d hd => (h d (Or.inl hd)).1)
    have hch := extractVisibleChildren_all api hen hmk defaultMask children
      (extractVisibleOwn api none enable_mask actors list w).1
      (extractVisibleOwn api none enable_mask actors list w).2 hall.2
      (fun d hd => (ownTested_of_flagsOnly api defaultMask hown.2 d).trans (h d (Or.inr hd)).2)
    unfold extractVisibleActors
    rw [hall.1]
    simp only [cameraCullsBox, Bool.not_true, Bool.or_self, Bool.false_eq_true, if_false]
    refine ⟨?_, flagsOnly_trans api hown.2 hch.2⟩
    rw [hch.1, hown.1]
    simp [preorder]
theorem extractVisibleChildren_all {A B S : Type} (api : ActorApi A B S)
    (hen : ∀ a, api.isEnabled (api.computeBounds a) = api.isEnabled a)
    (hmk : ∀ a, api.enableMask (api.computeBounds a) = api.enableMask a)
    (defaultMask : Nat) :
    ∀ (cs : List (Option (ActorTree B))) (list : List ActorId) (w : World A),
      allEnabledChildren cs = true →
      (∀ d ∈ preorderChildren cs, ownTested api defaultMask w d = true) →
      (extractVisibleChildren api defaultMask cs list none w).1 = list ++ preorderChildren cs
        ∧ flagsOnly api w (extractVisibleChildren api defaultMask cs list none w).2
  | [], list, w, _, _ => by
    simp only [extractVisibleChildren, preorderChildren, List.append_nil, true_and]
    exact flagsOnly_refl api w
  | none :: rest, list, w, hall, h => by
    simp only [allEnabledChildren] at hall
    simp only [preorderChildren] at h
    simp only [extractVisibleChildren, preorderChildren]
    exact extractVisibleChildren_all api hen hmk defaultMask rest list w hall h
  | some c :: rest, list, w, hall, h => by
    simp only [allEnabledChildren, Bool.and_eq_true] at hall
    simp only [preorderChildren, List.mem_append] at h
    have hc := extractVisibleActors_all api hen hmk defaultMask c list defaultMask w hall.1
      (fun d hd => ⟨h d (Or.inl hd), h d (Or.inl hd)⟩)
    have hr := extractVisibleChildren_all api hen hmk defaultMask rest
      (extractVisibleActors api defaultMask c list none defaultMask w).1
      (extractVisibleActors api defaultMask c list none defaultMask w).2 hall.2
      (fun d hd => (ownTested_of_flagsOnly api defaultMask hc.2 d).trans (h d (Or.inr hd)))
    simp only [extractVisibleChildren, preorderChildren]
    refine ⟨?_, flagsOnly_trans api hc.2 hr.2⟩
    rw [hr.1, hc.1]
    simp
end

/-! ## C26: without a camera and with every test passing, both extractions agree -/

/-- C26: with no camera, if every node of the subtree is enabled and every drawable listed in
it is enabled with an enable mask that intersects both the caller's mask and the default mask,
`extractVisibleActors` yields exactly the list that `extractActors` yields from the same initial
list. Assumed of the collaborator: `computeBounds` leaves the enabled flag and the enable mask
alone. -/
theorem extractVisibleActors_eq_extractActors {A B S : Type} (api : ActorApi A B S)
    (defaultMask : Nat)
    (hen : ∀ a, api.isEnabled (api.computeBounds a) = api.isEnabled a)
    (hmk : ∀ a, api.enableMask (api.computeBounds a) = api.enableMask a)
    (t : ActorTree B) (list : List ActorId) (enable_mask : Nat) (w : World A)
    (hnodes : allEnabled t = true)
    (hdrawables : ∀ d ∈ preorder t, api.isEnabled (w.actor d) = true
      ∧ enable_mask &&& api.enableMask (w.actor d) ≠ 0
      ∧ defaultMask &&& api.enableMask (w.actor d) ≠ 0) :
    (extractVisibleActors api defaultMask t list none enable_mask w).1 = extractActors t list := by
  rw [extractActors_eq]
  exact (extractVisibleActors_all api hen hmk defaultMask t list enable_mask w hnodes
    (fun d hd => ⟨(ownTested_iff api enable_mask w d).mpr ⟨(hdrawables d hd).1,
        (hdrawables d hd).2.1⟩,
      (ownTested_iff api defaultMask w d).mpr ⟨(hdrawables d hd).1, (hdrawables d hd).2.2⟩⟩)).1

/-- Witness for C26: a tree of two enabled nodes with a null child slot, holding the drawables
`8` and `9` (enabled, all mask bits set), caller's mask `1`. -/
theorem extractVisibleActors_eq_extractActors_witness :
    (extractVisibleActors exApi 0xFFFFFFFF (.node [8] [none, some (.node [9] [] true 0)] true 0)
        [7] none 1 exWorld).1
      = extractActors (.node [8] [none, some (.node [9] [] true 0)] true (0 : Nat)) [7] :=
  extractVisibleActors_eq_extractActors exApi 0xFFFFFFFF (fun _ => rfl) (fun _ => rfl)
    (.node [8] [none, some (.node [9] [] true 0)] true 0) [7] 1 exWorld (by decide)
    (by decide)

/-! ## C24: duplicates in a node's actor list -/

/-- C24, as stated, fails: the node listing only drawable `5` has no duplicates, and after
`addActor(5)` its list is `[5, 5]`. -/
theorem addActor_no_duplicates_counterexample :
    (ActorTree.node [5] [] true (0 : Nat)).actors.Nodup
      ∧ (addActor 5 (ActorTree.node [5] [] true (0 : Nat))).2.actors = [5, 5]
      ∧ ¬ (addActor 5 (ActorTree.node [5] [] true (0 : Nat))).2.actors.Nodup := by
  refine ⟨by decide, by decide, by decide⟩

/-- C24, amended: for every node whose actor list has no duplicates and every drawable `d`,
the actor list after `addActor(d)` has no duplicates if and only if `d` was not already listed
by the node. -/
theorem addActor_no_duplicates {B : Type} (d : ActorId) (n : ActorTree B)
    (hnodup : n.actors.Nodup) :
    (addActor d n).2.actors.Nodup ↔ d ∉ n.actors := by
  cases n with
  | node actors children enabled aabb =>
    simp only [addActor, ActorTree.actors] at hnodup ⊢
    rw [List.nodup_append]
    constructor
    · intro h hd
      exact h.2.2 hd (List.mem_singleton_self d)
    · intro hd
      refine ⟨hnodup, List.nodup_singleton d, ?_⟩
      intro x hx hx'
      rw [List.mem_singleton] at hx'
      subst hx'
      exact hd hx

/-- Witness for the amended C24: adding drawable `6` to the node listing `5`. -/
theorem addActor_no_duplicates_witness :
    (ActorTree.node [5] [] true (0 : Nat)).actors.Nodup
      ∧ 6 ∉ (ActorTree.node [5] [] true (0 : Nat)).actors
      ∧ (addActor 6 (ActorTree.node [5] [] true (0 : Nat))).2.actors.Nodup :=
  ⟨by decide, by decide,
    (addActor_no_duplicates 6 (ActorTree.node [5] [] true (0 : Nat)) (by decide)).mpr
      (by decide)⟩

/-! ## C27: `count()` on reachable states -/

theorem Setter.words_of_units (s : Setter) (h : s.type.unitsPerComponent = 2) :
    s.kind.words = 2 := by
  revert h
  cases s <;> decide

theorem doubleCount_of_even (u : Uniform) (h : u.mData.length % 2 = 0) :
    doubleCount u = .ok ((u.mData.length / 2 : Nat) : Int) := by
  simp [doubleCount, VL_CHECK, Nat.and_one_is_mod, h, Nat.shiftRight_one]

theorem exUniform_reachable : Reachable exUniform :=
  Reachable.setter .setUniformMatrix2x3d 1 [1, 2, 3, 4, 5, 6]
    (Uniform.setName "m" ⟨.UT_FLOAT_VEC3, [7, 7, 7, 7, 7, 7], ""⟩) exUniform
    (Reachable.setName "m" ⟨.UT_FLOAT_VEC3, [7, 7, 7, 7, 7, 7], ""⟩
      (Reachable.setter .setUniform3f 2 [7, 7, 7, 7, 7, 7] Uniform.new _ Reachable.new rfl))
    rfl

theorem reachable_count_ok (u : Uniform) (h : Reachable u) :
    (∃ c : Int, count u = .ok c ∧ 0 ≤ c)
      ∧ (u.mType.unitsPerComponent = 2 → u.mData.length % 2 = 0) := by
  induction h with
  | new => exact ⟨⟨0, rfl, le_refl 0⟩, fun _ => rfl⟩
  | named name => exact ⟨⟨0, rfl, le_refl 0⟩, fun _ => rfl⟩
  | setter s n value u u' _ happly _ =>
    obtain ⟨hn0, ht, hl, _⟩ := s.apply_ok_inv n value u u' happly
    refine ⟨⟨n, ?_, hn0⟩, fun hunits => ?_⟩
    · cases u' with
      | mk type data name =>
        simp only at ht hl
        subst ht
        exact count_after_set s n data name hn0 hl
    · rw [ht] at hunits
      rw [s.words_of_units hunits] at hl
      have hcomp : 1 ≤ s.components := one_le_prod_of_one_le s.dims s.one_le_dims
      have hnat : (u'.mData.length : Int) = ((n * s.components).toNat * 2 : Nat) := by
        rw [hl, Nat.cast_mul, Int.toNat_of_nonneg (by positivity)]
      have := Int.ofNat_inj.mp hnat
      omega
  | setName name u _ ih => exact ih

/-- C27: in every Uniform state reachable from a constructor through setter and `setName`
calls, `count()` returns normally with a value that is not negative: it does not reach its
trapping `default` branch, it does not return `-1`, and the even-length assertion of
`doubleCount()` does not fail; whenever the type tag is one that `count()` handles through
`doubleCount()`, the storage length is even and `doubleCount()` returns half of it. On a freshly
constructed Uniform, named or not (type `UT_NONE`, no data), `count()` returns `0`. -/
theorem count_never_traps (u : Uniform) (h : Reachable u) :
    (∃ c : Int, count u = .ok c ∧ 0 ≤ c)
      ∧ count u ≠ .error .trap
      ∧ count u ≠ .error .checkFailed
      ∧ count u ≠ .ok (-1)
      ∧ (u.mType.unitsPerComponent = 2 →
          u.mData.length % 2 = 0 ∧ doubleCount u = .ok ((u.mData.length / 2 : Nat) : Int))
      ∧ (Uniform.new.mType = .UT_NONE ∧ Uniform.new.mData = [] ∧ count Uniform.new = .ok 0)
      ∧ (∀ name, (Uniform.named name).mType = .UT_NONE ∧ (Uniform.named name).mData = []
          ∧ count (Uniform.named name) = .ok 0) := by
  obtain ⟨⟨c, hc, hc0⟩, heven⟩ := reachable_count_ok u h
  refine ⟨⟨c, hc, hc0⟩, ?_, ?_, ?_, fun hunits => ⟨heven hunits, doubleCount_of_even u
    (heven hunits)⟩, ⟨rfl, rfl, rfl⟩, fun _ => ⟨rfl, rfl, rfl⟩⟩
  · rw [hc]
    simp
  · rw [hc]
    simp
  · rw [hc]
    intro h1
    have h2 : c = -1 := Except.ok.inj h1
    omega

/-- Witness for C27: the state reached by `setUniform3f(2, data)`, `setName("m")`, and then
`setUniformMatrix2x3d(1, data)`, on which `count()` returns `1`. -/
theorem count_never_traps_witness :
    Reachable exUniform ∧ count exUniform = .ok 1 ∧ count exUniform ≠ .error .trap :=
  ⟨exUniform_reachable, by decide, (count_never_traps exUniform exUniform_reachable).2.1⟩

/-! ## Helper lemmas: null child slots -/

theorem aabb_removeNulls {B : Type} (t : ActorTree B) : (removeNulls t).aabb = t.aabb := by
  cases t with
  | node actors children enabled aabb => rfl

mutual
theorem computeAABB_removeNulls {A B S : Type} (api : ActorApi A B S) (ops : AABBOps B) :
    ∀ (t : ActorTree B) (w : World A),
      computeAABB api ops (removeNulls t) w
        = (removeNulls (computeAABB api ops t w).1, (computeAABB api ops t w).2)
  | .node actors children enabled aabb, w => by
    simp only [removeNulls, computeAABB]
    rw [computeAABBChildren_removeNulls api ops children]
theorem computeAABBChildren_removeNulls {A B S : Type} (api : ActorApi A B S) (ops : AABBOps B) :
    ∀ (cs : List (Option (ActorTree B))) (aabb : B) (w : World A),
      computeAABBChildren api ops (removeNullsChildren cs) aabb w
        = (removeNullsChildren (computeAABBChildren api ops cs aabb w).1,
            (computeAABBChildren api ops cs aabb w).2)
  | [], _, _ => rfl
  | none :: rest, aabb, w => by
    simp only [removeNullsChildren, computeAABBChildren]
    exact computeAABBChildren_removeNulls api ops rest aabb w
  | some c :: rest, aabb, w => by
    simp only [removeNullsChildren, computeAABBChildren]
    rw [computeAABB_removeNulls api ops c w]
    simp only [aabb_removeNulls]
    rw [computeAABBChildren_removeNulls api ops rest]
end

mutual
theorem extractActors_removeNulls {B : Type} :
    ∀ (t : ActorTree B) (list : List ActorId),
      extractActors (removeNulls t) list = extractActors t list
  | .node actors children enabled aabb, list => by
    simp only [removeNulls, extractActors]
    exact extractActorsChildren_removeNulls children _
theorem extractActorsChildren_removeNulls {B : Type} :
    ∀ (cs : List (Option (ActorTree B))) (list : List ActorId),
      extractActorsChildren (removeNullsChildren cs) list = extractActorsChildren cs list
  | [], _ => rfl
  | none :: rest, list => by
    simp only [removeNullsChildren, extractActorsChildren]
    exact extractActorsChildren_removeNulls rest list
  | some c :: rest, list => by
    simp only [removeNullsChildren, extractActorsChildren]
    rw [extractActors_removeNulls c list]
    exact extractActorsChildren_removeNulls rest _
end

mutual
theorem extractVisibleActors_removeNulls {A B S : Type} (api : ActorApi A B S)
    (defaultMask : Nat) :
    ∀ (t : ActorTree B) (list : List ActorId) (camera : Option (Camera B S)) (enable_mask : Nat)
      (w : World A),
      extractVisibleActors api defaultMask (removeNulls t) list camera enable_mask w
        = extractVisibleActors api defaultMask t list camera enable_mask w
  | .node actors children enabled aabb, list, camera, enable_mask, w => by
    simp only [removeNulls, extractVisibleActors]
    rw [extractVisibleChildren_removeNulls api defaultMask children]
theorem extractVisibleChildren_removeNulls {A B S : Type} (api : ActorApi A B S)
    (defaultMask : Nat) :
    ∀ (cs : List (Option (ActorTree B))) (list : List ActorId) (camera : Option (Camera B S))
      (w : World A),
      extractVisibleChildren api defaultMask (removeNullsChildren cs) list camera w
        = extractVisibleChildren api defaultMask cs list camera w
  | [], _, _, _ => rfl
  | none :: rest, list, camera, w => by
    simp only [removeNullsChildren, extractVisibleChildren]
    exact extractVisibleChildren_removeNulls api defaultMask rest list camera w
  | some c :: rest, list, camera, w => by
    simp only [removeNullsChildren, extractVisibleChildren]
    rw [extractVisibleActors_removeNulls api defaultMask c list camera defaultMask w]
    exact extractVisibleChildren_removeNulls api defaultMask rest _ camera _
end

theorem eraseActorChildren_head_ge {B : Type} (d : ActorId) :
    ∀ (cs : List (Option (ActorTree B))) (i : Nat) (q : Path),
      (eraseActorChildren d cs i).1 = some q → ∃ h p, q = h :: p ∧ i ≤ h
  | [], _, _, hq => by simp [eraseActorChildren] at hq
  | none :: rest, i, q, hq => by
    simp only [eraseActorChildren] at hq
    obtain ⟨h, p, hqe, hle⟩ := eraseActorChildren_head_ge d rest (i + 1) q hq
    exact ⟨h, p, hqe, by omega⟩
  | some c :: rest, i, q, hq => by
    simp only [eraseActorChildren] at hq
    cases hc : (eraseActor d c).1 with
    | some p =>
      simp only [hc, Option.some.injEq] at hq
      exact ⟨i, p, hq.symm, le_refl i⟩
    | none =>
      simp only [hc] at hq
      obtain ⟨h, p, hqe, hle⟩ := eraseActorChildren_head_ge d rest (i + 1) q hq
      exact ⟨h, p, hqe, by omega⟩

theorem compressFrom_skip_none {B : Type} (d : ActorId) (rest : List (Option (ActorTree B)))
    (i k : Nat) :
    (eraseActorChildren d rest (i + 1)).1.map (compressFrom rest (i + 1) k)
      = (eraseActorChildren d rest (i + 1)).1.map (compressFrom (none :: rest) i k) := by
  cases hq : (eraseActorChildren d rest (i + 1)).1 with
  | none => rfl
  | some q =>
    obtain ⟨h, p, rfl, hle⟩ := eraseActorChildren_head_ge d rest (i + 1) q hq
    have hsub : h - i = (h - (i + 1)) + 1 := by omega
    simp only [Option.map_some', compressFrom, hsub, compressPathChildren]

theorem compressFrom_skip_some {B : Type} (d : ActorId) (c : ActorTree B)
    (rest : List (Option (ActorTree B))) (i k : Nat) :
    (eraseActorChildren d rest (i + 1)).1.map (compressFrom rest (i + 1) (k + 1))
      = (eraseActorChildren d rest (i + 1)).1.map (compressFrom (some c :: rest) i k) := by
  cases hq : (eraseActorChildren d rest (i + 1)).1 with
  | none => rfl
  | some q =>
    obtain ⟨h, p, rfl, hle⟩ := eraseActorChildren_head_ge d rest (i + 1) q hq
    have hsub : h - i = (h - (i + 1)) + 1 := by omega
    simp only [Option.map_some', compressFrom, hsub, compressPathChildren]

theorem compressFrom_zero {B : Type} (actors : List ActorId)
    (children : List (Option (ActorTree B))) (enabled : Bool) (aabb : B) (q : Path) :
    compressFrom children 0 0 q = compressPath (.node actors children enabled aabb) q := by
  cases q with
  | nil => simp [compressFrom, compressPath]
  | cons h p => simp [compressFrom, compressPath]

mutual
theorem eraseActor_removeNulls {B : Type} (d : ActorId) :
    ∀ (t : ActorTree B),
      eraseActor d (removeNulls t)
        = ((eraseActor d t).1.map (compressPath t), removeNulls (eraseActor d t).2)
  | .node actors children enabled aabb => by
    simp only [removeNulls, eraseActor]
    cases hfind : Collection.find actors d with
    | some pos => simp [removeNulls, compressPath]
    | none =>
      simp only [removeNulls]
      rw [eraseActorChildren_removeNulls d children 0 0]
      simp only
      congr 1
      exact congrArg (fun f => (eraseActorChildren d children 0).1.map f)
        (funext (compressFrom_zero actors children enabled aabb))
theorem eraseActorChildren_removeNulls {B : Type} (d : ActorId) :
    ∀ (cs : List (Option (ActorTree B))) (i k : Nat),
      eraseActorChildren d (removeNullsChildren cs) k
        = ((eraseActorChildren d cs i).1.map (compressFrom cs i k),
            removeNullsChildren (eraseActorChildren d cs i).2)
  | [], _, _ => rfl
  | none :: rest, i, k => by
    simp only [removeNullsChildren, eraseActorChildren]
    rw [eraseActorChildren_removeNulls d rest (i + 1) k, compressFrom_skip_none]
  | some c :: rest, i, k => by
    simp only [removeNullsChildren, eraseActorChildren]
    rw [eraseActor_removeNulls d c]
    cases hc : (eraseActor d c).1 with
    | some p =>
      simp [removeNullsChildren, compressFrom, compressPathChildren]
    | none =>
      simp only [Option.map_none', removeNullsChildren]
      rw [eraseActorChildren_removeNulls d rest (i + 1) (k + 1), compressFrom_skip_some d c]
end

theorem compressPathChildren_get {B : Type} :
    ∀ (cs : List (Option (ActorTree B))) (i k : Nat) (p : Path) (c : ActorTree B),
      cs.get? i = some (some c) →
      ∃ j, compressPathChildren cs i p k = (k + j) :: compressPath c p
        ∧ (removeNullsChildren cs).get? j = some (some (removeNulls c))
  | [], _, _, _, _, h => by simp at h
  | none :: rest, 0, _, _, _, h => by simp at h
  | none :: rest, i + 1, k, p, c, h => by
    simp only [List.get?_cons_succ] at h
    simp only [compressPathChildren, removeNullsChildren]
    exact compressPathChildren_get rest i k p c h
  | some c0 :: rest, 0, k, p, c, h => by
    simp only [List.get?_cons_zero, Option.some.injEq] at h
    subst h
    exact ⟨0, by simp [compressPathChildren], by simp [removeNullsChildren]⟩
  | some c0 :: rest, i + 1, k, p, c, h => by
    simp only [List.get?_cons_succ] at h
    obtain ⟨j, hj, hget⟩ := compressPathChildren_get rest i (k + 1) p c h
    refine ⟨j + 1, ?_, ?_⟩
    · simp only [compressPathChildren]
      rw [hj]
      simp [Nat.add_assoc, Nat.add_comm 1 j]
    · simp only [removeNullsChildren, List.get?_cons_succ]
      exact hget

theorem nodeAt_removeNulls {B : Type} :
    ∀ (p : Path) (t n : ActorTree B), nodeAt t p = some n →
      nodeAt (removeNulls t) (compressPath t p) = some (removeNulls n)
  | [], t, n, h => by
    simp only [nodeAt, Option.some.injEq] at h
    subst h
    cases t with
    | node actors children enabled aabb => simp [compressPath, nodeAt]
  | i :: p, .node actors children enabled aabb, n, h => by
    have h' : (match children.get? i with
        | some (some c) => nodeAt c p
        | _ => none) = some n := h
    cases hget : children.get? i with
    | none =>
      rw [hget] at h'
      exact absurd h' (by simp)
    | some slot =>
      cases slot with
      | none =>
        rw [hget] at h'
        exact absurd h' (by simp)
      | some c =>
        rw [hget] at h'
        obtain ⟨j, hj, hgetj⟩ := compressPathChildren_get children i 0 p c hget
        have hstep : nodeAt (removeNulls (ActorTree.node actors children enabled aabb))
            (compressPath (ActorTree.node actors children enabled aabb) (i :: p))
            = nodeAt (removeNulls c) (compressPath c p) := by
          simp only [compressPath, hj, Nat.zero_add]
          show (match (removeNullsChildren children).get? j with
            | some (some c) => nodeAt c (compressPath _ p)
            | _ => none) = _
          rw [hgetj]
        rw [hstep]
        exact nodeAt_removeNulls p c n h'

mutual
theorem removeNulls_no_null {B : Type} :
    ∀ (t n : ActorTree B), n ∈ subtrees (removeNulls t) → none ∉ n.children
  | .node actors children enabled aabb, n, hn => by
    simp only [removeNulls, subtrees, List.mem_cons] at hn
    rcases hn with hn | hn
    · subst hn
      exact (removeNullsChildren_no_null children).1
    · exact (removeNullsChildren_no_null children).2 n hn
theorem removeNullsChildren_no_null {B : Type} :
    ∀ (cs : List (Option (ActorTree B))),
      none ∉ removeNullsChildren cs
        ∧ ∀ n ∈ subtreesChildren (removeNullsChildren cs), none ∉ n.children
  | [] => by simp [removeNullsChildren, subtreesChildren]
  | none :: rest => by
    simp only [removeNullsChildren]
    exact removeNullsChildren_no_null rest
  | some c :: rest => by
    simp only [removeNullsChildren, subtreesChildren, List.mem_cons, List.mem_append]
    refine ⟨fun h => ?_, fun n hn => ?_⟩
    · rcases h with h | h
      · exact absurd h (by simp)
      · exact (removeNullsChildren_no_null rest).1 h
    · rcases hn with hn | hn
      · exact removeNulls_no_null c n hn
      · exact (removeNullsChildren_no_null rest).2 n hn
end

/-! ## C28: null child slots are skipped by every traversal -/

/-- C28: for every tree, possibly with null entries in its children sequences, each of
`computeAABB`, `extractActors`, `extractVisibleActors` and `eraseActor` (all of them total
functions here) gives on the tree with the null entries removed what it gives on the tree
itself: `computeAABB` leaves the same world and the same tree up to the null slots, so the same
`aabb` at the root; both extractions return the same list, and the visible one the same world;
`eraseActor` leaves the same tree up to the null slots and returns the same node, its path
being renumbered over the non-null slots (or `NULL` in both cases). The tree with the null
entries removed has no null child slot in any node, and the renumbered path of a node
designates that node in it. -/
theorem traversals_skip_null_slots {A B S : Type} (api : ActorApi A B S) (ops : AABBOps B)
    (defaultMask : Nat) (t : ActorTree B) (list : List ActorId) (camera : Option (Camera B S))
    (enable_mask : Nat) (w : World A) (d : ActorId) :
    computeAABB api ops (removeNulls t) w
        = (removeNulls (computeAABB api ops t w).1, (computeAABB api ops t w).2)
      ∧ (computeAABB api ops (removeNulls t) w).1.aabb = (computeAABB api ops t w).1.aabb
      ∧ extractActors (removeNulls t) list = extractActors t list
      ∧ extractVisibleActors api defaultMask (removeNulls t) list camera enable_mask w
          = extractVisibleActors api defaultMask t list camera enable_mask w
      ∧ (eraseActor d (removeNulls t)).2 = removeNulls (eraseActor d t).2
      ∧ (eraseActor d (removeNulls t)).1 = (eraseActor d t).1.map (compressPath t)
      ∧ (∀ n ∈ subtrees (removeNulls t), none ∉ n.children)
      ∧ (∀ p n, nodeAt t p = some n →
          nodeAt (removeNulls t) (compressPath t p) = some (removeNulls n)) := by
  refine ⟨computeAABB_removeNulls api ops t w, ?_, extractActors_removeNulls t list,
    extractVisibleActors_removeNulls api defaultMask t list camera enable_mask w, ?_, ?_,
    removeNulls_no_null t, fun p n h => nodeAt_removeNulls p t n h⟩
  · rw [computeAABB_removeNulls api ops t w]
    exact aabb_removeNulls _
  · rw [eraseActor_removeNulls d t]
  · rw [eraseActor_removeNulls d t]

/-- Witness for C28: a root with the slots null, child `A` (holding `5`, with a null slot of its
own), null, child `B` (holding `6`): erasing `6` returns the node of path `[3]`, which is the
node of path `[1]` once the null slots are removed. -/
theorem traversals_skip_null_slots_witness :
    (eraseActor 6 (ActorTree.node [4]
        [none, some (.node [5] [none] true 0), none, some (.node [6] [] true 0)] true
        (0 : Nat))).1 = some [3]
      ∧ (eraseActor 6 (removeNulls (ActorTree.node [4]
        [none, some (.node [5] [none] true 0), none, some (.node [6] [] true 0)] true
        (0 : Nat)))).1 = some [1]
      ∧ removeNulls (ActorTree.node [4]
          [none, some (.node [5] [none] true 0), none, some (.node [6] [] true 0)] true
          (0 : Nat))
        = .node [4] [some (.node [5] [] true 0), some (.node [6] [] true 0)] true 0
      ∧ nodeAt (ActorTree.node [4]
          [none, some (.node [5] [none] true 0), none, some (.node [6] [] true 0)] true
          (0 : Nat)) [3] = some (.node [6] [] true 0)
      ∧ nodeAt (removeNulls (ActorTree.node [4]
          [none, some (.node [5] [none] true 0), none, some (.node [6] [] true 0)] true
          (0 : Nat)))
          (compressPath (ActorTree.node [4]
            [none, some (.node [5] [none] true 0), none, some (.node [6] [] true 0)] true
            (0 : Nat)) [3])
        = some (removeNulls (.node [6] [] true 0)) :=
  ⟨by decide, by decide, rfl, rfl,
    (traversals_skip_null_slots exApi exOps 0xFFFFFFFF (ActorTree.node [4]
        [none, some (.node [5] [none] true 0), none, some (.node [6] [] true 0)] true
        (0 : Nat)) [] none 1 exWorld 6).2.2.2.2.2.2.2 [3] (.node [6] [] true 0) rfl⟩

end vl
